import Mathlib

/-
Formal model of fb-adb's `util.c` resource-ownership runtime.

The C file implements a tree of "reslists" (scopes) holding cleanup records,
a longjmp-based error unwind protocol (`die_oom` / `diev` / `catch_error`),
and allocation / file-descriptor primitives (`xalloc`, `xavprintf`, `xopen`,
`xpipe`, `xdup`, `fdh_dup`) built on a two-phase register/commit protocol.

The embedding below represents the process state explicitly:
  * the scope tree is held as a zipper (`Machine.frames`): the head frame is
    the scope `current_reslist` points at, deeper frames are its ancestors up
    to the root; a frame's `contents` are the scope's child nodes that are not
    on the current path (most recently inserted first, as `LIST_INSERT_HEAD`
    produces);
  * `Machine.handlers` is the `current_errh` chain (head = current handler);
  * `struct errinfo` slots live in the store `Machine.eiSlots`, since in C
    they are caller-owned locals whose address the handler retains;
  * `malloc` success/failure and syscall success/failure are driven by
    explicit oracles (`mallocFails`, `sysErrs`), so out-of-memory and
    operating-system failure paths are ordinary executable branches;
  * observable effects (allocations, frees, fd opens/closes, invocations of
    generic cleanup actions) are appended to the event log `Machine.events`.

Machine integers (fds, error codes, ids) are modelled as `Nat`; memory
contents are not modelled (a heap allocation is just a fresh id plus its
recorded size).  `siglongjmp` is modelled by the `MRes.raised` outcome, which
propagates to the dynamically nearest `catch_error`; `abort()` is the
`MRes.abort` outcome (tagged by which abort site fired); usage that the C
code documents as undefined (e.g. unbalanced push/pop corrupting the tree,
committing a wild record pointer) is the `MRes.stuck` outcome.
-/

/-- Argument vector for the `printf`-style formatting primitives
(`va_list` contents restricted to the conversions `util.c` uses). -/
inductive FmtArg where
  | int (i : Int)
  | str (s : String)
deriving Repr, DecidableEq

/-- Model of libc `vsnprintf` restricted to the directives appearing in
`util.c`: `%d`, `%s`, `%%` and precision-limited `%.Ns` (one or two digit
precision, enough for the `%.80s` used by `xavprintf`).  Returns `none` for
an invalid format string or argument mismatch (where C `vsnprintf` reports a
negative length, resp. has undefined behaviour). -/
def fmtRun : List Char → List FmtArg → Option (List Char)
  | [], _ => some []
  | '%' :: rest, args =>
    match rest, args with
    | 'd' :: rest2, FmtArg.int i :: args2 =>
      (fmtRun rest2 args2).map (fun t => (toString i).data ++ t)
    | 's' :: rest2, FmtArg.str s :: args2 =>
      (fmtRun rest2 args2).map (fun t => s.data ++ t)
    | '%' :: rest2, args2 =>
      (fmtRun rest2 args2).map (fun t => '%' :: t)
    | '.' :: d1 :: 's' :: rest2, FmtArg.str s :: args2 =>
      if d1.isDigit then
        (fmtRun rest2 args2).map (fun t => s.data.take (d1.toNat - 48) ++ t)
      else none
    | '.' :: d1 :: d2 :: 's' :: rest2, FmtArg.str s :: args2 =>
      if d1.isDigit && d2.isDigit then
        (fmtRun rest2 args2).map
          (fun t => s.data.take ((d1.toNat - 48) * 10 + (d2.toNat - 48)) ++ t)
      else none
    | _, _ => none
  | c :: rest, args => (fmtRun rest args).map (fun t => c :: t)

/-- String-level wrapper for `fmtRun`. -/
def fmtRunS (fmt : String) (args : List FmtArg) : Option String :=
  (fmtRun fmt.data args).map List.asString

/-- `errno` value `ENOMEM` (the code `die_oom` stores). -/
def ENOMEM : Nat := 12

/-- `errno` value `EINVAL` (the code `xavprintf` raises on a bad format). -/
def EINVAL : Nat := 22

/-- `errno` value `EBADF` (bad file descriptor). -/
def EBADF : Nat := 9

/-- A committed cleanup action (`cleanupfn fn` + `fndata`), restricted to the
shapes `util.c` commits: closing an fd (`fd_cleanup`), freeing a heap
allocation (`free`), or an arbitrary caller action (opaque token). -/
inductive CAct where
  | closeFd (fd : Nat)
  | freeMem (aid : Nat)
  | custom (tok : Nat)
deriving Repr, DecidableEq

/-- A node of the resource tree: `struct resource`, discriminated into
`RES_RESLIST` (a scope with its child list, most recently inserted first) and
`RES_CLEANUP` (a record, unarmed while `fn == NULL`). -/
inductive Node where
  | scope (id : Nat) (contents : List Node)
  | cleanup (id : Nat) (act : Option CAct)

/-- A scope on the `current_reslist` parent chain: its id and the children
that are not themselves on the current path. -/
structure Frame where
  sid : Nat
  contents : List Node

/-- One `struct errinfo` (caller-owned error-report slot). -/
structure ErrInfoV where
  err : Option Nat
  msg : Option String
  prg : Option String
  want_msg : Bool
deriving Repr, DecidableEq

/-- One `struct errhandler`: the scope to destroy when this handler fires
and the (possibly absent) error-info slot, identified by its index in the
machine's slot store. -/
structure Handler where
  rl : Nat
  ei : Option Nat
deriving Repr, DecidableEq

/-- Observable events, in chronological order. -/
inductive Ev where
  | alloc (aid sz : Nat)
  | freeE (aid : Nat)
  | openedFd (fd : Nat)
  | closedFd (fd : Nat)
  | customE (tok : Nat)
deriving Repr, DecidableEq

/-- The whole process state of the `util.c` runtime. -/
structure Machine where
  frames : List Frame
  handlers : List Handler
  eiSlots : List ErrInfoV
  prgname : String
  nextId : Nat
  nextFd : Nat
  openFds : List Nat
  mallocFails : List Bool
  sysErrs : List (Option Nat)
  events : List Ev
  caughtLog : List Bool

/-- Outcome of running a piece of the runtime: normal return with a value,
`siglongjmp` taken to the nearest handler's resumption point, process
`abort()` (tagged by the abort site), or behaviour `util.c` documents as
undefined usage. -/
inductive MRes (α : Type) where
  | ok (a : α) (m : Machine)
  | raised (m : Machine)
  | abort (k : Bool)
  | stuck

/-- Abort-site tag: `true` for the raise-with-no-handler `abort()` in
`die_oom`/`diev`, `false` for the `EBADF` `abort()` in `fd_cleanup`. -/
def noHandlerAbort : Bool := true

/-- Abort-site tag for the `EBADF` `abort()` in `fd_cleanup`. -/
def closeBadFdAbort : Bool := false

/-- Sequencing: normal control continues, a taken `siglongjmp`, an abort and
undefined usage all skip the continuation. -/
def MRes.bind {α β : Type} : MRes α → (α → Machine → MRes β) → MRes β
  | .ok a m, f => f a m
  | .raised m, _ => .raised m
  | .abort k, _ => .abort k
  | .stuck, _ => .stuck

/-- Cast for calls that never return normally (`die_oom`, `diev`,
`die_errno`): a normal return is unreachable. -/
def MRes.noreturn {α β : Type} : MRes α → MRes β
  | .ok _ _ => .stuck
  | .raised m => .raised m
  | .abort k => .abort k
  | .stuck => .stuck

/-- Append an event to the log. -/
def logEv (e : Ev) (m : Machine) : Machine :=
  { m with events := m.events ++ [e] }

/-- Consume one answer from the `malloc` oracle; `true` means the allocation
succeeds (an exhausted oracle always succeeds). -/
def takeMalloc (m : Machine) : Bool × Machine :=
  match m.mallocFails with
  | [] => (true, m)
  | b :: rest => (!b, { m with mallocFails := rest })

/-- Consume one answer from the syscall oracle; `none` means the call
succeeds, `some e` means it fails with `errno = e`. -/
def takeSys (m : Machine) : Option Nat × Machine :=
  match m.sysErrs with
  | [] => (none, m)
  | r :: rest => (r, { m with sysErrs := rest })

/-- Draw a fresh id (models a fresh heap address). -/
def freshId (m : Machine) : Nat × Machine :=
  (m.nextId, { m with nextId := m.nextId + 1 })

/-- `LIST_INSERT_HEAD(&current_reslist->contents, ..)`: link a node as the
head child of the current scope. -/
def pushNode (n : Node) (m : Machine) : MRes Unit :=
  match m.frames with
  | [] => MRes.stuck
  | f :: rest => MRes.ok () { m with frames := ⟨f.sid, n :: f.contents⟩ :: rest }

/-- Default (zero-initialised) error-info slot. -/
def slotDefault : ErrInfoV := ⟨none, none, none, false⟩

/-- Read error-info slot `k`. -/
def getSlot (k : Nat) (m : Machine) : ErrInfoV :=
  m.eiSlots.getD k slotDefault

/-- Overwrite error-info slot `k`. -/
def setSlot (k : Nat) (v : ErrInfoV) (m : Machine) : Machine :=
  { m with eiSlots := m.eiSlots.set k v }

/-- `fd_cleanup`: the committed close action for descriptor-valued
resources; `close` on a descriptor the engine no longer holds fails with
`EBADF` and the code calls `abort()`. -/
def fd_cleanup (fd : Nat) (m : Machine) : MRes Unit :=
  if fd ∈ m.openFds then
    MRes.ok () (logEv (Ev.closedFd fd) { m with openFds := m.openFds.erase fd })
  else MRes.abort closeBadFdAbort

/-- Invoke a committed cleanup action (`cl->fn(cl->fndata)`). -/
def applyAct (a : CAct) (m : Machine) : MRes Unit :=
  match a with
  | CAct.closeFd fd => fd_cleanup fd m
  | CAct.freeMem aid => MRes.ok () (logEv (Ev.freeE aid) m)
  | CAct.custom tok => MRes.ok () (logEv (Ev.customE tok) m)

mutual
/-- Destruction of one (already detached) resource node, as performed by the
loop body of `reslist_destroy`: a sub-reslist is destroyed recursively, an
armed cleanup record runs its action, an unarmed record is a no-op. -/
def destroyNode : Node → Machine → MRes Unit
  | Node.scope _ cs, m => destroyContents cs m
  | Node.cleanup _ none, m => MRes.ok () m
  | Node.cleanup _ (some a), m => applyAct a m

/-- The `while (!LIST_EMPTY(..))` loop of `reslist_destroy`: children are
removed and destroyed head-first (most recently inserted first). -/
def destroyContents : List Node → Machine → MRes Unit
  | [], m => MRes.ok () m
  | n :: rest, m =>
    match destroyNode n m with
    | MRes.ok _ m1 => destroyContents rest m1
    | r => r
end

/-- Find scope `sid` inside a child list (descending into sub-scopes) and
remove it, returning its contents and the list without it
(`LIST_REMOVE` of a linked scope). -/
def extractScope (sid : Nat) : List Node → Option (List Node × List Node)
  | [] => none
  | Node.scope id cs :: rest =>
    if id = sid then some (cs, rest)
    else
      match extractScope sid cs with
      | some (found, cs2) => some (found, Node.scope id cs2 :: rest)
      | none =>
        match extractScope sid rest with
        | some (found, rest2) => some (found, Node.scope id cs :: rest2)
        | none => none
  | n :: rest =>
    match extractScope sid rest with
    | some (found, rest2) => some (found, n :: rest2)
    | none => none

/-- Find and remove a linked (non-current-path) scope in the live tree. -/
def extractFromFrames (sid : Nat) : List Frame → Option (List Node × List Frame)
  | [] => none
  | f :: rest =>
    match extractScope sid f.contents with
    | some (found, cs2) => some (found, ⟨f.sid, cs2⟩ :: rest)
    | none => (extractFromFrames sid rest).map (fun p => (p.1, f :: p.2))

/-- Split the current-path zipper at the frame with id `sid`:
`(frames from current down to sid inclusive, remaining ancestor frames)`. -/
def splitFrames (sid : Nat) : List Frame → Option (List Frame × List Frame)
  | [] => none
  | f :: rest =>
    if f.sid = sid then some ([f], rest)
    else (splitFrames sid rest).map (fun p => (f :: p.1, p.2))

/-- Reconstitute a prefix of the zipper as a single tree node: each frame is
a scope whose head child is the next-deeper frame's scope. -/
def framesToNode : List Frame → Option Node
  | [] => none
  | f :: rest =>
    some (rest.foldl (fun child g => Node.scope g.sid (child :: g.contents))
      (Node.scope f.sid f.contents))

/-- Does a child list contain scope `sid` as a direct member? -/
def containsScopeTop (sid : Nat) : List Node → Bool
  | [] => false
  | Node.scope id _ :: rest => id = sid || containsScopeTop sid rest
  | _ :: rest => containsScopeTop sid rest

/-- `current_reslist = rl->parent` for the raise path: if `rl` is on the
current path, the scopes below it become its (still linked) subtree, hanging
as the head child of its parent, and the parent becomes current; if `rl` is
already a direct child of the current scope (the re-raise case during error
message formatting), the current scope is already its parent.  Any other
shape is outside the invariant the handlers maintain. -/
def reslistSetCurrentToParent (sid : Nat) (m : Machine) : Option Machine :=
  match splitFrames sid m.frames with
  | some (below, f :: rest) =>
    (framesToNode below).map
      (fun nd => { m with frames := ⟨f.sid, nd :: f.contents⟩ :: rest })
  | some (_, []) => none
  | none =>
    match m.frames with
    | f :: _ => if containsScopeTop sid f.contents then some m else none
    | [] => none

/-- `reslist_destroy(rl)` for a linked, non-current scope: unlink it from its
parent's child list, then destroy children head-first and free it. -/
def reslist_destroy (sid : Nat) (m : Machine) : MRes Unit :=
  match extractFromFrames sid m.frames with
  | none => MRes.stuck
  | some (cs, frames2) => destroyNode (Node.scope sid cs) { m with frames := frames2 }

/-- `reslist_destroy` on the root at process end (`main`'s final
`reslist_destroy(top_rl)`): tear down the entire remaining tree. -/
def destroyAllFrames (m : Machine) : MRes Unit :=
  match framesToNode m.frames with
  | none => MRes.stuck
  | some nd => destroyNode nd { m with frames := [] }

/-- Store an error code into slot `k` (`ei->err = err`). -/
def slotSetErr (k code : Nat) (m : Machine) : Machine :=
  setSlot k { getSlot k m with err := some code } m

/-- Store a message into slot `k` (`ei->msg = ..`). -/
def slotSetMsg (k : Nat) (s : String) (m : Machine) : Machine :=
  setSlot k { getSlot k m with msg := some s } m

/-- Store the program identity into slot `k` (`ei->prgname = ..`). -/
def slotSetPrg (k : Nat) (s : String) (m : Machine) : Machine :=
  setSlot k { getSlot k m with prg := some s } m

/-- The slot writes `die_oom` performs when the handler has an error-info
slot: the fixed code `ENOMEM` and the static message `"no memory"`,
allocating nothing. -/
def die_oom_slot (h : Handler) (m1 : Machine) : Machine :=
  match h.ei with
  | none => m1
  | some k =>
    setSlot k { getSlot k m1 with err := some ENOMEM, msg := some "no memory" } m1

/-- `die_oom`: abort if no handler is installed; otherwise move the current
scope to the handler scope's parent, store the fixed code `ENOMEM` and the
static message `"no memory"` into the error-info slot if one is present
(allocating nothing), destroy the handler's scope and take the jump. -/
def die_oom (m : Machine) : MRes Unit :=
  match m.handlers with
  | [] => MRes.abort noHandlerAbort
  | h :: _ =>
    match reslistSetCurrentToParent h.rl m with
    | none => MRes.stuck
    | some m1 =>
      match reslist_destroy h.rl (die_oom_slot h m1) with
      | MRes.ok _ m3 => MRes.raised m3
      | r => r

/-- `reslist_push_new`: `malloc` a scope (routing failure through
`die_oom`), link it as head child of the current scope, make it current. -/
def reslist_push_new (m : Machine) : MRes Nat :=
  match takeMalloc m with
  | (false, m1) => MRes.noreturn (die_oom m1)
  | (true, m1) =>
    match m1.frames with
    | [] => MRes.stuck
    | _ :: _ =>
      match freshId m1 with
      | (sid, m2) => MRes.ok sid { m2 with frames := ⟨sid, []⟩ :: m2.frames }

/-- `reslist_pop_nodestroy`: `current_reslist = current_reslist->parent`.
The popped scope stays linked in its parent's child list (in the zipper it
turns from the active frame into an ordinary head child of the parent). -/
def reslist_pop_nodestroy (m : Machine) : MRes Unit :=
  match m.frames with
  | f :: g :: rest =>
    MRes.ok () { m with frames := ⟨g.sid, Node.scope f.sid f.contents :: g.contents⟩ :: rest }
  | _ => MRes.stuck

/-- `cleanup_allocate`: `malloc` a record (failure routed through
`die_oom`), link it unarmed (`fn = NULL`) into the current scope. -/
def cleanup_allocate (m : Machine) : MRes Nat :=
  match takeMalloc m with
  | (false, m1) => MRes.noreturn (die_oom m1)
  | (true, m1) =>
    match freshId m1 with
    | (cid, m2) => MRes.bind (pushNode (Node.cleanup cid none) m2) (fun _ m3 => MRes.ok cid m3)

/-- Arm record `cid` inside a child list (`cl->fn = fn; cl->fndata = ..`,
located by following links from the tree). -/
def armInNodes (cid : Nat) (a : CAct) : List Node → Option (List Node)
  | [] => none
  | Node.cleanup id old :: rest =>
    if id = cid then some (Node.cleanup id (some a) :: rest)
    else (armInNodes cid a rest).map (fun l => Node.cleanup id old :: l)
  | Node.scope id cs :: rest =>
    match armInNodes cid a cs with
    | some cs2 => some (Node.scope id cs2 :: rest)
    | none => (armInNodes cid a rest).map (fun l => Node.scope id cs :: l)

/-- Arm record `cid` wherever it lives in the live tree. -/
def armInFrames (cid : Nat) (a : CAct) : List Frame → Option (List Frame)
  | [] => none
  | f :: rest =>
    match armInNodes cid a f.contents with
    | some cs2 => some (⟨f.sid, cs2⟩ :: rest)
    | none => (armInFrames cid a rest).map (fun l => f :: l)

/-- `cleanup_commit`: arm a previously registered record.  A record id not
present in the live tree is a wild pointer (undefined usage). -/
def cleanup_commit (cid : Nat) (a : CAct) (m : Machine) : MRes Unit :=
  match armInFrames cid a m.frames with
  | some fs => MRes.ok () { m with frames := fs }
  | none => MRes.stuck

/-- `cleanup_commit_close_fd`: commit `fd_cleanup` for `fd`. -/
def cleanup_commit_close_fd (cid fd : Nat) (m : Machine) : MRes Unit :=
  cleanup_commit cid (CAct.closeFd fd) m

/-- `xalloc`: register an unarmed record, `malloc` the payload (failure
routed through `die_oom`, leaving the unarmed record to vanish on unwind),
then commit a free action for the payload. -/
def xalloc (sz : Nat) (m : Machine) : MRes Nat :=
  MRes.bind (cleanup_allocate m) (fun cl m1 =>
    match takeMalloc m1 with
    | (false, m2) => MRes.noreturn (die_oom m2)
    | (true, m2) =>
      match freshId m2 with
      | (aid, m3) =>
        MRes.bind (cleanup_commit cl (CAct.freeMem aid) (logEv (Ev.alloc aid sz) m3))
          (fun _ m4 => MRes.ok aid m4))

/-- `xcalloc`: `xalloc` then zero-fill (memory contents are not modelled, so
the zeroing is unobservable here). -/
def xcalloc (sz : Nat) (m : Machine) : MRes Nat := xalloc sz m

/-- The successful-format tail of `xavprintf`: allocate `length + 1` bytes
via `xalloc` and format into them, returning the string. -/
def xalloc_string (s : String) (m : Machine) : MRes String :=
  MRes.bind (xalloc (s.length + 1) m) (fun _ m1 => MRes.ok s m1)

/-- The format string of the `die(EINVAL, ..)` raised by `xavprintf` when
the length-computing `vsnprintf` pass reports an invalid format. -/
def invalidFmtFmt : String := "invalid format string %.80s"

/-- The message that `die(EINVAL, "invalid format string %.80s", fmt)`
formats (always a valid format, so the raise cannot recurse further). -/
def invalidFmtMsg (fmt : String) : String :=
  List.asString ((fmtRun invalidFmtFmt.data [FmtArg.str fmt]).getD [])

/-- Shared tail of `diev`: destroy the handler's scope and take the jump. -/
def dievTail (hrl : Nat) (m : Machine) : MRes Unit :=
  match reslist_destroy hrl m with
  | MRes.ok _ m1 => MRes.raised m1
  | r => r

/-- The `want_msg` message-building part of `diev`, run after the current
scope has already moved to the handler scope's parent: allocate the
formatted message and a copy of `prgname` (both via `xalloc`, so an
out-of-memory here routes through `die_oom`, which finds the same handler
and its still-linked scope), store them in the slot, then destroy and
jump. -/
def dievMsg (k hrl : Nat) (s : String) (m : Machine) : MRes Unit :=
  MRes.bind (xalloc_string s m) (fun msg m1 =>
    MRes.bind (xalloc_string (slotSetMsg k msg m1).prgname (slotSetMsg k msg m1))
      (fun prg m3 => dievTail hrl (slotSetPrg k prg m3)))

/-- `diev`: abort if no handler; else move the current scope up to the
handler scope's parent *before* any allocation, store the error code, then
(if the installer wants a message) format the message and program identity
into the surviving parent scope, destroy the handler's scope and jump.
An invalid format string makes the inner `xavprintf` re-raise
`die(EINVAL, "invalid format string %.80s", fmt)`; that inner `diev` runs
against the same handler with the unwind prologue already in place, so it is
flattened here: the code becomes `EINVAL` and the (always valid) diagnostic
message is formatted instead. -/
def diev (code : Nat) (fmt : String) (args : List FmtArg) (m : Machine) : MRes Unit :=
  match m.handlers with
  | [] => MRes.abort noHandlerAbort
  | h :: _ =>
    match reslistSetCurrentToParent h.rl m with
    | none => MRes.stuck
    | some m1 =>
      match h.ei with
      | none => dievTail h.rl m1
      | some k =>
        if (getSlot k (slotSetErr k code m1)).want_msg then
          match fmtRunS fmt args with
          | some s => dievMsg k h.rl s (slotSetErr k code m1)
          | none =>
            dievMsg k h.rl (invalidFmtMsg fmt) (slotSetErr k EINVAL (slotSetErr k code m1))
        else dievTail h.rl (slotSetErr k code m1)

/-- `die`: the variadic wrapper around `diev`. -/
def die (code : Nat) (fmt : String) (args : List FmtArg) (m : Machine) : MRes Unit :=
  diev code fmt args m

/-- `xavprintf`: length-only `vsnprintf` pass; on a negative result raise
`die(EINVAL, ..)` (a distinct code, not out-of-memory); otherwise allocate
`length + 1` bytes via `xalloc` and format into them. -/
def xavprintf (fmt : String) (args : List FmtArg) (m : Machine) : MRes String :=
  match fmtRunS fmt args with
  | some s => xalloc_string s m
  | none => MRes.noreturn (die EINVAL invalidFmtFmt [FmtArg.str fmt] m)

/-- `xaprintf`: the variadic wrapper around `xavprintf`. -/
def xaprintf (fmt : String) (args : List FmtArg) (m : Machine) : MRes String :=
  xavprintf fmt args m

/-- `xstrdup(s) = xaprintf("%s", s)`. -/
def xstrdup (s : String) (m : Machine) : MRes String :=
  xaprintf "%s" [FmtArg.str s] m

/-- Model of libc `strerror` (an opaque static string per error code;
`strerror` does not allocate through the engine). -/
def strerrorM (e : Nat) : String := "strerror " ++ toString e

/-- `die_errno`: capture `errno`, format the context message *in the current
scope* (before any unwinding), then `die(e, "%s: %s", msg, strerror(e))`. -/
def die_errno (e : Nat) (fmt : String) (args : List FmtArg) (m : Machine) : MRes Unit :=
  MRes.bind (xavprintf fmt args m) (fun s m1 =>
    diev e "%s: %s" [FmtArg.str s, FmtArg.str (strerrorM e)] m1)

/-- `xopen`: register the cleanup record *before* the `open` syscall; on
syscall failure raise `die_errno` (the unarmed record is discarded on
unwind); on success commit the close action and return the new fd. -/
def xopen (path : String) (m : Machine) : MRes Nat :=
  MRes.bind (cleanup_allocate m) (fun cl m1 =>
    match takeSys m1 with
    | (some e, m2) => MRes.noreturn (die_errno e "open %s" [FmtArg.str path] m2)
    | (none, m2) =>
      let fd := m2.nextFd
      let m3 := logEv (Ev.openedFd fd) { m2 with nextFd := fd + 1, openFds := fd :: m2.openFds }
      MRes.bind (cleanup_commit_close_fd cl fd m3) (fun _ m4 => MRes.ok fd m4))

/-- `xpipe`: register one record per descriptor before the `pipe2` syscall,
then commit a close action for each end. -/
def xpipe (m : Machine) : MRes (Nat × Nat) :=
  MRes.bind (cleanup_allocate m) (fun cl0 m1 =>
  MRes.bind (cleanup_allocate m1) (fun cl1 m2 =>
    match takeSys m2 with
    | (some e, m3) => MRes.noreturn (die_errno e "pipe2" [] m3)
    | (none, m3) =>
      let fd0 := m3.nextFd
      let fd1 := m3.nextFd + 1
      let m4 := logEv (Ev.openedFd fd1) (logEv (Ev.openedFd fd0)
        { m3 with nextFd := fd1 + 1, openFds := fd1 :: fd0 :: m3.openFds })
      MRes.bind (cleanup_commit_close_fd cl0 fd0 m4) (fun _ m5 =>
      MRes.bind (cleanup_commit_close_fd cl1 fd1 m5) (fun _ m6 =>
        MRes.ok (fd0, fd1) m6))))

/-- `xdup`: register the record, `fcntl(fd, F_DUPFD_CLOEXEC, fd)` (fails
with `EBADF` on a dead descriptor), commit the close action on success. -/
def xdup (fd : Nat) (m : Machine) : MRes Nat :=
  MRes.bind (cleanup_allocate m) (fun cl m1 =>
    match takeSys m1 with
    | (some e, m2) => MRes.noreturn (die_errno e "F_DUPFD_CLOEXEC" [] m2)
    | (none, m2) =>
      if fd ∈ m2.openFds then
        let nfd := m2.nextFd
        let m3 := logEv (Ev.openedFd nfd) { m2 with nextFd := nfd + 1, openFds := nfd :: m2.openFds }
        MRes.bind (cleanup_commit_close_fd cl nfd m3) (fun _ m4 => MRes.ok nfd m4)
      else MRes.noreturn (die_errno EBADF "F_DUPFD_CLOEXEC" [] m2))

/-- `struct fdh`: the handle's dedicated scope plus the duplicated fd. -/
structure Fdh where
  rl : Nat
  fd : Nat
deriving Repr, DecidableEq

/-- Modelled `sizeof (struct fdh)`. -/
def fdhSize : Nat := 2

/-- `fdh_dup`: push a fresh scope, `xalloc` the handle inside it, `xdup` the
descriptor into it, pop the scope without destroying it, return the
handle. -/
def fdh_dup (fd : Nat) (m : Machine) : MRes Fdh :=
  MRes.bind (reslist_push_new m) (fun rl m1 =>
  MRes.bind (xalloc fdhSize m1) (fun _ m2 =>
  MRes.bind (xdup fd m2) (fun nfd m3 =>
  MRes.bind (reslist_pop_nodestroy m3) (fun _ m4 =>
    MRes.ok (Fdh.mk rl nfd) m4))))

/-- `fdh_destroy`: destroy the handle's scope (closing its fd and freeing
the handle allocation). -/
def fdh_destroy (h : Fdh) (m : Machine) : MRes Unit :=
  reslist_destroy h.rl m

/-- Deep embedding of client code built from the runtime's primitives: the
shapes a C caller of `util.c` can compose (sequencing, scope push/pop,
register/commit, the raising operations, the acquisition primitives, and
`catch_error` with a nested body). -/
inductive Prog where
  | skip
  | seq (p q : Prog)
  | pushScope
  | popScope
  | register
  | commit (cid : Nat) (tok : Nat)
  | raiseE (code : Nat) (fmt : String) (args : List FmtArg)
  | raiseOom
  | allocP (sz : Nat)
  | openP (path : String)
  | pipeP
  | dupP (fd : Nat)
  | catchE (useEi : Bool) (wantMsg : Bool) (body : Prog)

/-- The handler-installation prologue of `catch_error`: a fresh error-info
slot if the caller passed one (`want_msg` as requested), and the new handler
(pairing the freshly pushed scope with the slot) becomes `current_errh`. -/
def catchInstall (useEi wantMsg : Bool) (rl : Nat) (m : Machine) : Machine :=
  if useEi then
    { m with eiSlots := m.eiSlots ++ [⟨none, none, none, wantMsg⟩],
             handlers := ⟨rl, some m.eiSlots.length⟩ :: m.handlers }
  else { m with handlers := ⟨rl, none⟩ :: m.handlers }

/-- Interpreter for `Prog`.  `catch_error` is the only construct that
touches the handler chain: it saves `current_errh`, pushes a fresh scope as
the unwind target, installs the new handler, runs the body, and restores the
saved handler *unconditionally* — both when the body returns normally and
when a raise transferred control back — recording the returned boolean
(true = an error unwound) in `caughtLog`. -/
def exec : Prog → Machine → MRes Unit
  | Prog.skip, m => MRes.ok () m
  | Prog.seq p q, m => MRes.bind (exec p m) (fun _ m1 => exec q m1)
  | Prog.pushScope, m => MRes.bind (reslist_push_new m) (fun _ m1 => MRes.ok () m1)
  | Prog.popScope, m => reslist_pop_nodestroy m
  | Prog.register, m => MRes.bind (cleanup_allocate m) (fun _ m1 => MRes.ok () m1)
  | Prog.commit cid tok, m => cleanup_commit cid (CAct.custom tok) m
  | Prog.raiseE code fmt args, m => diev code fmt args m
  | Prog.raiseOom, m => die_oom m
  | Prog.allocP sz, m => MRes.bind (xalloc sz m) (fun _ m1 => MRes.ok () m1)
  | Prog.openP path, m => MRes.bind (xopen path m) (fun _ m1 => MRes.ok () m1)
  | Prog.pipeP, m => MRes.bind (xpipe m) (fun _ m1 => MRes.ok () m1)
  | Prog.dupP fd, m => MRes.bind (xdup fd m) (fun _ m1 => MRes.ok () m1)
  | Prog.catchE u w body, m =>
    match reslist_push_new m with
    | MRes.ok rl m1 =>
      match exec body (catchInstall u w rl m1) with
      | MRes.ok _ m3 =>
        MRes.ok () { m3 with handlers := m.handlers, caughtLog := false :: m3.caughtLog }
      | MRes.raised m3 =>
        MRes.ok () { m3 with handlers := m.handlers, caughtLog := true :: m3.caughtLog }
      | MRes.abort k => MRes.abort k
      | MRes.stuck => MRes.stuck
    | MRes.raised m1 => MRes.raised m1
    | MRes.abort k => MRes.abort k
    | MRes.stuck => MRes.stuck

/-- `catch_error(fn, fndata, ei)` with body `body`. -/
def catch_error (useEi wantMsg : Bool) (body : Prog) (m : Machine) : MRes Unit :=
  exec (Prog.catchE useEi wantMsg body) m

/-- The machine as `main` sets it up before dispatching: a root scope
(id 0), no handler, no live allocations, the standard descriptors open. -/
def initMachine : Machine where
  frames := [⟨0, []⟩]
  handlers := []
  eiSlots := []
  prgname := "fb-adb"
  nextId := 1
  nextFd := 3
  openFds := [0, 1, 2]
  mallocFails := []
  sysErrs := []
  events := []
  caughtLog := []

/-- The operations claim C1 quantifies over: scope pushes, cleanup-record
registrations, and commits of generic actions (opaque tokens). -/
inductive ROp where
  | push
  | register
  | commit (cid : Nat) (tok : Nat)
deriving Repr, DecidableEq

/-- View an `ROp` as a program step. -/
def ROp.toProg : ROp → Prog
  | ROp.push => Prog.pushScope
  | ROp.register => Prog.register
  | ROp.commit cid tok => Prog.commit cid tok

/-- Run a sequence of `ROp`s. -/
def runR : List ROp → Machine → MRes Unit
  | [], m => MRes.ok () m
  | o :: rest, m => MRes.bind (exec o.toProg m) (fun _ m1 => runR rest m1)

/-- Arm the (first) journal entry for record `cid` with token `tok`;
`none` if no such registration exists. -/
def armRegs (cid tok : Nat) : List (Nat × Option Nat) → Option (List (Nat × Option Nat))
  | [] => none
  | p :: rest =>
    if p.1 = cid then some ((p.1, some tok) :: rest)
    else (armRegs cid tok rest).map (fun l => p :: l)

/-- Ghost registration journal for an `ROp` sequence: mirrors the id counter
and keeps every registered record with its final armed token, most recent
registration first; `none` if some commit targets an id that is not a
registered record (a wild pointer). -/
def specRegs : List ROp → Nat → List (Nat × Option Nat) → Option (Nat × List (Nat × Option Nat))
  | [], n, regs => some (n, regs)
  | ROp.push :: rest, n, regs => specRegs rest (n + 1) regs
  | ROp.register :: rest, n, regs => specRegs rest (n + 1) ((n, none) :: regs)
  | ROp.commit cid tok :: rest, n, regs =>
    match armRegs cid tok regs with
    | some regs2 => specRegs rest n regs2
    | none => none

/-- The commit tokens of an `ROp` sequence in chronological commit order. -/
def commitsChron : List ROp → List Nat
  | [] => []
  | ROp.commit _ tok :: rest => tok :: commitsChron rest
  | _ :: rest => commitsChron rest

/-- The cleanup node a journal entry denotes. -/
def cleanupOfReg (p : Nat × Option Nat) : Node :=
  Node.cleanup p.1 (p.2.map CAct.custom)

/-- Flatten the zipper's child lists, current scope first (this is exactly
the order `reslist_destroy` of the root visits them in). -/
def joinC (fs : List Frame) : List Node :=
  (fs.map Frame.contents).flatten

/-- Number of allocation events in a log. -/
def countAllocEv : List Ev → Nat
  | [] => 0
  | Ev.alloc _ _ :: rest => countAllocEv rest + 1
  | _ :: rest => countAllocEv rest

/-- Number of fd-acquisition events in a log. -/
def countOpenedEv : List Ev → Nat
  | [] => 0
  | Ev.openedFd _ :: rest => countOpenedEv rest + 1
  | _ :: rest => countOpenedEv rest

/-- Number of close events for a given fd in a log. -/
def countClosedEv (fd : Nat) : List Ev → Nat
  | [] => 0
  | Ev.closedFd fd2 :: rest =>
    if fd2 = fd then countClosedEv fd rest + 1 else countClosedEv fd rest
  | _ :: rest => countClosedEv fd rest

mutual
/-- Number of armed close-`fd` cleanup records in a subtree. -/
def closeCount (fd : Nat) : Node → Nat
  | Node.scope _ cs => closeCountL fd cs
  | Node.cleanup _ (some (CAct.closeFd fd2)) => if fd2 = fd then 1 else 0
  | Node.cleanup _ _ => 0

/-- Number of armed close-`fd` cleanup records in a child list. -/
def closeCountL (fd : Nat) : List Node → Nat
  | [] => 0
  | n :: rest => closeCount fd n + closeCountL fd rest
end

/-- The machine a result carries, when control continued (normally or by a
taken jump). -/
def mOf : {α : Type} → MRes α → Option Machine
  | _, MRes.ok _ m => some m
  | _, MRes.raised m => some m
  | _, MRes.abort _ => none
  | _, MRes.stuck => none

/-- A machine with one installed handler (scope 1 under root 0) whose
error-info slot wants a message: the state right after an outermost
`catch_error` has installed itself. -/
def mWithHandler : Machine where
  frames := [⟨1, []⟩, ⟨0, []⟩]
  handlers := [⟨1, some 0⟩]
  eiSlots := [⟨none, none, none, true⟩]
  prgname := "fb-adb"
  nextId := 2
  nextFd := 3
  openFds := [0, 1, 2]
  mallocFails := []
  sysErrs := []
  events := []
  caughtLog := []

/-- Like `mWithHandler` but the installer declined message construction. -/
def mWithHandlerNoMsg : Machine :=
  { mWithHandler with eiSlots := [⟨none, none, none, false⟩] }

/-- The register/commit trace refuting strict reverse-commitment order:
two records registered in order 1, 2 but committed in order 2, 1. -/
def ceOps : List ROp :=
  [ROp.register, ROp.register, ROp.commit 2 20, ROp.commit 1 10]

/-
Theorems.  First generic facts about the destruction traversal and the
result monad, then the per-claim developments.
-/

theorem countAllocEv_append (xs ys : List Ev) :
    countAllocEv (xs ++ ys) = countAllocEv xs + countAllocEv ys := by
  induction xs with
  | nil => simp [countAllocEv]
  | cons e rest ih => cases e <;> simp [countAllocEv, ih] <;> omega

theorem countOpenedEv_append (xs ys : List Ev) :
    countOpenedEv (xs ++ ys) = countOpenedEv xs + countOpenedEv ys := by
  induction xs with
  | nil => simp [countOpenedEv]
  | cons e rest ih => cases e <;> simp [countOpenedEv, ih] <;> omega

theorem countClosedEv_append (fd : Nat) (xs ys : List Ev) :
    countClosedEv fd (xs ++ ys) = countClosedEv fd xs + countClosedEv fd ys := by
  induction xs with
  | nil => simp [countClosedEv]
  | cons e rest ih =>
    rw [List.cons_append]
    cases e with
    | closedFd fd2 =>
      simp only [countClosedEv, ih]
      split <;> omega
    | alloc aid sz => simp only [countClosedEv, ih]
    | freeE aid => simp only [countClosedEv, ih]
    | openedFd fd2 => simp only [countClosedEv, ih]
    | customE tok => simp only [countClosedEv, ih]

/-- State change a destruction traversal can make: it only runs committed
actions, so it can close open fds and append non-allocation events; every
other machine component is untouched. -/
def DStep (m m2 : Machine) : Prop :=
  m2.frames = m.frames ∧ m2.handlers = m.handlers ∧ m2.eiSlots = m.eiSlots ∧
  m2.prgname = m.prgname ∧ m2.nextId = m.nextId ∧ m2.nextFd = m.nextFd ∧
  m2.mallocFails = m.mallocFails ∧ m2.sysErrs = m.sysErrs ∧
  m2.caughtLog = m.caughtLog ∧ m2.openFds ⊆ m.openFds ∧
  countAllocEv m2.events = countAllocEv m.events ∧
  countOpenedEv m2.events = countOpenedEv m.events ∧
  ∃ new, m2.events = m.events ++ new

theorem DStep.refl (m : Machine) : DStep m m := by
  refine ⟨rfl, rfl, rfl, rfl, rfl, rfl, rfl, rfl, rfl, List.Subset.refl _, rfl, rfl, [], ?_⟩
  simp

theorem DStep.trans {m m1 m2 : Machine} (h1 : DStep m m1) (h2 : DStep m1 m2) :
    DStep m m2 := by
  obtain ⟨a1, b1, c1, d1, e1, f1, g1, h1', i1, j1, k1, l1, n1, hn1⟩ := h1
  obtain ⟨a2, b2, c2, d2, e2, f2, g2, h2', i2, j2, k2, l2, n2, hn2⟩ := h2
  refine ⟨a2.trans a1, b2.trans b1, c2.trans c1, d2.trans d1, e2.trans e1,
    f2.trans f1, g2.trans g1, h2'.trans h1', i2.trans i1, j2.trans j1,
    k2.trans k1, l2.trans l1, n1 ++ n2, ?_⟩
  rw [hn2, hn1, List.append_assoc]

/-- What any run of destruction code guarantees: it never takes a jump,
never hits undefined usage, aborts only at the `fd_cleanup` `EBADF` site,
and on normal completion has made only a `DStep` state change. -/
def DestroyFacts (m : Machine) (r : MRes Unit) : Prop :=
  (∀ m2, r ≠ MRes.raised m2) ∧ r ≠ MRes.stuck ∧
  (∀ k, r = MRes.abort k → k = closeBadFdAbort) ∧
  (∀ m2, r = MRes.ok () m2 → DStep m m2)

theorem fd_cleanup_facts (fd : Nat) (m : Machine) :
    DestroyFacts m (fd_cleanup fd m) := by
  unfold fd_cleanup
  split
  · refine ⟨by simp, by simp, by simp, ?_⟩
    intro m2 h
    injection h with _ h
    subst h
    refine ⟨rfl, rfl, rfl, rfl, rfl, rfl, rfl, rfl, rfl, ?_, ?_, ?_, [Ev.closedFd fd], ?_⟩
    · intro x hx
      exact List.mem_of_mem_erase hx
    · simp [logEv, countAllocEv_append, countAllocEv]
    · simp [logEv, countOpenedEv_append, countOpenedEv]
    · simp [logEv]
  · refine ⟨by simp, by simp, ?_, by simp⟩
    intro k hk
    cases hk
    rfl

theorem applyAct_facts (a : CAct) (m : Machine) :
    DestroyFacts m (applyAct a m) := by
  cases a with
  | closeFd fd => exact fd_cleanup_facts fd m
  | freeMem aid =>
    refine ⟨by simp [applyAct], by simp [applyAct], by simp [applyAct], ?_⟩
    intro m2 h
    simp only [applyAct, MRes.ok.injEq] at h
    rw [← h.2]
    refine ⟨rfl, rfl, rfl, rfl, rfl, rfl, rfl, rfl, rfl, List.Subset.refl _, ?_, ?_,
      [Ev.freeE aid], ?_⟩
    · simp [logEv, countAllocEv_append, countAllocEv]
    · simp [logEv, countOpenedEv_append, countOpenedEv]
    · simp [logEv]
  | custom tok =>
    refine ⟨by simp [applyAct], by simp [applyAct], by simp [applyAct], ?_⟩
    intro m2 h
    simp only [applyAct, MRes.ok.injEq] at h
    rw [← h.2]
    refine ⟨rfl, rfl, rfl, rfl, rfl, rfl, rfl, rfl, rfl, List.Subset.refl _, ?_, ?_,
      [Ev.customE tok], ?_⟩
    · simp [logEv, countAllocEv_append, countAllocEv]
    · simp [logEv, countOpenedEv_append, countOpenedEv]
    · simp [logEv]

mutual
theorem destroyNode_facts : ∀ (n : Node) (m : Machine), DestroyFacts m (destroyNode n m)
  | Node.scope _ cs, m => by
    have h := destroyContents_facts cs m
    simpa [destroyNode] using h
  | Node.cleanup _ none, m => by
    refine ⟨by simp [destroyNode], by simp [destroyNode], by simp [destroyNode], ?_⟩
    intro m2 h
    simp only [destroyNode, MRes.ok.injEq] at h
    rw [← h.2]
    exact DStep.refl m
  | Node.cleanup _ (some a), m => by
    have h := applyAct_facts a m
    simpa [destroyNode] using h

theorem destroyContents_facts : ∀ (l : List Node) (m : Machine),
    DestroyFacts m (destroyContents l m)
  | [], m => by
    refine ⟨by simp [destroyContents], by simp [destroyContents],
      by simp [destroyContents], ?_⟩
    intro m2 h
    simp only [destroyContents, MRes.ok.injEq] at h
    rw [← h.2]
    exact DStep.refl m
  | n :: rest, m => by
    have hn := destroyNode_facts n m
    obtain ⟨hr, hs, ha, hok⟩ := hn
    cases hcase : destroyNode n m with
    | ok a m1 =>
      cases a
      have h1 := hok m1 hcase
      have h2 := destroyContents_facts rest m1
      obtain ⟨hr2, hs2, ha2, hok2⟩ := h2
      have heq : destroyContents (n :: rest) m = destroyContents rest m1 := by
        simp [destroyContents, hcase]
      rw [heq]
      exact ⟨hr2, hs2, ha2, fun m2 hend => DStep.trans h1 (hok2 m2 hend)⟩
    | raised m1 => exact absurd hcase (hr m1)
    | abort k =>
      have heq : destroyContents (n :: rest) m = MRes.abort k := by
        simp [destroyContents, hcase]
      rw [heq]
      refine ⟨by simp, by simp, ?_, by simp⟩
      intro k2 hk
      cases hk
      exact ha k hcase
    | stuck => exact absurd hcase hs
end

/-- Close-event accounting for a destruction run. -/
def CloseFacts (fd cnt : Nat) (m : Machine) (r : MRes Unit) : Prop :=
  ∀ m2, r = MRes.ok () m2 →
    countClosedEv fd m2.events = countClosedEv fd m.events + cnt

mutual
theorem destroyNode_closeCount : ∀ (fd : Nat) (n : Node) (m : Machine),
    CloseFacts fd (closeCount fd n) m (destroyNode n m)
  | fd, Node.scope _ cs, m => by
    have h := destroyContents_closeCount fd cs m
    simpa [destroyNode, closeCount] using h
  | fd, Node.cleanup _ none, m => by
    intro m2 h
    simp only [destroyNode, MRes.ok.injEq] at h
    rw [← h.2]
    simp [closeCount]
  | fd, Node.cleanup _ (some a), m => by
    intro m2 h
    cases a with
    | closeFd fd2 =>
      simp only [destroyNode, applyAct, fd_cleanup] at h
      split at h
      · injection h with _ h
        rw [← h]
        simp only [closeCount, logEv, countClosedEv_append, countClosedEv]
      · exact absurd h (by simp)
    | freeMem aid =>
      simp only [destroyNode, applyAct, MRes.ok.injEq] at h
      rw [← h.2]
      simp [closeCount, logEv, countClosedEv_append, countClosedEv]
    | custom tok =>
      simp only [destroyNode, applyAct, MRes.ok.injEq] at h
      rw [← h.2]
      simp [closeCount, logEv, countClosedEv_append, countClosedEv]

theorem destroyContents_closeCount : ∀ (fd : Nat) (l : List Node) (m : Machine),
    CloseFacts fd (closeCountL fd l) m (destroyContents l m)
  | fd, [], m => by
    intro m2 h
    simp only [destroyContents, MRes.ok.injEq] at h
    rw [← h.2]
    simp [closeCountL]
  | fd, n :: rest, m => by
    intro m2 hend
    cases hcase : destroyNode n m with
    | ok a m1 =>
      cases a
      have heq : destroyContents (n :: rest) m = destroyContents rest m1 := by
        simp [destroyContents, hcase]
      rw [heq] at hend
      have h1 := destroyNode_closeCount fd n m m1 hcase
      have h2 := destroyContents_closeCount fd rest m1 m2 hend
      simp only [closeCountL]
      omega
    | raised m1 =>
      have heq : destroyContents (n :: rest) m = MRes.raised m1 := by
        simp [destroyContents, hcase]
      rw [heq] at hend
      exact absurd hend (by simp)
    | abort k =>
      have heq : destroyContents (n :: rest) m = MRes.abort k := by
        simp [destroyContents, hcase]
      rw [heq] at hend
      exact absurd hend (by simp)
    | stuck =>
      have heq : destroyContents (n :: rest) m = MRes.stuck := by
        simp [destroyContents, hcase]
      rw [heq] at hend
      exact absurd hend (by simp)
end

theorem getD_set_facts {α : Type} : ∀ (l : List α) (i j : Nat) (v d : α),
    (l.set i v).getD j d = if j = i ∧ i < l.length then v else l.getD j d
  | [], i, j, v, d => by simp
  | a :: rest, 0, 0, v, d => by simp
  | a :: rest, 0, j + 1, v, d => by simp [List.getD]
  | a :: rest, i + 1, 0, v, d => by simp [List.getD]
  | a :: rest, i + 1, j + 1, v, d => by
    have ih := getD_set_facts rest i j v d
    have e1 : ((a :: rest).set (i + 1) v).getD (j + 1) d = (rest.set i v).getD j d := rfl
    have e2 : (a :: rest).getD (j + 1) d = rest.getD j d := rfl
    rw [e1, e2, ih, List.length_cons]
    by_cases h1 : j = i
    · subst h1
      by_cases h2 : j < rest.length
      · rw [if_pos ⟨rfl, h2⟩, if_pos ⟨rfl, by omega⟩]
      · rw [if_neg (by omega), if_neg (by omega)]
    · rw [if_neg (by omega), if_neg (by omega)]

theorem getSlot_setSlot (k k2 : Nat) (v : ErrInfoV) (m : Machine) :
    getSlot k2 (setSlot k v m) =
      if k2 = k ∧ k < m.eiSlots.length then v else getSlot k2 m := by
  simp only [getSlot, setSlot]
  exact getD_set_facts m.eiSlots k k2 v slotDefault

theorem setSlot_len (k : Nat) (v : ErrInfoV) (m : Machine) :
    (setSlot k v m).eiSlots.length = m.eiSlots.length := by
  simp [setSlot]

/-- What a primitive preserves between its entry state and any state it
hands control back to (normally or by jump): the handler chain is unchanged,
error-info slots are never removed, and a slot that already reports an error
keeps reporting one. -/
def OkKeep (m m2 : Machine) : Prop :=
  m2.handlers = m.handlers ∧ m.eiSlots.length ≤ m2.eiSlots.length ∧
  ∀ k, ((getSlot k m).err).isSome = true → ((getSlot k m2).err).isSome = true

theorem OkKeep.rfl (m : Machine) : OkKeep m m :=
  ⟨Eq.refl _, le_refl _, fun _ h => h⟩

theorem OkKeep.chainK {m m1 m2 : Machine} (h1 : OkKeep m m1) (h2 : OkKeep m1 m2) :
    OkKeep m m2 :=
  ⟨h2.1.trans h1.1, h1.2.1.trans h2.2.1, fun k hk => h2.2.2 k (h1.2.2 k hk)⟩

theorem getSlot_congr {m m2 : Machine} (h : m2.eiSlots = m.eiSlots) (k : Nat) :
    getSlot k m2 = getSlot k m := by
  simp [getSlot, h]

/-- The contract every runtime primitive obeys with respect to the error
machinery: `OkKeep` towards any state it returns or unwinds to; an unwind
always targets the handler that was current on entry, and (if that handler
carries an error-info slot within range) delivers an error code into it; and
the no-handler `abort()` fires only when no handler is installed. -/
def PrimOk {α : Type} (m : Machine) (r : MRes α) : Prop :=
  (∀ a m2, r = MRes.ok a m2 → OkKeep m m2) ∧
  (∀ m2, r = MRes.raised m2 → OkKeep m m2 ∧
    ∃ h t, m.handlers = h :: t ∧
      ∀ k, h.ei = some k → k < m.eiSlots.length →
        ((getSlot k m2).err).isSome = true) ∧
  (r = MRes.abort noHandlerAbort → m.handlers = [])

theorem PrimOk.okCase {α : Type} {m : Machine} {a : α} : PrimOk m (MRes.ok a m) := by
  refine ⟨?_, ?_, ?_⟩
  · intro b m2 h
    cases h
    exact OkKeep.rfl m
  · intro m2 h
    simp at h
  · intro h
    simp at h

theorem PrimOk.stuckCase {α : Type} {m : Machine} : PrimOk m (MRes.stuck : MRes α) := by
  refine ⟨?_, ?_, ?_⟩
  · intro b m2 h
    simp at h
  · intro m2 h
    simp at h
  · intro h
    simp at h

theorem PrimOk.okTo {α : Type} {m m2 : Machine} {a : α} (h : OkKeep m m2) :
    PrimOk m (MRes.ok a m2) := by
  refine ⟨?_, ?_, ?_⟩
  · intro b m3 he
    cases he
    exact h
  · intro m3 he
    simp at he
  · intro he
    simp at he

theorem PrimOk.bind {α β : Type} {m : Machine} {r : MRes α} {g : α → Machine → MRes β}
    (h1 : PrimOk m r) (h2 : ∀ a m1, r = MRes.ok a m1 → PrimOk m1 (g a m1)) :
    PrimOk m (MRes.bind r g) := by
  cases r with
  | ok a m1 =>
    have hk := h1.1 a m1 (Eq.refl _)
    have hg := h2 a m1 (Eq.refl _)
    show PrimOk m (g a m1)
    refine ⟨?_, ?_, ?_⟩
    · intro b m2 hr
      exact OkKeep.chainK hk (hg.1 b m2 hr)
    · intro m2 hr
      obtain ⟨hk2, hd, ht, hhd, hdel⟩ := hg.2.1 m2 hr
      refine ⟨OkKeep.chainK hk hk2, hd, ht, ?_, ?_⟩
      · rw [← hk.1]
        exact hhd
      · intro k hek hlt
        exact hdel k hek (lt_of_lt_of_le hlt hk.2.1)
    · intro hr
      have := hg.2.2 hr
      rw [hk.1] at this
      exact this
  | raised m1 =>
    refine ⟨?_, ?_, ?_⟩
    · intro b m2 hh
      simp [MRes.bind] at hh
    · intro m2 hr
      simp only [MRes.bind] at hr
      cases hr
      exact h1.2.1 m1 (Eq.refl _)
    · intro hh
      simp [MRes.bind] at hh
  | abort k =>
    refine ⟨?_, ?_, ?_⟩
    · intro b m2 hh
      simp [MRes.bind] at hh
    · intro m2 hh
      simp [MRes.bind] at hh
    · intro hr
      simp only [MRes.bind] at hr
      cases hr
      exact h1.2.2 (Eq.refl _)
  | stuck => exact PrimOk.stuckCase

theorem PrimOk.noret {α β : Type} {m : Machine} {r : MRes α} (h : PrimOk m r) :
    PrimOk m (MRes.noreturn r : MRes β) := by
  cases r with
  | ok a m1 => exact PrimOk.stuckCase
  | raised m1 =>
    refine ⟨?_, ?_, ?_⟩
    · intro b m2 hh
      simp [MRes.noreturn] at hh
    · intro m2 hh
      simp only [MRes.noreturn] at hh
      cases hh
      exact h.2.1 m1 (Eq.refl _)
    · intro hh
      simp [MRes.noreturn] at hh
  | abort k =>
    refine ⟨?_, ?_, ?_⟩
    · intro b m2 hh
      simp [MRes.noreturn] at hh
    · intro m2 hh
      simp [MRes.noreturn] at hh
    · intro hr
      simp only [MRes.noreturn] at hr
      cases hr
      exact h.2.2 (Eq.refl _)
  | stuck => exact PrimOk.stuckCase

theorem PrimOk.pre {α : Type} {m m1 : Machine} {r : MRes α}
    (hstep : OkKeep m m1) (h : PrimOk m1 r) : PrimOk m r := by
  refine ⟨?_, ?_, ?_⟩
  · intro a m2 hr
    exact OkKeep.chainK hstep (h.1 a m2 hr)
  · intro m2 hr
    obtain ⟨hk2, hd, ht, hhd, hdel⟩ := h.2.1 m2 hr
    refine ⟨OkKeep.chainK hstep hk2, hd, ht, ?_, ?_⟩
    · rw [← hstep.1]
      exact hhd
    · intro k hek hlt
      exact hdel k hek (lt_of_lt_of_le hlt hstep.2.1)
  · intro hr
    have := h.2.2 hr
    rw [hstep.1] at this
    exact this

theorem reslist_destroy_keep (sid : Nat) (m : Machine) :
    (∀ m2, reslist_destroy sid m ≠ MRes.raised m2) ∧
    (∀ k, reslist_destroy sid m = MRes.abort k → k = closeBadFdAbort) ∧
    (∀ m2, reslist_destroy sid m = MRes.ok () m2 →
      m2.handlers = m.handlers ∧ m2.eiSlots = m.eiSlots ∧
      m2.mallocFails = m.mallocFails ∧ m2.sysErrs = m.sysErrs ∧
      m2.nextId = m.nextId ∧ m2.nextFd = m.nextFd ∧ m2.prgname = m.prgname ∧
      m2.caughtLog = m.caughtLog ∧ m2.openFds ⊆ m.openFds ∧
      countAllocEv m2.events = countAllocEv m.events ∧
      countOpenedEv m2.events = countOpenedEv m.events ∧
      ∃ new, m2.events = m.events ++ new) := by
  cases hex : extractFromFrames sid m.frames with
  | none =>
    have heq : reslist_destroy sid m = MRes.stuck := by
      simp [reslist_destroy, hex]
    rw [heq]
    exact ⟨by simp, by simp, by simp⟩
  | some p =>
    obtain ⟨cs, frames2⟩ := p
    have heq : reslist_destroy sid m =
        destroyNode (Node.scope sid cs) { m with frames := frames2 } := by
      simp [reslist_destroy, hex]
    rw [heq]
    obtain ⟨hr, hs, ha, hok⟩ :=
      destroyNode_facts (Node.scope sid cs) { m with frames := frames2 }
    refine ⟨hr, ha, ?_⟩
    intro m2 hok2
    obtain ⟨f1, f2, f3, f4, f5, f6, f7, f8, f9, f10, f11, f12, new, hnew⟩ := hok m2 hok2
    exact ⟨f2, f3, f7, f8, f5, f6, f4, f9, f10, f11, f12, new, hnew⟩

theorem reslistSetCurrentToParent_keep {sid : Nat} {m m1 : Machine}
    (h : reslistSetCurrentToParent sid m = some m1) :
    m1.handlers = m.handlers ∧ m1.eiSlots = m.eiSlots ∧ m1.openFds = m.openFds ∧
    m1.events = m.events ∧ m1.mallocFails = m.mallocFails ∧
    m1.sysErrs = m.sysErrs ∧ m1.nextId = m.nextId ∧ m1.nextFd = m.nextFd ∧
    m1.prgname = m.prgname ∧ m1.caughtLog = m.caughtLog := by
  unfold reslistSetCurrentToParent at h
  split at h
  · rw [Option.map_eq_some'] at h
    obtain ⟨nd, _, h2⟩ := h
    rw [← h2]
    exact ⟨rfl, rfl, rfl, rfl, rfl, rfl, rfl, rfl, rfl, rfl⟩
  · cases h
  · split at h
    · split at h
      · cases h
        exact ⟨rfl, rfl, rfl, rfl, rfl, rfl, rfl, rfl, rfl, rfl⟩
      · cases h
    · cases h


theorem die_oom_slot_keep (h : Handler) (m1 : Machine) :
    (die_oom_slot h m1).handlers = m1.handlers ∧
    (die_oom_slot h m1).eiSlots.length = m1.eiSlots.length ∧
    (die_oom_slot h m1).frames = m1.frames ∧
    (die_oom_slot h m1).events = m1.events ∧
    (die_oom_slot h m1).openFds = m1.openFds ∧
    (die_oom_slot h m1).mallocFails = m1.mallocFails ∧
    (die_oom_slot h m1).sysErrs = m1.sysErrs ∧
    (die_oom_slot h m1).nextId = m1.nextId ∧
    (die_oom_slot h m1).nextFd = m1.nextFd ∧
    (die_oom_slot h m1).prgname = m1.prgname ∧
    (die_oom_slot h m1).caughtLog = m1.caughtLog := by
  unfold die_oom_slot
  split
  · exact ⟨rfl, rfl, rfl, rfl, rfl, rfl, rfl, rfl, rfl, rfl, rfl⟩
  · exact ⟨rfl, by simp [setSlot], rfl, rfl, rfl, rfl, rfl, rfl, rfl, rfl, rfl⟩

theorem die_oom_slot_err (h : Handler) (m1 : Machine) (k : Nat) (hei : h.ei = some k)
    (hlt : k < m1.eiSlots.length) :
    getSlot k (die_oom_slot h m1) =
      { getSlot k m1 with err := some ENOMEM, msg := some "no memory" } := by
  unfold die_oom_slot
  rw [hei, getSlot_setSlot, if_pos ⟨rfl, hlt⟩]

theorem die_oom_slot_errKept (h : Handler) (m1 : Machine) (kk : Nat)
    (hk : ((getSlot kk m1).err).isSome = true) :
    ((getSlot kk (die_oom_slot h m1)).err).isSome = true := by
  unfold die_oom_slot
  split
  · exact hk
  · rw [getSlot_setSlot]
    split
    · simp
    · exact hk

theorem die_oom_primOk (m : Machine) : PrimOk m (die_oom m) := by
  unfold die_oom
  split
  · rename_i hh
    refine ⟨?_, ?_, ?_⟩
    · intro a m2 h2
      simp at h2
    · intro m2 h2
      simp at h2
    · intro _
      exact hh
  · rename_i h0 t0 hh
    split
    · exact PrimOk.stuckCase
    · rename_i m1 hset
      obtain ⟨k1, k2, k3, k4, k5, k6, k7, k8, k9, k10⟩ :=
        reslistSetCurrentToParent_keep hset
      obtain ⟨s1, s2, s3, s4, s5, s6, s7, s8, s9, s10, s11⟩ := die_oom_slot_keep h0 m1
      cases hdes : reslist_destroy h0.rl (die_oom_slot h0 m1) with
      | ok a m3 =>
        cases a
        obtain ⟨e1, e2, _⟩ := (reslist_destroy_keep h0.rl (die_oom_slot h0 m1)).2.2 m3 hdes
        show PrimOk m (MRes.raised m3)
        refine ⟨?_, ?_, ?_⟩
        · intro b m2 h2
          simp at h2
        · intro m2 h2
          cases h2
          refine ⟨⟨?_, ?_, ?_⟩, h0, t0, hh, ?_⟩
          · rw [e1, s1, k1]
          · have hlen : m3.eiSlots.length = m.eiSlots.length := by
              rw [e2, s2, k2]
            exact le_of_eq hlen.symm
          · intro kk hkk
            rw [getSlot_congr e2 kk]
            apply die_oom_slot_errKept
            rw [getSlot_congr k2 kk]
            exact hkk
          · intro kk hkk hbound
            rw [getSlot_congr e2 kk,
              die_oom_slot_err h0 m1 kk hkk (by rw [k2]; exact hbound)]
            simp
        · intro h2
          simp at h2
      | raised m3 =>
        exact absurd hdes ((reslist_destroy_keep h0.rl (die_oom_slot h0 m1)).1 m3)
      | abort kk =>
        have hba := (reslist_destroy_keep h0.rl (die_oom_slot h0 m1)).2.1 kk hdes
        show PrimOk m (MRes.abort kk)
        refine ⟨?_, ?_, ?_⟩
        · intro b m2 h2
          simp at h2
        · intro m2 h2
          simp at h2
        · intro h2
          rw [hba] at h2
          simp [closeBadFdAbort, noHandlerAbort] at h2
      | stuck => exact PrimOk.stuckCase

theorem OkKeep.ofEq {m m2 : Machine} (h1 : m2.handlers = m.handlers)
    (h2 : m2.eiSlots = m.eiSlots) : OkKeep m m2 := by
  refine ⟨h1, le_of_eq (by rw [h2]), ?_⟩
  intro k hk
  rw [getSlot_congr h2 k]
  exact hk

theorem takeMalloc_keep (m : Machine) :
    (takeMalloc m).2.handlers = m.handlers ∧ (takeMalloc m).2.eiSlots = m.eiSlots := by
  unfold takeMalloc
  split
  · exact ⟨rfl, rfl⟩
  · exact ⟨rfl, rfl⟩

theorem pushNode_primOk (n : Node) (m : Machine) : PrimOk m (pushNode n m) := by
  unfold pushNode
  split
  · exact PrimOk.stuckCase
  · exact PrimOk.okTo (OkKeep.ofEq rfl rfl)

theorem reslist_push_new_primOk (m : Machine) : PrimOk m (reslist_push_new m) := by
  unfold reslist_push_new
  split
  · rename_i m1 heq
    have hk : m1 = (takeMalloc m).2 := by rw [heq]
    obtain ⟨t1, t2⟩ := takeMalloc_keep m
    rw [hk] at *
    exact PrimOk.pre (OkKeep.ofEq t1 t2) (PrimOk.noret (die_oom_primOk _))
  · rename_i m1 heq
    have hk : m1 = (takeMalloc m).2 := by rw [heq]
    obtain ⟨t1, t2⟩ := takeMalloc_keep m
    split
    · exact PrimOk.stuckCase
    · split
      · rename_i sid m2 hfr
        have hm2 : m2 = (freshId m1).2 := by rw [hfr]
        subst hm2 hk
        exact PrimOk.okTo (OkKeep.ofEq t1 t2)

theorem cleanup_allocate_primOk (m : Machine) : PrimOk m (cleanup_allocate m) := by
  unfold cleanup_allocate
  split
  · rename_i m1 heq
    have hk : m1 = (takeMalloc m).2 := by rw [heq]
    obtain ⟨t1, t2⟩ := takeMalloc_keep m
    rw [hk] at *
    exact PrimOk.pre (OkKeep.ofEq t1 t2) (PrimOk.noret (die_oom_primOk _))
  · rename_i m1 heq
    have hk : m1 = (takeMalloc m).2 := by rw [heq]
    obtain ⟨t1, t2⟩ := takeMalloc_keep m
    split
    · rename_i cid m2 hfr
      have hm2 : m2 = (freshId m1).2 := by rw [hfr]
      subst hm2 hk
      refine PrimOk.bind (PrimOk.pre (OkKeep.ofEq t1 t2) (pushNode_primOk _ _)) ?_
      intro a m3 h3
      exact PrimOk.okCase

theorem cleanup_commit_primOk (cid : Nat) (a : CAct) (m : Machine) :
    PrimOk m (cleanup_commit cid a m) := by
  unfold cleanup_commit
  split
  · exact PrimOk.okTo (OkKeep.ofEq rfl rfl)
  · exact PrimOk.stuckCase

theorem reslist_pop_nodestroy_primOk (m : Machine) :
    PrimOk m (reslist_pop_nodestroy m) := by
  unfold reslist_pop_nodestroy
  split
  · exact PrimOk.okTo (OkKeep.ofEq rfl rfl)
  · exact PrimOk.stuckCase

theorem logEv_keep (e : Ev) (m : Machine) :
    (logEv e m).handlers = m.handlers ∧ (logEv e m).eiSlots = m.eiSlots :=
  ⟨rfl, rfl⟩

theorem xalloc_primOk (sz : Nat) (m : Machine) : PrimOk m (xalloc sz m) := by
  unfold xalloc
  refine PrimOk.bind (cleanup_allocate_primOk m) ?_
  intro cl m1 h1
  split
  · rename_i m2 heq
    have hk : m2 = (takeMalloc m1).2 := by rw [heq]
    obtain ⟨t1, t2⟩ := takeMalloc_keep m1
    rw [hk] at *
    exact PrimOk.pre (OkKeep.ofEq t1 t2) (PrimOk.noret (die_oom_primOk _))
  · rename_i m2 heq
    have hk : m2 = (takeMalloc m1).2 := by rw [heq]
    obtain ⟨t1, t2⟩ := takeMalloc_keep m1
    split
    · rename_i aid m3 hfr
      have hm3 : m3 = (freshId m2).2 := by rw [hfr]
      subst hm3 hk
      refine PrimOk.bind (PrimOk.pre (OkKeep.ofEq t1 t2)
        (PrimOk.pre (OkKeep.ofEq rfl rfl) (cleanup_commit_primOk _ _ _))) ?_
      intro b m4 h4
      exact PrimOk.okCase

theorem xalloc_string_primOk (s : String) (m : Machine) :
    PrimOk m (xalloc_string s m) := by
  unfold xalloc_string
  refine PrimOk.bind (xalloc_primOk _ m) ?_
  intro a m1 h1
  exact PrimOk.okCase

/-- The part of `PrimOk` without the delivery obligation, for code run when
the handler's slot has already been filled. -/
def WeakOk {α : Type} (m : Machine) (r : MRes α) : Prop :=
  (∀ a m2, r = MRes.ok a m2 → OkKeep m m2) ∧
  (∀ m2, r = MRes.raised m2 → OkKeep m m2) ∧
  (r = MRes.abort noHandlerAbort → m.handlers = [])

theorem PrimOk.toWeak {α : Type} {m : Machine} {r : MRes α} (h : PrimOk m r) :
    WeakOk m r :=
  ⟨h.1, fun m2 hr => (h.2.1 m2 hr).1, h.2.2⟩

theorem WeakOk.stuckCaseW {α : Type} {m : Machine} : WeakOk m (MRes.stuck : MRes α) := by
  refine ⟨?_, ?_, ?_⟩
  · intro b m2 h
    simp at h
  · intro m2 h
    simp at h
  · intro h
    simp at h

theorem WeakOk.preW {α : Type} {m m1 : Machine} {r : MRes α}
    (hstep : OkKeep m m1) (h : WeakOk m1 r) : WeakOk m r := by
  refine ⟨?_, ?_, ?_⟩
  · intro a m2 hr
    exact OkKeep.chainK hstep (h.1 a m2 hr)
  · intro m2 hr
    exact OkKeep.chainK hstep (h.2.1 m2 hr)
  · intro hr
    have := h.2.2 hr
    rw [hstep.1] at this
    exact this

theorem WeakOk.bindW {α β : Type} {m : Machine} {r : MRes α} {g : α → Machine → MRes β}
    (h1 : WeakOk m r) (h2 : ∀ a m1, r = MRes.ok a m1 → WeakOk m1 (g a m1)) :
    WeakOk m (MRes.bind r g) := by
  cases r with
  | ok a m1 =>
    have hk := h1.1 a m1 (Eq.refl _)
    exact WeakOk.preW hk (h2 a m1 (Eq.refl _))
  | raised m1 =>
    refine ⟨?_, ?_, ?_⟩
    · intro b m2 hh
      simp [MRes.bind] at hh
    · intro m2 hr
      simp only [MRes.bind] at hr
      cases hr
      exact h1.2.1 m1 (Eq.refl _)
    · intro hh
      simp [MRes.bind] at hh
  | abort k =>
    refine ⟨?_, ?_, ?_⟩
    · intro b m2 hh
      simp [MRes.bind] at hh
    · intro m2 hh
      simp [MRes.bind] at hh
    · intro hr
      simp only [MRes.bind] at hr
      cases hr
      exact h1.2.2 (Eq.refl _)
  | stuck => exact WeakOk.stuckCaseW

theorem WeakOk.toPrim {α : Type} {m : Machine} {r : MRes α} (h : WeakOk m r)
    (hdel : ∀ m2, r = MRes.raised m2 → ∃ hd t, m.handlers = hd :: t ∧
      ∀ k, hd.ei = some k → k < m.eiSlots.length →
        ((getSlot k m).err).isSome = true) : PrimOk m r := by
  refine ⟨h.1, ?_, h.2.2⟩
  intro m2 hr
  obtain ⟨hd, t, hht, hslots⟩ := hdel m2 hr
  have hk := h.2.1 m2 hr
  exact ⟨hk, hd, t, hht, fun k hek hlt => hk.2.2 k (hslots k hek hlt)⟩

theorem setSlot_errKeep {v : ErrInfoV} (k : Nat) (m : Machine)
    (hv : v.err = (getSlot k m).err ∨ v.err.isSome = true) :
    OkKeep m (setSlot k v m) := by
  refine ⟨rfl, le_of_eq (setSlot_len k v m).symm, ?_⟩
  intro kk hk
  rw [getSlot_setSlot]
  split
  · rename_i hcond
    cases hv with
    | inl he =>
      rw [he, ← hcond.1]
      exact hk
    | inr hs => exact hs
  · exact hk

theorem slotSetErr_okKeep (k c : Nat) (m : Machine) : OkKeep m (slotSetErr k c m) :=
  setSlot_errKeep k m (Or.inr rfl)

theorem slotSetMsg_okKeep (k : Nat) (s : String) (m : Machine) :
    OkKeep m (slotSetMsg k s m) :=
  setSlot_errKeep k m (Or.inl rfl)

theorem slotSetPrg_okKeep (k : Nat) (s : String) (m : Machine) :
    OkKeep m (slotSetPrg k s m) :=
  setSlot_errKeep k m (Or.inl rfl)

theorem dievTail_weakOk (hrl : Nat) (m : Machine) : WeakOk m (dievTail hrl m) := by
  unfold dievTail
  obtain ⟨d1, d2, d3⟩ := reslist_destroy_keep hrl m
  cases hdes : reslist_destroy hrl m with
  | ok a m2 =>
    cases a
    obtain ⟨e1, e2, _⟩ := d3 m2 hdes
    show WeakOk m (MRes.raised m2)
    refine ⟨?_, ?_, ?_⟩
    · intro b m3 h
      simp at h
    · intro m3 h
      cases h
      exact OkKeep.ofEq e1 e2
    · intro h
      simp at h
  | raised m2 => exact absurd hdes (d1 m2)
  | abort k =>
    have hba := d2 k hdes
    show WeakOk m (MRes.abort k)
    refine ⟨?_, ?_, ?_⟩
    · intro b m3 h
      simp at h
    · intro m3 h
      simp at h
    · intro h
      rw [hba] at h
      simp [closeBadFdAbort, noHandlerAbort] at h
  | stuck => exact WeakOk.stuckCaseW

theorem dievMsg_weakOk (k hrl : Nat) (s : String) (m : Machine) :
    WeakOk m (dievMsg k hrl s m) := by
  unfold dievMsg
  refine WeakOk.bindW (PrimOk.toWeak (xalloc_string_primOk s m)) ?_
  intro msg m1 h1
  refine WeakOk.bindW (WeakOk.preW (slotSetMsg_okKeep k msg m1)
    (PrimOk.toWeak (xalloc_string_primOk _ (slotSetMsg k msg m1)))) ?_
  intro prg m3 h3
  exact WeakOk.preW (slotSetPrg_okKeep k prg m3) (dievTail_weakOk hrl (slotSetPrg k prg m3))

theorem slotSetErr_isSome (k c : Nat) (m : Machine) (hlt : k < m.eiSlots.length) :
    ((getSlot k (slotSetErr k c m)).err).isSome = true := by
  unfold slotSetErr
  rw [getSlot_setSlot, if_pos ⟨rfl, hlt⟩]
  simp

theorem diev_primOk (code : Nat) (fmt : String) (args : List FmtArg) (m : Machine) :
    PrimOk m (diev code fmt args m) := by
  unfold diev
  split
  · rename_i hh
    refine ⟨?_, ?_, ?_⟩
    · intro a m2 h2
      simp at h2
    · intro m2 h2
      simp at h2
    · intro _
      exact hh
  · rename_i h0 t0 hh
    split
    · exact PrimOk.stuckCase
    · rename_i m1 hset
      obtain ⟨k1, k2, k3, k4, k5, k6, k7, k8, k9, k10⟩ :=
        reslistSetCurrentToParent_keep hset
      split
      · rename_i hei
        apply PrimOk.pre (OkKeep.ofEq k1 k2)
        apply WeakOk.toPrim (dievTail_weakOk _ _)
        intro m2 hr
        refine ⟨h0, t0, by rw [k1, hh], ?_⟩
        intro kk hkk
        rw [hei] at hkk
        cases hkk
      · rename_i k hei
        have hlen : (slotSetErr k code m1).eiSlots.length = m1.eiSlots.length := by
          simp [slotSetErr, setSlot]
        have hhd : (slotSetErr k code m1).handlers = h0 :: t0 := by
          show m1.handlers = h0 :: t0
          rw [k1, hh]
        split
        · split
          · rename_i s hfmt
            apply PrimOk.pre (OkKeep.ofEq k1 k2)
            apply PrimOk.pre (slotSetErr_okKeep k code m1)
            apply WeakOk.toPrim (dievMsg_weakOk _ _ _ _)
            intro m2 hr
            refine ⟨h0, t0, hhd, ?_⟩
            intro kk hkk hlt
            rw [hei] at hkk
            injection hkk with hkk
            subst hkk
            exact slotSetErr_isSome k code m1 (by rw [hlen] at hlt; exact hlt)
          · rename_i hfmt
            apply PrimOk.pre (OkKeep.ofEq k1 k2)
            apply PrimOk.pre (slotSetErr_okKeep k code m1)
            apply PrimOk.pre (slotSetErr_okKeep k EINVAL (slotSetErr k code m1))
            apply WeakOk.toPrim (dievMsg_weakOk _ _ _ _)
            intro m2 hr
            refine ⟨h0, t0, hhd, ?_⟩
            intro kk hkk hlt
            rw [hei] at hkk
            injection hkk with hkk
            subst hkk
            apply slotSetErr_isSome
            simp only [slotSetErr, setSlot_len] at hlt
            simp only [slotSetErr, setSlot_len]
            exact hlt
        · apply PrimOk.pre (OkKeep.ofEq k1 k2)
          apply PrimOk.pre (slotSetErr_okKeep k code m1)
          apply WeakOk.toPrim (dievTail_weakOk _ _)
          intro m2 hr
          refine ⟨h0, t0, hhd, ?_⟩
          intro kk hkk hlt
          rw [hei] at hkk
          injection hkk with hkk
          subst hkk
          exact slotSetErr_isSome k code m1 (by rw [hlen] at hlt; exact hlt)

theorem die_primOk (code : Nat) (fmt : String) (args : List FmtArg) (m : Machine) :
    PrimOk m (die code fmt args m) :=
  diev_primOk code fmt args m

theorem xavprintf_primOk (fmt : String) (args : List FmtArg) (m : Machine) :
    PrimOk m (xavprintf fmt args m) := by
  unfold xavprintf
  split
  · exact xalloc_string_primOk _ m
  · exact PrimOk.noret (die_primOk EINVAL invalidFmtFmt [FmtArg.str fmt] m)

theorem xaprintf_primOk (fmt : String) (args : List FmtArg) (m : Machine) :
    PrimOk m (xaprintf fmt args m) :=
  xavprintf_primOk fmt args m

theorem xstrdup_primOk (s : String) (m : Machine) : PrimOk m (xstrdup s m) :=
  xaprintf_primOk "%s" [FmtArg.str s] m

theorem die_errno_primOk (e : Nat) (fmt : String) (args : List FmtArg) (m : Machine) :
    PrimOk m (die_errno e fmt args m) := by
  unfold die_errno
  refine PrimOk.bind (xavprintf_primOk fmt args m) ?_
  intro s m1 h1
  exact diev_primOk _ _ _ m1

theorem takeSys_keep (m : Machine) :
    (takeSys m).2.handlers = m.handlers ∧ (takeSys m).2.eiSlots = m.eiSlots := by
  unfold takeSys
  split
  · exact ⟨rfl, rfl⟩
  · exact ⟨rfl, rfl⟩

theorem xopen_primOk (path : String) (m : Machine) : PrimOk m (xopen path m) := by
  unfold xopen
  refine PrimOk.bind (cleanup_allocate_primOk m) ?_
  intro cl m1 h1
  split
  · rename_i e m2 heq
    have hm2 : m2 = (takeSys m1).2 := by rw [heq]
    obtain ⟨t1, t2⟩ := takeSys_keep m1
    rw [hm2] at *
    exact PrimOk.pre (OkKeep.ofEq t1 t2) (PrimOk.noret (die_errno_primOk _ _ _ _))
  · rename_i m2 heq
    have hm2 : m2 = (takeSys m1).2 := by rw [heq]
    obtain ⟨t1, t2⟩ := takeSys_keep m1
    rw [hm2] at *
    refine PrimOk.bind (PrimOk.pre (OkKeep.ofEq t1 t2)
      (PrimOk.pre (OkKeep.ofEq rfl rfl) (cleanup_commit_primOk _ _ _))) ?_
    intro b m4 h4
    exact PrimOk.okCase

theorem xpipe_primOk (m : Machine) : PrimOk m (xpipe m) := by
  unfold xpipe
  refine PrimOk.bind (cleanup_allocate_primOk m) ?_
  intro cl0 m1 h1
  refine PrimOk.bind (cleanup_allocate_primOk m1) ?_
  intro cl1 m2 h2
  split
  · rename_i e m3 heq
    have hm3 : m3 = (takeSys m2).2 := by rw [heq]
    obtain ⟨t1, t2⟩ := takeSys_keep m2
    rw [hm3] at *
    exact PrimOk.pre (OkKeep.ofEq t1 t2) (PrimOk.noret (die_errno_primOk _ _ _ _))
  · rename_i m3 heq
    have hm3 : m3 = (takeSys m2).2 := by rw [heq]
    obtain ⟨t1, t2⟩ := takeSys_keep m2
    rw [hm3] at *
    refine PrimOk.bind (PrimOk.pre (OkKeep.ofEq t1 t2)
      (PrimOk.pre (OkKeep.ofEq rfl rfl) (cleanup_commit_primOk _ _ _))) ?_
    intro b m4 h4
    refine PrimOk.bind (cleanup_commit_primOk _ _ _) ?_
    intro c m5 h5
    exact PrimOk.okCase

theorem xdup_primOk (fd : Nat) (m : Machine) : PrimOk m (xdup fd m) := by
  unfold xdup
  refine PrimOk.bind (cleanup_allocate_primOk m) ?_
  intro cl m1 h1
  split
  · rename_i e m2 heq
    have hm2 : m2 = (takeSys m1).2 := by rw [heq]
    obtain ⟨t1, t2⟩ := takeSys_keep m1
    rw [hm2] at *
    exact PrimOk.pre (OkKeep.ofEq t1 t2) (PrimOk.noret (die_errno_primOk _ _ _ _))
  · rename_i m2 heq
    have hm2 : m2 = (takeSys m1).2 := by rw [heq]
    obtain ⟨t1, t2⟩ := takeSys_keep m1
    rw [hm2] at *
    split
    · refine PrimOk.bind (PrimOk.pre (OkKeep.ofEq t1 t2)
        (PrimOk.pre (OkKeep.ofEq rfl rfl) (cleanup_commit_primOk _ _ _))) ?_
      intro b m4 h4
      exact PrimOk.okCase
    · exact PrimOk.pre (OkKeep.ofEq t1 t2) (PrimOk.noret (die_errno_primOk _ _ _ _))

theorem errSome_lt {k : Nat} {m : Machine}
    (h : ((getSlot k m).err).isSome = true) : k < m.eiSlots.length := by
  by_contra hk
  rw [getSlot, List.getD_eq_default _ _ (le_of_not_lt hk)] at h
  simp [slotDefault] at h

theorem catchInstall_len (u w : Bool) (rl : Nat) (m1 : Machine) :
    m1.eiSlots.length ≤ (catchInstall u w rl m1).eiSlots.length := by
  unfold catchInstall
  split
  · simp
  · exact le_refl _

theorem catchInstall_getSlot_lt (u w : Bool) (rl : Nat) (m1 : Machine) (k : Nat)
    (hk : k < m1.eiSlots.length) :
    getSlot k (catchInstall u w rl m1) = getSlot k m1 := by
  unfold catchInstall
  split
  · simp only [getSlot]
    rw [List.getD_append _ _ _ _ hk]
  · rfl

theorem catchInstall_handlers (u w : Bool) (rl : Nat) (m1 : Machine) :
    (catchInstall u w rl m1).handlers =
      (if u then Handler.mk rl (some m1.eiSlots.length) else Handler.mk rl none)
        :: m1.handlers := by
  unfold catchInstall
  split
  · rfl
  · rfl


theorem catchInstall_okKeepPart (u w : Bool) (rl : Nat) (m1 : Machine) (k : Nat)
    (hk : ((getSlot k m1).err).isSome = true) :
    ((getSlot k (catchInstall u w rl m1)).err).isSome = true := by
  rw [catchInstall_getSlot_lt u w rl m1 k (errSome_lt hk)]
  exact hk


theorem exec_catchE_eq (u w : Bool) (body : Prog) (m : Machine) :
    exec (Prog.catchE u w body) m =
      match reslist_push_new m with
      | MRes.ok rl m1 =>
        match exec body (catchInstall u w rl m1) with
        | MRes.ok _ m3 =>
          MRes.ok () { m3 with
            handlers := m.handlers,
            caughtLog := false :: m3.caughtLog }
        | MRes.raised m3 =>
          MRes.ok () { m3 with
            handlers := m.handlers,
            caughtLog := true :: m3.caughtLog }
        | MRes.abort k => MRes.abort k
        | MRes.stuck => MRes.stuck
      | MRes.raised m1 => MRes.raised m1
      | MRes.abort k => MRes.abort k
      | MRes.stuck => MRes.stuck := rfl

theorem exec_primOk : ∀ (p : Prog) (m : Machine), PrimOk m (exec p m)
  | Prog.skip, m => PrimOk.okCase
  | Prog.seq p q, m => by
    show PrimOk m (MRes.bind (exec p m) (fun _ m1 => exec q m1))
    exact PrimOk.bind (exec_primOk p m) (fun _ m1 _ => exec_primOk q m1)
  | Prog.pushScope, m => by
    show PrimOk m (MRes.bind (reslist_push_new m) (fun _ m1 => MRes.ok () m1))
    exact PrimOk.bind (reslist_push_new_primOk m) (fun _ m1 _ => PrimOk.okCase)
  | Prog.popScope, m => reslist_pop_nodestroy_primOk m
  | Prog.register, m => by
    show PrimOk m (MRes.bind (cleanup_allocate m) (fun _ m1 => MRes.ok () m1))
    exact PrimOk.bind (cleanup_allocate_primOk m) (fun _ m1 _ => PrimOk.okCase)
  | Prog.commit cid tok, m => cleanup_commit_primOk cid (CAct.custom tok) m
  | Prog.raiseE c f a, m => diev_primOk c f a m
  | Prog.raiseOom, m => die_oom_primOk m
  | Prog.allocP sz, m => by
    show PrimOk m (MRes.bind (xalloc sz m) (fun _ m1 => MRes.ok () m1))
    exact PrimOk.bind (xalloc_primOk sz m) (fun _ m1 _ => PrimOk.okCase)
  | Prog.openP path, m => by
    show PrimOk m (MRes.bind (xopen path m) (fun _ m1 => MRes.ok () m1))
    exact PrimOk.bind (xopen_primOk path m) (fun _ m1 _ => PrimOk.okCase)
  | Prog.pipeP, m => by
    show PrimOk m (MRes.bind (xpipe m) (fun _ m1 => MRes.ok () m1))
    exact PrimOk.bind (xpipe_primOk m) (fun _ m1 _ => PrimOk.okCase)
  | Prog.dupP fd, m => by
    show PrimOk m (MRes.bind (xdup fd m) (fun _ m1 => MRes.ok () m1))
    exact PrimOk.bind (xdup_primOk fd m) (fun _ m1 _ => PrimOk.okCase)
  | Prog.catchE u w body, m => by
    have hpp := reslist_push_new_primOk m
    cases hpush : reslist_push_new m with
    | ok rl m1 =>
      have hk1 : OkKeep m m1 := hpp.1 rl m1 hpush
      have hbody := exec_primOk body (catchInstall u w rl m1)
      cases hbres : exec body (catchInstall u w rl m1) with
      | ok a m3 =>
        cases a
        have hk3 := hbody.1 () m3 hbres
        have heq : exec (Prog.catchE u w body) m =
            MRes.ok () { m3 with
              handlers := m.handlers,
              caughtLog := false :: m3.caughtLog } := by
          rw [exec_catchE_eq]
          simp only [hpush, hbres]
        rw [heq]
        apply PrimOk.okTo
        refine ⟨rfl, ?_, ?_⟩
        · calc m.eiSlots.length ≤ m1.eiSlots.length := hk1.2.1
            _ ≤ (catchInstall u w rl m1).eiSlots.length := catchInstall_len u w rl m1
            _ ≤ m3.eiSlots.length := hk3.2.1
        · intro k hk
          exact hk3.2.2 k (catchInstall_okKeepPart u w rl m1 k (hk1.2.2 k hk))
      | raised m3 =>
        have hk3 := (hbody.2.1 m3 hbres).1
        have heq : exec (Prog.catchE u w body) m =
            MRes.ok () { m3 with
              handlers := m.handlers,
              caughtLog := true :: m3.caughtLog } := by
          rw [exec_catchE_eq]
          simp only [hpush, hbres]
        rw [heq]
        apply PrimOk.okTo
        refine ⟨rfl, ?_, ?_⟩
        · calc m.eiSlots.length ≤ m1.eiSlots.length := hk1.2.1
            _ ≤ (catchInstall u w rl m1).eiSlots.length := catchInstall_len u w rl m1
            _ ≤ m3.eiSlots.length := hk3.2.1
        · intro k hk
          exact hk3.2.2 k (catchInstall_okKeepPart u w rl m1 k (hk1.2.2 k hk))
      | abort k =>
        have heq : exec (Prog.catchE u w body) m = MRes.abort k := by
          rw [exec_catchE_eq]
          simp only [hpush, hbres]
        rw [heq]
        refine ⟨?_, ?_, ?_⟩
        · intro b m2 h2
          simp at h2
        · intro m2 h2
          simp at h2
        · intro h2
          cases h2
          have hnil := hbody.2.2 hbres
          rw [catchInstall_handlers] at hnil
          simp at hnil
      | stuck =>
        have heq : exec (Prog.catchE u w body) m = MRes.stuck := by
          rw [exec_catchE_eq]
          simp only [hpush, hbres]
        rw [heq]
        exact PrimOk.stuckCase
    | raised m1 =>
      have heq : exec (Prog.catchE u w body) m = MRes.raised m1 := by
        rw [exec_catchE_eq]
        simp only [hpush]
      rw [heq]
      refine ⟨?_, ?_, ?_⟩
      · intro b m2 h2
        simp at h2
      · intro m2 h2
        cases h2
        exact hpp.2.1 m1 hpush
      · intro h2
        simp at h2
    | abort k =>
      have heq : exec (Prog.catchE u w body) m = MRes.abort k := by
        rw [exec_catchE_eq]
        simp only [hpush]
      rw [heq]
      refine ⟨?_, ?_, ?_⟩
      · intro b m2 h2
        simp at h2
      · intro m2 h2
        simp at h2
      · intro h2
        cases h2
        exact hpp.2.2 hpush
    | stuck =>
      have heq : exec (Prog.catchE u w body) m = MRes.stuck := by
        rw [exec_catchE_eq]
        simp only [hpush]
      rw [heq]
      exact PrimOk.stuckCase

/-- C2: for every invocation of `catch_error` (`run_guarded`), nested to any
depth, the previous handler is restored as current unconditionally — whether
the body returns normally or a raise transfers control back — so the handler
stack after the call equals the stack before, for every outcome in which the
call returns; the call returns true if and only if an error unwound; and any
raise inside any body resolves to the nearest still-installed handler: a
raised outcome always targets the handler that was current on entry,
delivering an error code into that handler's error-info slot when it has
one. -/
theorem catch_error_contract :
    (∀ (u w : Bool) (body : Prog) (m : Machine),
      match catch_error u w body m with
      | MRes.ok _ m2 =>
        m2.handlers = m.handlers ∧
        (m2.caughtLog.head? = some true ↔
          ∃ rl m1 mb, reslist_push_new m = MRes.ok rl m1 ∧
            exec body (catchInstall u w rl m1) = MRes.raised mb)
      | MRes.raised m2 => m2.handlers = m.handlers
      | _ => True)
    ∧ (∀ (p : Prog) (m : Machine),
      match exec p m with
      | MRes.raised m2 =>
        ∃ hd t, m.handlers = hd :: t ∧
          ∀ k, hd.ei = some k → k < m.eiSlots.length →
            ((getSlot k m2).err).isSome = true
      | _ => True) := by
  constructor
  · intro u w body m
    show match exec (Prog.catchE u w body) m with
      | MRes.ok _ m2 =>
        m2.handlers = m.handlers ∧
        (m2.caughtLog.head? = some true ↔
          ∃ rl m1 mb, reslist_push_new m = MRes.ok rl m1 ∧
            exec body (catchInstall u w rl m1) = MRes.raised mb)
      | MRes.raised m2 => m2.handlers = m.handlers
      | _ => True
    cases hpush : reslist_push_new m with
    | ok rl m1 =>
      cases hbres : exec body (catchInstall u w rl m1) with
      | ok a m3 =>
        cases a
        have heq : exec (Prog.catchE u w body) m =
            MRes.ok () { m3 with
              handlers := m.handlers,
              caughtLog := false :: m3.caughtLog } := by
          rw [exec_catchE_eq]
          simp only [hpush, hbres]
        rw [heq]
        refine ⟨rfl, ?_, ?_⟩
        · intro hhead
          simp at hhead
        · intro hex
          obtain ⟨rl2, m12, mb, hp2, hb2⟩ := hex
          injection hp2 with h1 h2
          subst h1
          subst h2
          rw [hbres] at hb2
          simp at hb2
      | raised m3 =>
        have heq : exec (Prog.catchE u w body) m =
            MRes.ok () { m3 with
              handlers := m.handlers,
              caughtLog := true :: m3.caughtLog } := by
          rw [exec_catchE_eq]
          simp only [hpush, hbres]
        rw [heq]
        refine ⟨rfl, ?_, ?_⟩
        · intro _
          exact ⟨rl, m1, m3, rfl, hbres⟩
        · intro _
          simp
      | abort k =>
        have heq : exec (Prog.catchE u w body) m = MRes.abort k := by
          rw [exec_catchE_eq]
          simp only [hpush, hbres]
        rw [heq]
        exact trivial
      | stuck =>
        have heq : exec (Prog.catchE u w body) m = MRes.stuck := by
          rw [exec_catchE_eq]
          simp only [hpush, hbres]
        rw [heq]
        exact trivial
    | raised m1 =>
      have heq : exec (Prog.catchE u w body) m = MRes.raised m1 := by
        rw [exec_catchE_eq]
        simp only [hpush]
      rw [heq]
      exact ((reslist_push_new_primOk m).2.1 m1 hpush).1.1
    | abort k =>
      have heq : exec (Prog.catchE u w body) m = MRes.abort k := by
        rw [exec_catchE_eq]
        simp only [hpush]
      rw [heq]
      exact trivial
    | stuck =>
      have heq : exec (Prog.catchE u w body) m = MRes.stuck := by
        rw [exec_catchE_eq]
        simp only [hpush]
      rw [heq]
      exact trivial
  · intro p m
    cases hr : exec p m with
    | ok a m2 => exact trivial
    | raised m2 =>
      obtain ⟨_, hd, t, hht, hdel⟩ := (exec_primOk p m).2.1 m2 hr
      exact ⟨hd, t, hht, hdel⟩
    | abort k => exact trivial
    | stuck => exact trivial

/-- C6: raising (`diev`) or raising out-of-memory (`die_oom`) with no
handler installed aborts the process — the raise neither unwinds nor
returns; with a handler installed, the no-handler abort branch is
unreachable. -/
theorem raise_without_handler_aborts :
    (∀ m : Machine, m.handlers = [] → die_oom m = MRes.abort noHandlerAbort) ∧
    (∀ (m : Machine) (code : Nat) (fmt : String) (args : List FmtArg),
      m.handlers = [] → diev code fmt args m = MRes.abort noHandlerAbort) ∧
    (∀ m : Machine, m.handlers ≠ [] → die_oom m ≠ MRes.abort noHandlerAbort) ∧
    (∀ (m : Machine) (code : Nat) (fmt : String) (args : List FmtArg),
      m.handlers ≠ [] → diev code fmt args m ≠ MRes.abort noHandlerAbort) := by
  refine ⟨?_, ?_, ?_, ?_⟩
  · intro m h
    unfold die_oom
    rw [h]
  · intro m code fmt args h
    unfold diev
    rw [h]
  · intro m h hcontra
    exact h ((die_oom_primOk m).2.2 hcontra)
  · intro m code fmt args h hcontra
    exact h ((diev_primOk code fmt args m).2.2 hcontra)

/-- C6 witness: concrete instances — with the fresh machine (no handler)
both raising operations hit the abort branch; with one handler installed
neither does. -/
theorem raise_without_handler_aborts_witness :
    die_oom initMachine = MRes.abort noHandlerAbort ∧
    diev 5 "boom" [] initMachine = MRes.abort noHandlerAbort ∧
    die_oom mWithHandler ≠ MRes.abort noHandlerAbort ∧
    diev 5 "boom" [] mWithHandler ≠ MRes.abort noHandlerAbort := by
  refine ⟨?_, ?_, ?_, ?_⟩
  · exact raise_without_handler_aborts.1 initMachine rfl
  · exact raise_without_handler_aborts.2.1 initMachine 5 "boom" [] rfl
  · exact raise_without_handler_aborts.2.2.1 mWithHandler (by simp [mWithHandler])
  · exact raise_without_handler_aborts.2.2.2 mWithHandler 5 "boom" [] (by simp [mWithHandler])

theorem MRes.bind_eq_ok {α β : Type} {r : MRes α} {g : α → Machine → MRes β}
    {b : β} {m2 : Machine} (h : MRes.bind r g = MRes.ok b m2) :
    ∃ a m1, r = MRes.ok a m1 ∧ g a m1 = MRes.ok b m2 := by
  cases r with
  | ok a m1 => exact ⟨a, m1, rfl, h⟩
  | raised m1 => simp [MRes.bind] at h
  | abort k => simp [MRes.bind] at h
  | stuck => simp [MRes.bind] at h

theorem MRes.noreturn_ne_ok {α β : Type} {r : MRes α} {b : β} {m2 : Machine} :
    MRes.noreturn r ≠ MRes.ok b m2 := by
  cases r <;> simp [MRes.noreturn]

theorem die_oom_no_ok (m : Machine) {a : Unit} {m2 : Machine} :
    die_oom m ≠ MRes.ok a m2 := by
  unfold die_oom
  split
  · simp
  · rename_i h0 t0 hh
    split
    · simp
    · rename_i m1 hset
      cases hdes : reslist_destroy h0.rl (die_oom_slot h0 m1) with
      | ok c m3 =>
        cases c
        intro hcon
        simp at hcon
      | raised m3 =>
        exact absurd hdes ((reslist_destroy_keep h0.rl (die_oom_slot h0 m1)).1 m3)
      | abort k =>
        intro hcon
        simp at hcon
      | stuck =>
        intro hcon
        simp at hcon

theorem dievTail_no_ok (hrl : Nat) (m : Machine) {a : Unit} {m2 : Machine} :
    dievTail hrl m ≠ MRes.ok a m2 := by
  unfold dievTail
  cases hdes : reslist_destroy hrl m with
  | ok c m3 =>
    cases c
    simp
  | raised m3 => simp
  | abort k => simp
  | stuck => simp

theorem dievMsg_no_ok (k hrl : Nat) (s : String) (m : Machine) {a : Unit}
    {m2 : Machine} : dievMsg k hrl s m ≠ MRes.ok a m2 := by
  unfold dievMsg
  intro hcon
  obtain ⟨x, mx, hx, hcon2⟩ := MRes.bind_eq_ok hcon
  obtain ⟨y, my, hy, hcon3⟩ := MRes.bind_eq_ok hcon2
  exact dievTail_no_ok hrl _ hcon3

theorem diev_no_ok (code : Nat) (fmt : String) (args : List FmtArg) (m : Machine)
    {a : Unit} {m2 : Machine} : diev code fmt args m ≠ MRes.ok a m2 := by
  unfold diev
  split
  · simp
  · split
    · simp
    · split
      · exact dievTail_no_ok _ _
      · split
        · split
          · exact dievMsg_no_ok _ _ _ _
          · exact dievMsg_no_ok _ _ _ _
        · exact dievTail_no_ok _ _

/-- The state-preservation facts of a successful `die_oom` unwind, beyond
`PrimOk`: the `malloc` oracle is not consulted, no allocation (and no fd
acquisition) event is emitted, the fd/syscall state is untouched, and the
handler slot holds the fixed out-of-memory report. -/
theorem die_oom_raised_facts (m m2 : Machine) (h : die_oom m = MRes.raised m2) :
    countAllocEv m2.events = countAllocEv m.events ∧
    countOpenedEv m2.events = countOpenedEv m.events ∧
    m2.mallocFails = m.mallocFails ∧ m2.sysErrs = m.sysErrs ∧
    m2.nextFd = m.nextFd ∧ m2.openFds ⊆ m.openFds ∧
    (∀ hd t k, m.handlers = hd :: t → hd.ei = some k → k < m.eiSlots.length →
      (getSlot k m2).err = some ENOMEM ∧ (getSlot k m2).msg = some "no memory") := by
  unfold die_oom at h
  split at h
  · simp at h
  · rename_i h0 t0 hh
    split at h
    · simp at h
    · rename_i m1 hset
      obtain ⟨k1, k2, k3, k4, k5, k6, k7, k8, k9, k10⟩ :=
        reslistSetCurrentToParent_keep hset
      obtain ⟨s1, s2, s3, s4, s5, s6, s7, s8, s9, s10, s11⟩ := die_oom_slot_keep h0 m1
      cases hdes : reslist_destroy h0.rl (die_oom_slot h0 m1) with
      | ok c m3 =>
        cases c
        rw [hdes] at h
        simp only [MRes.raised.injEq] at h
        subst h
        obtain ⟨e1, e2, e3, e4, e5, e6, e7, e8, e9, e10, e11, new, hnew⟩ :=
          (reslist_destroy_keep h0.rl (die_oom_slot h0 m1)).2.2 m3 hdes
        refine ⟨?_, ?_, ?_, ?_, ?_, ?_, ?_⟩
        · rw [e10, s4, k4]
        · rw [e11, s4, k4]
        · rw [e3, s6, k5]
        · rw [e4, s7, k6]
        · rw [e6, s9, k8]
        · rw [s5, k3] at e9
          exact e9
        · intro hd t k hht hei hlt
          rw [hh] at hht
          injection hht with hht1 hht2
          subst hht1
          rw [getSlot_congr e2, die_oom_slot_err h0 m1 k hei (by rw [k2]; exact hlt)]
          exact ⟨rfl, rfl⟩
      | raised m3 =>
        exact absurd hdes ((reslist_destroy_keep h0.rl (die_oom_slot h0 m1)).1 m3)
      | abort k =>
        rw [hdes] at h
        simp at h
      | stuck =>
        rw [hdes] at h
        simp at h

theorem cleanup_allocate_oom_route (m : Machine) (bs : List Bool)
    (hm : m.mallocFails = true :: bs) :
    cleanup_allocate m = MRes.noreturn (die_oom { m with mallocFails := bs }) := by
  obtain ⟨fr, hl, ei, pn, ni, nf, ofds, mf, se, ev, cl⟩ := m
  dsimp only at hm
  subst hm
  rfl

theorem reslist_push_new_oom_route (m : Machine) (bs : List Bool)
    (hm : m.mallocFails = true :: bs) :
    reslist_push_new m = MRes.noreturn (die_oom { m with mallocFails := bs }) := by
  obtain ⟨fr, hl, ei, pn, ni, nf, ofds, mf, se, ev, cl⟩ := m
  dsimp only at hm
  subst hm
  rfl

theorem xalloc_oom_route (m : Machine) (bs : List Bool) (sz : Nat) (f : Frame)
    (fs : List Frame) (hm : m.mallocFails = false :: true :: bs)
    (hf : m.frames = f :: fs) :
    xalloc sz m = MRes.noreturn (die_oom { m with
      mallocFails := bs,
      nextId := m.nextId + 1,
      frames := ⟨f.sid, Node.cleanup m.nextId none :: f.contents⟩ :: fs }) := by
  obtain ⟨fr, hl, ei, pn, ni, nf, ofds, mf, se, ev, cl⟩ := m
  dsimp only at hm hf
  subst hm
  subst hf
  rfl

theorem xavprintf_routes_xalloc (fmt : String) (args : List FmtArg) (s : String)
    (m : Machine) (hfmt : fmtRunS fmt args = some s) :
    xavprintf fmt args m = MRes.bind (xalloc (s.length + 1) m) (fun _ m1 => MRes.ok s m1) := by
  unfold xavprintf xalloc_string
  rw [hfmt]

theorem diev_oom_during_format (m : Machine) (code : Nat) (fmt : String)
    (args : List FmtArg) (hd : Handler) (t : List Handler) (k : Nat) (s : String)
    (hh : m.handlers = hd :: t) (hei : hd.ei = some k) (hlt : k < m.eiSlots.length)
    (hwm : (getSlot k m).want_msg = true) (hfmt : fmtRunS fmt args = some s)
    (hmf : m.mallocFails = [true]) :
    match diev code fmt args m with
    | MRes.raised m2 =>
        (getSlot k m2).err = some ENOMEM ∧ (getSlot k m2).msg = some "no memory" ∧
        countAllocEv m2.events = countAllocEv m.events
    | MRes.ok _ _ => False
    | _ => True := by
  cases hres : diev code fmt args m with
  | ok a m2 =>
    cases a
    exact diev_no_ok code fmt args m hres
  | abort k2 => exact trivial
  | stuck => exact trivial
  | raised m2 =>
    unfold diev at hres
    simp only [hh] at hres
    cases hset : reslistSetCurrentToParent hd.rl m with
    | none =>
      simp only [hset] at hres
      simp at hres
    | some m1 =>
      simp only [hset] at hres
      obtain ⟨k1, k2, k3, k4, k5, k6, k7, k8, k9, k10⟩ :=
        reslistSetCurrentToParent_keep hset
      have hwm2 : (getSlot k (slotSetErr k code m1)).want_msg = true := by
        unfold slotSetErr
        rw [getSlot_setSlot]
        split
        · show (getSlot k m1).want_msg = true
          rw [getSlot_congr k2]
          exact hwm
        · rw [getSlot_congr k2]
          exact hwm
      simp only [hei, hwm2, if_true, hfmt] at hres
      unfold dievMsg xalloc_string xalloc cleanup_allocate takeMalloc at hres
      have hMm : (slotSetErr k code m1).mallocFails = [true] := by
        show m1.mallocFails = [true]
        rw [k5]
        exact hmf
      simp only [hMm, Bool.not_true] at hres
      cases hoom : die_oom { slotSetErr k code m1 with mallocFails := [] } with
      | ok c m3 =>
        cases c
        exact absurd hoom (die_oom_no_ok _)
      | raised m3 =>
        simp only [hoom, MRes.noreturn, MRes.bind, MRes.raised.injEq] at hres
        subst hres
        obtain ⟨f1, f2, f3, f4, f5, f6, f7⟩ := die_oom_raised_facts _ _ hoom
        have hhd2 : ({ slotSetErr k code m1 with
            mallocFails := ([] : List Bool) } : Machine).handlers = hd :: t := by
          show m1.handlers = hd :: t
          rw [k1, hh]
        have hlt2 : k < ({ slotSetErr k code m1 with
            mallocFails := ([] : List Bool) } : Machine).eiSlots.length := by
          show k < (slotSetErr k code m1).eiSlots.length
          simp only [slotSetErr, setSlot_len]
          rw [k2]
          exact hlt
        obtain ⟨g1, g2⟩ := f7 hd t k hhd2 hei hlt2
        refine ⟨g1, g2, ?_⟩
        rw [f1]
        show countAllocEv m1.events = countAllocEv m.events
        rw [k4]
      | abort k2 =>
        simp only [hoom, MRes.noreturn, MRes.bind] at hres
        simp at hres
      | stuck =>
        simp only [hoom, MRes.noreturn, MRes.bind] at hres
        simp at hres

/-- C3: `die_oom` (`raise_out_of_memory`) performs no allocation on its
path: it never consults the `malloc` oracle and emits no allocation event;
when an error-info slot is present it stores the fixed code `ENOMEM` and
the static message `"no memory"`; every allocation primitive — generic
allocation (`xalloc`), zeroed allocation (`xcalloc`), formatted-string
allocation (`xavprintf`, which allocates through `xalloc`), cleanup-record
allocation (`cleanup_allocate`) and scope allocation (`reslist_push_new`) —
routes `malloc` failure through `die_oom`; and an out-of-memory raised
while formatting the message of a different ordinary raise (`diev`) itself
allocates nothing and still delivers a well-formed out-of-memory Error
Info. -/
theorem die_oom_allocation_free :
    (∀ m : Machine,
      match die_oom m with
      | MRes.raised m2 =>
        countAllocEv m2.events = countAllocEv m.events ∧
        m2.mallocFails = m.mallocFails ∧
        (∀ hd t k, m.handlers = hd :: t → hd.ei = some k → k < m.eiSlots.length →
          (getSlot k m2).err = some ENOMEM ∧ (getSlot k m2).msg = some "no memory")
      | _ => True)
    ∧ (∀ (m : Machine) (bs : List Bool), m.mallocFails = true :: bs →
        cleanup_allocate m = MRes.noreturn (die_oom { m with mallocFails := bs }) ∧
        reslist_push_new m = MRes.noreturn (die_oom { m with mallocFails := bs }))
    ∧ (∀ (m : Machine) (bs : List Bool) (sz : Nat) (f : Frame) (fs : List Frame),
        m.mallocFails = false :: true :: bs → m.frames = f :: fs →
        xalloc sz m = MRes.noreturn (die_oom { m with
          mallocFails := bs,
          nextId := m.nextId + 1,
          frames := ⟨f.sid, Node.cleanup m.nextId none :: f.contents⟩ :: fs }))
    ∧ (∀ (sz : Nat) (m : Machine), xcalloc sz m = xalloc sz m)
    ∧ (∀ (fmt : String) (args : List FmtArg) (s : String) (m : Machine),
        fmtRunS fmt args = some s →
        xavprintf fmt args m =
          MRes.bind (xalloc (s.length + 1) m) (fun _ m1 => MRes.ok s m1))
    ∧ (∀ (m : Machine) (code : Nat) (fmt : String) (args : List FmtArg)
        (hd : Handler) (t : List Handler) (k : Nat) (s : String),
        m.handlers = hd :: t → hd.ei = some k → k < m.eiSlots.length →
        (getSlot k m).want_msg = true → fmtRunS fmt args = some s →
        m.mallocFails = [true] →
        match diev code fmt args m with
        | MRes.raised m2 =>
            (getSlot k m2).err = some ENOMEM ∧ (getSlot k m2).msg = some "no memory" ∧
            countAllocEv m2.events = countAllocEv m.events
        | MRes.ok _ _ => False
        | _ => True) := by
  refine ⟨?_, ?_, ?_, ?_, ?_, ?_⟩
  · intro m
    cases hres : die_oom m with
    | ok a m2 => exact trivial
    | raised m2 =>
      obtain ⟨f1, f2, f3, f4, f5, f6, f7⟩ := die_oom_raised_facts m m2 hres
      exact ⟨f1, f3, f7⟩
    | abort k => exact trivial
    | stuck => exact trivial
  · intro m bs hm
    exact ⟨cleanup_allocate_oom_route m bs hm, reslist_push_new_oom_route m bs hm⟩
  · intro m bs sz f fs hm hf
    exact xalloc_oom_route m bs sz f fs hm hf
  · intro sz m
    rfl
  · intro fmt args s m hfmt
    exact xavprintf_routes_xalloc fmt args s m hfmt
  · intro m code fmt args hd t k s hh hei hlt hwm hfmt hmf
    exact diev_oom_during_format m code fmt args hd t k s hh hei hlt hwm hfmt hmf

/-- C3 witness: with the next `malloc` failing, registering a cleanup
record raises out-of-memory without allocating; and a raise whose message
formatting hits out-of-memory still delivers `ENOMEM` / `"no memory"` with
no allocation event. -/
theorem die_oom_allocation_free_witness :
    cleanup_allocate { initMachine with mallocFails := [true] } =
      MRes.noreturn (die_oom { initMachine with mallocFails := [] }) ∧
    (match diev 5 "%d items" [FmtArg.int 3]
        { mWithHandler with mallocFails := [true] } with
     | MRes.raised m2 =>
        (getSlot 0 m2).err = some ENOMEM ∧ (getSlot 0 m2).msg = some "no memory" ∧
        countAllocEv m2.events =
          countAllocEv ({ mWithHandler with mallocFails := [true] } : Machine).events
     | MRes.ok _ _ => False
     | _ => True) := by
  constructor
  · exact (die_oom_allocation_free.2.1 { initMachine with mallocFails := [true] }
      [] rfl).1
  · exact die_oom_allocation_free.2.2.2.2.2 { mWithHandler with mallocFails := [true] }
      5 "%d items" [FmtArg.int 3] ⟨1, some 0⟩ [] 0 "3 items" rfl rfl (by decide)
      (by decide) (by decide) rfl

theorem fmtRun_invalidFmt (fmt : String) :
    fmtRun invalidFmtFmt.data [FmtArg.str fmt] =
      some ("invalid format string ".data ++ fmt.data.take 80) := by
  have hdata : invalidFmtFmt.data =
    ['i','n','v','a','l','i','d',' ','f','o','r','m','a','t',' ',
     's','t','r','i','n','g',' ','%','.','8','0','s'] := rfl
  have hpre : ("invalid format string ").data =
    ['i','n','v','a','l','i','d',' ','f','o','r','m','a','t',' ',
     's','t','r','i','n','g',' '] := rfl
  rw [hdata, hpre]
  simp [fmtRun]

theorem fmtRunS_invalidFmt (fmt : String) :
    fmtRunS invalidFmtFmt [FmtArg.str fmt] = some (invalidFmtMsg fmt) := by
  unfold fmtRunS invalidFmtMsg
  rw [fmtRun_invalidFmt fmt]
  rfl

theorem xalloc_success (sz : Nat) (m : Machine) (f : Frame) (fs : List Frame)
    (hm : m.mallocFails = []) (hf : m.frames = f :: fs) :
    xalloc sz m = MRes.ok (m.nextId + 1) { m with
      frames := ⟨f.sid, Node.cleanup m.nextId
        (some (CAct.freeMem (m.nextId + 1))) :: f.contents⟩ :: fs,
      nextId := m.nextId + 2,
      events := m.events ++ [Ev.alloc (m.nextId + 1) sz] } := by
  obtain ⟨fr, hl, ei, pn, ni, nf, ofds, mf, se, ev, cl⟩ := m
  dsimp only at hm hf
  subst hm hf
  unfold xalloc cleanup_allocate takeMalloc freshId pushNode
  simp only [MRes.bind]
  unfold cleanup_commit armInFrames armInNodes
  simp [MRes.bind, logEv]

theorem xalloc_noFail (sz : Nat) (m : Machine) (hm : m.mallocFails = []) :
    (∀ m2, xalloc sz m ≠ MRes.raised m2) ∧
    (∀ k, xalloc sz m ≠ MRes.abort k) ∧
    (∀ a m2, xalloc sz m = MRes.ok a m2 →
      m2.eiSlots = m.eiSlots ∧ m2.mallocFails = [] ∧ m2.handlers = m.handlers ∧
      m2.frames.length = m.frames.length) := by
  cases hf : m.frames with
  | nil =>
    have heq : xalloc sz m = MRes.stuck := by
      obtain ⟨fr, hl, ei, pn, ni, nf, ofds, mf, se, ev, cl⟩ := m
      dsimp only at hm hf
      subst hm hf
      rfl
    rw [heq]
    exact ⟨by simp, by simp, by simp⟩
  | cons f fs =>
    rw [xalloc_success sz m f fs hm hf]
    refine ⟨by simp, by simp, ?_⟩
    intro a m2 h2
    cases h2
    refine ⟨rfl, hm, rfl, ?_⟩
    simp

theorem xalloc_string_noFail (s : String) (m : Machine) (hm : m.mallocFails = []) :
    (∀ m2, xalloc_string s m ≠ MRes.raised m2) ∧
    (∀ k, xalloc_string s m ≠ MRes.abort k) ∧
    (∀ a m2, xalloc_string s m = MRes.ok a m2 →
      m2.eiSlots = m.eiSlots ∧ m2.mallocFails = [] ∧ m2.handlers = m.handlers ∧
      m2.frames.length = m.frames.length) := by
  obtain ⟨r1, r2, r3⟩ := xalloc_noFail (s.length + 1) m hm
  unfold xalloc_string
  cases hx : xalloc (s.length + 1) m with
  | ok a m1 =>
    obtain ⟨e1, e2, e3, e4⟩ := r3 a m1 hx
    refine ⟨by simp [MRes.bind], by simp [MRes.bind], ?_⟩
    intro b m2 h2
    simp only [MRes.bind] at h2
    cases h2
    exact ⟨e1, e2, e3, e4⟩
  | raised m1 => exact absurd hx (r1 m1)
  | abort k => exact absurd hx (r2 k)
  | stuck => exact ⟨by simp [MRes.bind], by simp [MRes.bind], by simp [MRes.bind]⟩

theorem slotSet_err_at {k : Nat} {m : Machine} (s : String) :
    ((getSlot k (slotSetMsg k s m)).err = (getSlot k m).err) ∧
    ((getSlot k (slotSetPrg k s m)).err = (getSlot k m).err) := by
  constructor
  · unfold slotSetMsg
    rw [getSlot_setSlot]
    split
    · rfl
    · rfl
  · unfold slotSetPrg
    rw [getSlot_setSlot]
    split
    · rfl
    · rfl

theorem dievMsg_raised_errVal (k hrl : Nat) (s : String) (m : Machine) (c : Nat)
    (hm : m.mallocFails = []) (he : (getSlot k m).err = some c) :
    ∀ m2, dievMsg k hrl s m = MRes.raised m2 → (getSlot k m2).err = some c := by
  intro m2 hres
  unfold dievMsg at hres
  obtain ⟨r1, r2, r3⟩ := xalloc_string_noFail s m hm
  cases h1 : xalloc_string s m with
  | ok msg m1 =>
    obtain ⟨e1, e2, e3, e4⟩ := r3 msg m1 h1
    simp only [h1, MRes.bind] at hres
    have he1 : (getSlot k (slotSetMsg k msg m1)).err = some c := by
      rw [(slotSet_err_at msg).1, getSlot_congr e1, he]
    have hm1 : (slotSetMsg k msg m1).mallocFails = [] := e2
    obtain ⟨q1, q2, q3⟩ :=
      xalloc_string_noFail (slotSetMsg k msg m1).prgname (slotSetMsg k msg m1) hm1
    cases h2 : xalloc_string (slotSetMsg k msg m1).prgname (slotSetMsg k msg m1) with
    | ok prg m3 =>
      obtain ⟨w1, w2, w3, w4⟩ := q3 prg m3 h2
      simp only [h2, MRes.bind] at hres
      unfold dievTail at hres
      cases h3 : reslist_destroy hrl (slotSetPrg k prg m3) with
      | ok u m4 =>
        cases u
        rw [h3] at hres
        simp only [MRes.raised.injEq] at hres
        subst hres
        obtain ⟨d1, d2, _⟩ :=
          (reslist_destroy_keep hrl (slotSetPrg k prg m3)).2.2 m4 h3
        rw [getSlot_congr d2, (slotSet_err_at prg).2, getSlot_congr w1, he1]
      | raised m4 =>
        exact absurd h3 ((reslist_destroy_keep hrl (slotSetPrg k prg m3)).1 m4)
      | abort kk =>
        rw [h3] at hres
        simp at hres
      | stuck =>
        rw [h3] at hres
        simp at hres
    | raised m3 => exact absurd h2 (q1 m3)
    | abort kk => exact absurd h2 (q2 kk)
    | stuck =>
      simp only [h2, MRes.bind] at hres
      simp at hres
  | raised m1 => exact absurd h1 (r1 m1)
  | abort kk => exact absurd h1 (r2 kk)
  | stuck =>
    simp only [h1, MRes.bind] at hres
    simp at hres

theorem xavprintf_ok (fmt : String) (args : List FmtArg) (s : String) (m : Machine)
    (f : Frame) (fs : List Frame) (hfmt : fmtRunS fmt args = some s)
    (hm : m.mallocFails = []) (hf : m.frames = f :: fs) :
    xavprintf fmt args m = MRes.ok s { m with
      frames := ⟨f.sid, Node.cleanup m.nextId
        (some (CAct.freeMem (m.nextId + 1))) :: f.contents⟩ :: fs,
      nextId := m.nextId + 2,
      events := m.events ++ [Ev.alloc (m.nextId + 1) (s.length + 1)] } := by
  unfold xavprintf xalloc_string
  simp only [hfmt]
  rw [xalloc_success (s.length + 1) m f fs hm hf]
  rfl

theorem xavprintf_invalid_delivers (fmt : String) (args : List FmtArg) (m : Machine)
    (hd : Handler) (t : List Handler) (k : Nat)
    (hfmt : fmtRunS fmt args = none) (hh : m.handlers = hd :: t)
    (hei : hd.ei = some k) (hlt : k < m.eiSlots.length) (hm : m.mallocFails = []) :
    match xavprintf fmt args m with
    | MRes.raised m2 => (getSlot k m2).err = some EINVAL
    | MRes.ok _ _ => False
    | _ => True := by
  cases hres : xavprintf fmt args m with
  | ok a m2 =>
    unfold xavprintf at hres
    simp only [hfmt] at hres
    exact absurd hres MRes.noreturn_ne_ok
  | abort kk => exact trivial
  | stuck => exact trivial
  | raised m2 =>
    unfold xavprintf at hres
    simp only [hfmt] at hres
    unfold die diev at hres
    simp only [hh] at hres
    cases hset : reslistSetCurrentToParent hd.rl m with
    | none =>
      simp only [hset] at hres
      simp [MRes.noreturn] at hres
    | some m1 =>
      simp only [hset, hei] at hres
      obtain ⟨k1, k2, k3, k4, k5, k6, k7, k8, k9, k10⟩ :=
        reslistSetCurrentToParent_keep hset
      have herr : (getSlot k (slotSetErr k EINVAL m1)).err = some EINVAL := by
        unfold slotSetErr
        rw [getSlot_setSlot, if_pos ⟨rfl, by rw [k2]; exact hlt⟩]
      have hmf1 : (slotSetErr k EINVAL m1).mallocFails = [] := by
        show m1.mallocFails = []
        rw [k5]
        exact hm
      cases hwm : (getSlot k (slotSetErr k EINVAL m1)).want_msg with
      | true =>
        simp only [hwm, if_true, fmtRunS_invalidFmt] at hres
        cases hdm : dievMsg k hd.rl (invalidFmtMsg fmt) (slotSetErr k EINVAL m1) with
        | ok a mm =>
          cases a
          exact absurd hdm (dievMsg_no_ok _ _ _ _)
        | raised mm =>
          simp only [hdm, MRes.noreturn, MRes.raised.injEq] at hres
          show (getSlot k m2).err = some EINVAL
          rw [← hres]
          exact dievMsg_raised_errVal k hd.rl (invalidFmtMsg fmt)
            (slotSetErr k EINVAL m1) EINVAL hmf1 herr mm hdm
        | abort kk =>
          simp only [hdm, MRes.noreturn] at hres
          simp at hres
        | stuck =>
          simp only [hdm, MRes.noreturn] at hres
          simp at hres
      | false =>
        simp [hwm] at hres
        unfold dievTail at hres
        cases hdes : reslist_destroy hd.rl (slotSetErr k EINVAL m1) with
        | ok u m4 =>
          cases u
          rw [hdes] at hres
          simp only [MRes.noreturn, MRes.raised.injEq] at hres
          obtain ⟨d1, d2, _⟩ :=
            (reslist_destroy_keep hd.rl (slotSetErr k EINVAL m1)).2.2 m4 hdes
          show (getSlot k m2).err = some EINVAL
          rw [← hres, getSlot_congr d2, herr]
        | raised m4 =>
          exact absurd hdes ((reslist_destroy_keep hd.rl (slotSetErr k EINVAL m1)).1 m4)
        | abort kk =>
          rw [hdes] at hres
          simp [MRes.noreturn] at hres
        | stuck =>
          rw [hdes] at hres
          simp [MRes.noreturn] at hres

/-- C8: `xavprintf` (and `xaprintf` = `format_string`) computes the required
length via a length-only formatting pass, allocates exactly that many bytes
plus one terminator byte through the scope-tracked allocator `xalloc`
(registering a free action for the buffer in the current scope), formats
into the buffer and returns the string; `xaprintf "%d items" [3]` returns
`"3 items"`; and failure of the length pass — an invalid format string —
raises with the distinct code `EINVAL` delivered to the handler, not the
out-of-memory code `ENOMEM`. -/
theorem xavprintf_spec :
    (∀ (fmt : String) (args : List FmtArg) (s : String) (m : Machine)
       (f : Frame) (fs : List Frame),
      fmtRunS fmt args = some s → m.mallocFails = [] → m.frames = f :: fs →
      xaprintf fmt args m = MRes.ok s { m with
        frames := ⟨f.sid, Node.cleanup m.nextId
          (some (CAct.freeMem (m.nextId + 1))) :: f.contents⟩ :: fs,
        nextId := m.nextId + 2,
        events := m.events ++ [Ev.alloc (m.nextId + 1) (s.length + 1)] })
    ∧ fmtRunS "%d items" [FmtArg.int 3] = some "3 items"
    ∧ (∀ (fmt : String) (args : List FmtArg) (m : Machine),
        fmtRunS fmt args = none →
        xavprintf fmt args m =
          MRes.noreturn (die EINVAL invalidFmtFmt [FmtArg.str fmt] m))
    ∧ (∀ (fmt : String) (args : List FmtArg) (m : Machine) (hd : Handler)
        (t : List Handler) (k : Nat),
        fmtRunS fmt args = none → m.handlers = hd :: t → hd.ei = some k →
        k < m.eiSlots.length → m.mallocFails = [] →
        match xavprintf fmt args m with
        | MRes.raised m2 => (getSlot k m2).err = some EINVAL
        | MRes.ok _ _ => False
        | _ => True)
    ∧ EINVAL ≠ ENOMEM := by
  refine ⟨?_, ?_, ?_, ?_, ?_⟩
  · intro fmt args s m f fs hfmt hm hf
    exact xavprintf_ok fmt args s m f fs hfmt hm hf
  · decide
  · intro fmt args m hfmt
    unfold xavprintf
    simp only [hfmt]
  · intro fmt args m hd t k hfmt hh hei hlt hm
    exact xavprintf_invalid_delivers fmt args m hd t k hfmt hh hei hlt hm
  · decide

/-- C8 witness: `xaprintf "%d items" [3]` on the fresh machine returns the
string `"3 items"` after allocating its 8 bytes, and an invalid format
raised under a handler delivers `EINVAL`. -/
theorem xavprintf_spec_witness :
    xaprintf "%d items" [FmtArg.int 3] initMachine =
      MRes.ok "3 items" { initMachine with
        frames := [⟨0, [Node.cleanup 1 (some (CAct.freeMem 2))]⟩],
        nextId := 3,
        events := [Ev.alloc 2 8] } ∧
    (match xavprintf "%q" [] mWithHandler with
     | MRes.raised m2 => (getSlot 0 m2).err = some EINVAL
     | MRes.ok _ _ => False
     | _ => True) := by
  constructor
  · exact xavprintf_spec.1 "%d items" [FmtArg.int 3] "3 items" initMachine
      ⟨0, []⟩ [] (by decide) rfl rfl
  · exact xavprintf_spec.2.2.2.1 "%q" [] mWithHandler ⟨1, some 0⟩ [] 0
      (by decide) rfl rfl (by decide) rfl

theorem foldl_wrap_outer : ∀ (fs : List Frame) (n : Node) (g : Frame),
    fs.getLast? = some g →
    ∃ cs, fs.foldl (fun child gg => Node.scope gg.sid (child :: gg.contents)) n =
      Node.scope g.sid cs
  | [], n, g => by
    intro h
    simp at h
  | [x], n, g => by
    intro h
    simp at h
    subst h
    exact ⟨n :: x.contents, rfl⟩
  | x :: y :: rest, n, g => by
    intro h
    rw [List.getLast?_cons_cons] at h
    have ih := foldl_wrap_outer (y :: rest)
      (Node.scope x.sid (n :: x.contents)) g h
    simpa [List.foldl] using ih

theorem splitFrames_last (sid : Nat) : ∀ (fs below rest : List Frame),
    splitFrames sid fs = some (below, rest) →
    ∃ g, below.getLast? = some g ∧ g.sid = sid ∧ fs = below ++ rest
  | [], below, rest => by
    intro h
    simp [splitFrames] at h
  | f :: fs2, below, rest => by
    intro h
    unfold splitFrames at h
    split at h
    · rename_i hsid
      simp only [Option.some.injEq, Prod.mk.injEq] at h
      obtain ⟨h1, h2⟩ := h
      subst h1 h2
      exact ⟨f, rfl, hsid, rfl⟩
    · rename_i hsid
      rw [Option.map_eq_some'] at h
      obtain ⟨⟨b2, r2⟩, hsp, hpair⟩ := h
      obtain ⟨g, hg1, hg2, hg3⟩ := splitFrames_last sid fs2 b2 r2 hsp
      simp only [Prod.mk.injEq] at hpair
      obtain ⟨hb, hr⟩ := hpair
      subst hb hr
      refine ⟨g, ?_, hg2, ?_⟩
      · cases b2 with
        | nil => simp at hg1
        | cons b bs => rw [List.getLast?_cons_cons]; exact hg1
      · rw [hg3]
        simp

theorem framesToNode_of_split (sid : Nat) (fs below rest : List Frame)
    (h : splitFrames sid fs = some (below, rest)) :
    ∃ cs, framesToNode below = some (Node.scope sid cs) := by
  obtain ⟨g, hg1, hg2, _⟩ := splitFrames_last sid fs below rest h
  cases below with
  | nil => simp at hg1
  | cons f0 bs =>
    cases bs with
    | nil =>
      simp at hg1
      subst hg1
      refine ⟨f0.contents, ?_⟩
      simp [framesToNode, hg2]
    | cons b1 bs2 =>
      rw [List.getLast?_cons_cons] at hg1
      obtain ⟨cs, hcs⟩ := foldl_wrap_outer (b1 :: bs2)
        (Node.scope f0.sid f0.contents) g hg1
      refine ⟨cs, ?_⟩
      simp only [framesToNode, hcs, hg2]

theorem extractScope_two_cleanups (sid i1 i2 : Nat) (a1 a2 : Option CAct)
    (cs rest : List Node) :
    extractScope sid (Node.cleanup i1 a1 :: Node.cleanup i2 a2 ::
        Node.scope sid cs :: rest) =
      some (cs, Node.cleanup i1 a1 :: Node.cleanup i2 a2 :: rest) := by
  simp [extractScope]

theorem xalloc_string_success (s : String) (m : Machine) (f : Frame)
    (fs : List Frame) (hm : m.mallocFails = []) (hf : m.frames = f :: fs) :
    xalloc_string s m = MRes.ok s { m with
      frames := ⟨f.sid, Node.cleanup m.nextId
        (some (CAct.freeMem (m.nextId + 1))) :: f.contents⟩ :: fs,
      nextId := m.nextId + 2,
      events := m.events ++ [Ev.alloc (m.nextId + 1) (s.length + 1)] } := by
  unfold xalloc_string
  rw [xalloc_success (s.length + 1) m f fs hm hf]
  rfl

theorem reslistSetCurrentToParent_of_split (sid : Nat) (m : Machine)
    (below : List Frame) (f : Frame) (rest : List Frame) (cs : List Node)
    (hsp : splitFrames sid m.frames = some (below, f :: rest))
    (hnd : framesToNode below = some (Node.scope sid cs)) :
    reslistSetCurrentToParent sid m =
      some { m with frames := ⟨f.sid, Node.scope sid cs :: f.contents⟩ :: rest } := by
  unfold reslistSetCurrentToParent
  rw [hsp]
  show (framesToNode below).map
      (fun nd => { m with frames := ⟨f.sid, nd :: f.contents⟩ :: rest }) =
    some { m with frames := ⟨f.sid, Node.scope sid cs :: f.contents⟩ :: rest }
  rw [hnd]
  rfl

theorem dievTail_raised_keep (hrl : Nat) (M m2 : Machine)
    (h : dievTail hrl M = MRes.raised m2) :
    m2.eiSlots = M.eiSlots ∧ m2.handlers = M.handlers ∧ m2.prgname = M.prgname := by
  unfold dievTail at h
  cases hr : reslist_destroy hrl M with
  | ok u m1 =>
    cases u
    simp only [hr] at h
    injection h with h
    subst h
    unfold reslist_destroy at hr
    split at hr
    · exact MRes.noConfusion hr
    · rename_i cs frames2 heq
      obtain ⟨_, hh, he, hp, _⟩ :=
        (destroyNode_facts (Node.scope hrl cs) { M with frames := frames2 }).2.2.2 _ hr
      exact ⟨he, hh, hp⟩
  | raised m1 =>
    unfold reslist_destroy at hr
    split at hr
    · exact MRes.noConfusion hr
    · rename_i cs frames2 heq
      exact absurd hr ((destroyNode_facts (Node.scope hrl cs) _).1 m1)
  | abort b =>
    simp only [hr] at h
    exact MRes.noConfusion h
  | stuck =>
    simp only [hr] at h
    exact MRes.noConfusion h

theorem xalloc_string_mk (s : String) (sid0 : Nat) (c0 : List Node)
    (rest : List Frame) (hl : List Handler) (ei : List ErrInfoV) (pn : String)
    (ni nf : Nat) (ofds : List Nat) (se : List (Option Nat)) (ev : List Ev)
    (cl : List Bool) :
    xalloc_string s ⟨⟨sid0, c0⟩ :: rest, hl, ei, pn, ni, nf, ofds, [], se, ev, cl⟩ =
      MRes.ok s ⟨⟨sid0, Node.cleanup ni (some (CAct.freeMem (ni + 1))) :: c0⟩ :: rest,
        hl, ei, pn, ni + 2, nf, ofds, [], se,
        ev ++ [Ev.alloc (ni + 1) (s.length + 1)], cl⟩ :=
  xalloc_string_success s ⟨⟨sid0, c0⟩ :: rest, hl, ei, pn, ni, nf, ofds, [], se, ev, cl⟩
    ⟨sid0, c0⟩ rest rfl rfl

/-- The `want_msg` tail of `diev`, run on a machine whose current scope is
the handler scope's parent and whose head child is the still-linked handler
scope: both allocations land as records in the surviving parent frame, the
slot receives the formatted message and the program identity, and only then
is the handler scope destroyed and the jump taken. -/
theorem dievMsg_normal (k hrl sid0 : Nat) (s : String)
    (cs oldc : List Node) (rest : List Frame)
    (hl : List Handler) (ei : List ErrInfoV) (pn : String) (ni nf : Nat)
    (ofds : List Nat) (se : List (Option Nat)) (ev : List Ev) (cl : List Bool)
    (hk : k < ei.length) :
    match dievMsg k hrl s ⟨⟨sid0, Node.scope hrl cs :: oldc⟩ :: rest,
        hl, ei, pn, ni, nf, ofds, [], se, ev, cl⟩ with
    | MRes.raised m2 =>
        m2.handlers = hl ∧
        m2.eiSlots = ei.set k { ei.getD k slotDefault with
          msg := some s, prg := some pn } ∧
        m2.frames = ⟨sid0,
          Node.cleanup (ni + 2) (some (CAct.freeMem (ni + 3))) ::
          Node.cleanup ni (some (CAct.freeMem (ni + 1))) :: oldc⟩ :: rest ∧
        (∃ devents, m2.events = ev ++
          [Ev.alloc (ni + 1) (s.length + 1),
           Ev.alloc (ni + 3) (pn.length + 1)] ++ devents)
    | MRes.ok _ _ => False
    | MRes.abort b => b = closeBadFdAbort
    | MRes.stuck => False := by
  unfold dievMsg
  rw [xalloc_string_mk]
  simp only [MRes.bind, slotSetMsg, slotSetPrg, setSlot, getSlot]
  rw [xalloc_string_mk]
  simp only [MRes.bind]
  unfold dievTail reslist_destroy
  simp only [extractFromFrames, extractScope_two_cleanups]
  have hfacts := destroyNode_facts (Node.scope hrl cs)
    ⟨⟨sid0, Node.cleanup (ni + 2) (some (CAct.freeMem (ni + 2 + 1))) ::
        Node.cleanup ni (some (CAct.freeMem (ni + 1))) :: oldc⟩ :: rest,
      hl,
      (ei.set k { ei.getD k slotDefault with msg := some s }).set k
        { (ei.set k { ei.getD k slotDefault with msg := some s }).getD k slotDefault with
          prg := some pn },
      pn, ni + 2 + 2, nf, ofds, [], se,
      ev ++ [Ev.alloc (ni + 1) (s.length + 1)] ++ [Ev.alloc (ni + 2 + 1) (pn.length + 1)],
      cl⟩
  cases hres : destroyNode (Node.scope hrl cs)
    ⟨⟨sid0, Node.cleanup (ni + 2) (some (CAct.freeMem (ni + 2 + 1))) ::
        Node.cleanup ni (some (CAct.freeMem (ni + 1))) :: oldc⟩ :: rest,
      hl,
      (ei.set k { ei.getD k slotDefault with msg := some s }).set k
        { (ei.set k { ei.getD k slotDefault with msg := some s }).getD k slotDefault with
          prg := some pn },
      pn, ni + 2 + 2, nf, ofds, [], se,
      ev ++ [Ev.alloc (ni + 1) (s.length + 1)] ++ [Ev.alloc (ni + 2 + 1) (pn.length + 1)],
      cl⟩ with
  | ok u m4 =>
    cases u
    obtain ⟨hfr, hh, he, hp, _, _, _, _, _, _, _, _, dev, hdev⟩ := hfacts.2.2.2 m4 hres
    refine ⟨hh, ?_, ?_, ?_⟩
    · rw [he]
      have ev1 : (ei.set k { ei.getD k slotDefault with msg := some s }).getD k
          slotDefault = { ei.getD k slotDefault with msg := some s } := by
        rw [getD_set_facts]
        exact if_pos ⟨rfl, hk⟩
      show ((ei.set k { ei.getD k slotDefault with msg := some s }).set k
        { (ei.set k { ei.getD k slotDefault with msg := some s }).getD k slotDefault with
          prg := some pn }) = _
      rw [ev1, List.set_set]
    · rw [hfr]
    · refine ⟨dev, ?_⟩
      rw [hdev]
      show ev ++ [Ev.alloc (ni + 1) (s.length + 1)] ++
        [Ev.alloc (ni + 2 + 1) (pn.length + 1)] ++ dev = _
      simp [List.append_assoc]
  | raised m1 =>
    exact absurd hres (hfacts.1 m1)
  | abort b =>
    exact hfacts.2.2.1 b hres
  | stuck =>
    exact absurd hres hfacts.2.1

/-- C5: for every raise (`diev`) with a handler installed, the current scope
is moved up to the handler scope's parent before any allocating work, so the
formatted message and the program-identity copy are allocated as records of
the surviving parent frame (their `alloc` events precede every destruction
event); the handler's error-info slot receives the error code, and the
message and program identity exactly when the installer asked for message
construction (`want_msg`); only then is the handler's scope destroyed
(removed from the frame zipper) and the `siglongjmp` taken. -/
theorem diev_unwind_before_format :
    (∀ (code : Nat) (fmt : String) (args : List FmtArg) (s : String) (m : Machine)
        (hd : Handler) (t : List Handler) (below : List Frame) (f : Frame)
        (rest : List Frame) (k : Nat),
      m.handlers = hd :: t →
      hd.ei = some k →
      k < m.eiSlots.length →
      (getSlot k m).want_msg = true →
      splitFrames hd.rl m.frames = some (below, f :: rest) →
      fmtRunS fmt args = some s →
      m.mallocFails = [] →
      match diev code fmt args m with
      | MRes.raised m2 =>
          getSlot k m2 = { getSlot k m with
            err := some code, msg := some s, prg := some m.prgname } ∧
          m2.handlers = m.handlers ∧
          m2.frames = ⟨f.sid,
            Node.cleanup (m.nextId + 2) (some (CAct.freeMem (m.nextId + 3))) ::
            Node.cleanup m.nextId (some (CAct.freeMem (m.nextId + 1))) ::
            f.contents⟩ :: rest ∧
          (∃ devents, m2.events = m.events ++
            [Ev.alloc (m.nextId + 1) (s.length + 1),
             Ev.alloc (m.nextId + 3) (m.prgname.length + 1)] ++ devents)
      | MRes.ok _ _ => False
      | MRes.abort b => b = closeBadFdAbort
      | MRes.stuck => False) ∧
    (∀ (code : Nat) (fmt : String) (args : List FmtArg) (m : Machine)
        (hd : Handler) (t : List Handler) (k : Nat),
      m.handlers = hd :: t →
      hd.ei = some k →
      k < m.eiSlots.length →
      (getSlot k m).want_msg = false →
      match diev code fmt args m with
      | MRes.raised m2 =>
          getSlot k m2 = { getSlot k m with err := some code } ∧
          m2.handlers = m.handlers
      | MRes.ok _ _ => False
      | _ => True) ∧
    (∀ (code : Nat) (fmt : String) (args : List FmtArg) (m : Machine)
        (hd : Handler) (t : List Handler),
      m.handlers = hd :: t →
      hd.ei = none →
      match diev code fmt args m with
      | MRes.raised m2 => m2.eiSlots = m.eiSlots ∧ m2.handlers = m.handlers
      | MRes.ok _ _ => False
      | _ => True) := by
  refine ⟨?_, ?_, ?_⟩
  · intro code fmt args s m hd t below f rest k hh hei hk hw hsplit hfmt hmal
    obtain ⟨cs, hcs⟩ := framesToNode_of_split hd.rl m.frames below (f :: rest) hsplit
    have e1 := reslistSetCurrentToParent_of_split hd.rl m below f rest cs hsplit hcs
    obtain ⟨fr, hl, ei, pn, ni, nf, ofds, mf, se, ev, cl⟩ := m
    dsimp only at hh hei hk hw hsplit hmal e1 ⊢
    subst hh hmal
    have hwc : (getSlot k (slotSetErr k code
        ⟨⟨f.sid, Node.scope hd.rl cs :: f.contents⟩ :: rest,
          hd :: t, ei, pn, ni, nf, ofds, [], se, ev, cl⟩)).want_msg = true := by
      unfold slotSetErr
      rw [getSlot_setSlot]
      rw [if_pos ⟨rfl, hk⟩]
      exact hw
    have ediev : diev code fmt args
        ⟨fr, hd :: t, ei, pn, ni, nf, ofds, [], se, ev, cl⟩ =
      dievMsg k hd.rl s (slotSetErr k code
        ⟨⟨f.sid, Node.scope hd.rl cs :: f.contents⟩ :: rest,
          hd :: t, ei, pn, ni, nf, ofds, [], se, ev, cl⟩) := by
      unfold diev
      simp only [e1, hei, hwc, eq_self_iff_true, if_true, hfmt]
    rw [ediev]
    have hms : slotSetErr k code
        ⟨⟨f.sid, Node.scope hd.rl cs :: f.contents⟩ :: rest,
          hd :: t, ei, pn, ni, nf, ofds, [], se, ev, cl⟩ =
        ⟨⟨f.sid, Node.scope hd.rl cs :: f.contents⟩ :: rest, hd :: t,
          ei.set k { ei.getD k slotDefault with err := some code },
          pn, ni, nf, ofds, [], se, ev, cl⟩ := rfl
    rw [hms]
    have HH := dievMsg_normal k hd.rl f.sid s cs f.contents rest (hd :: t)
      (ei.set k { ei.getD k slotDefault with err := some code }) pn ni nf ofds se ev cl
      (by simpa using hk)
    cases hres : dievMsg k hd.rl s
        ⟨⟨f.sid, Node.scope hd.rl cs :: f.contents⟩ :: rest, hd :: t,
          ei.set k { ei.getD k slotDefault with err := some code },
          pn, ni, nf, ofds, [], se, ev, cl⟩ with
    | raised m2 =>
      simp only [hres] at HH
      obtain ⟨hhand, hslots, hfr, hev⟩ := HH
      have hv0 : (ei.set k { ei.getD k slotDefault with err := some code }).getD k
          slotDefault = { ei.getD k slotDefault with err := some code } := by
        rw [getD_set_facts]
        exact if_pos ⟨rfl, hk⟩
      refine ⟨?_, hhand, hfr, hev⟩
      unfold getSlot
      rw [hslots, List.set_set, getD_set_facts]
      rw [if_pos ⟨rfl, hk⟩]
      rw [hv0]
    | ok a m2 =>
      simp only [hres] at HH
    | abort b =>
      simp only [hres] at HH
      exact HH
    | stuck =>
      simp only [hres] at HH
  · intro code fmt args m hd t k hh hei hk hw
    unfold diev
    simp only [hh]
    cases hpar : reslistSetCurrentToParent hd.rl m with
    | none => exact trivial
    | some m1 =>
      obtain ⟨kh, ke, _⟩ := reslistSetCurrentToParent_keep hpar
      simp only [hei]
      have hwc : (getSlot k (slotSetErr k code m1)).want_msg = false := by
        unfold slotSetErr
        rw [getSlot_setSlot]
        rw [if_pos ⟨rfl, by rw [ke]; exact hk⟩]
        show (getSlot k m1).want_msg = false
        rw [getSlot_congr ke]
        exact hw
      simp only [hwc, Bool.false_eq_true, if_false]
      cases hdt : dievTail hd.rl (slotSetErr k code m1) with
      | raised m2 =>
        obtain ⟨de, dh, _⟩ := dievTail_raised_keep _ _ _ hdt
        refine ⟨?_, ?_⟩
        · unfold getSlot
          rw [de]
          unfold slotSetErr setSlot
          dsimp only
          rw [getD_set_facts]
          rw [if_pos ⟨rfl, by rw [ke]; exact hk⟩]
          rw [getSlot_congr ke]
          rfl
        · rw [dh]
          show m1.handlers = hd :: t
          rw [kh]
          exact hh
      | ok a m2 => exact absurd hdt (dievTail_no_ok _ _)
      | abort b => exact trivial
      | stuck => exact trivial
  · intro code fmt args m hd t hh hei
    unfold diev
    simp only [hh]
    cases hpar : reslistSetCurrentToParent hd.rl m with
    | none => exact trivial
    | some m1 =>
      obtain ⟨kh, ke, _⟩ := reslistSetCurrentToParent_keep hpar
      simp only [hei]
      cases hdt : dievTail hd.rl m1 with
      | raised m2 =>
        obtain ⟨de, dh, _⟩ := dievTail_raised_keep _ _ _ hdt
        exact ⟨de.trans ke, (dh.trans kh).trans hh⟩
      | ok a m2 => exact absurd hdt (dievTail_no_ok _ _)
      | abort b => exact trivial
      | stuck => exact trivial

theorem xopen_success (path : String) (m : Machine) (f : Frame) (fs : List Frame)
    (hm : m.mallocFails = []) (hs : m.sysErrs = []) (hf : m.frames = f :: fs) :
    xopen path m = MRes.ok m.nextFd { m with
      frames := ⟨f.sid, Node.cleanup m.nextId
        (some (CAct.closeFd m.nextFd)) :: f.contents⟩ :: fs,
      nextId := m.nextId + 1,
      nextFd := m.nextFd + 1,
      openFds := m.nextFd :: m.openFds,
      events := m.events ++ [Ev.openedFd m.nextFd] } := by
  obtain ⟨fr, hl, ei, pn, ni, nf, ofds, mf, se, ev, cl⟩ := m
  dsimp only at hm hs hf
  subst hm hs hf
  unfold xopen cleanup_allocate takeMalloc freshId pushNode takeSys
  simp only [MRes.bind]
  unfold cleanup_commit_close_fd cleanup_commit armInFrames armInNodes
  simp [MRes.bind, logEv]

theorem xpipe_success (m : Machine) (f : Frame) (fs : List Frame)
    (hm : m.mallocFails = []) (hs : m.sysErrs = []) (hf : m.frames = f :: fs) :
    xpipe m = MRes.ok (m.nextFd, m.nextFd + 1) { m with
      frames := ⟨f.sid,
        Node.cleanup (m.nextId + 1) (some (CAct.closeFd (m.nextFd + 1))) ::
        Node.cleanup m.nextId (some (CAct.closeFd m.nextFd)) :: f.contents⟩ :: fs,
      nextId := m.nextId + 2,
      nextFd := m.nextFd + 2,
      openFds := (m.nextFd + 1) :: m.nextFd :: m.openFds,
      events := m.events ++ [Ev.openedFd m.nextFd, Ev.openedFd (m.nextFd + 1)] } := by
  obtain ⟨fr, hl, ei, pn, ni, nf, ofds, mf, se, ev, cl⟩ := m
  dsimp only at hm hs hf
  subst hm hs hf
  unfold xpipe cleanup_allocate takeMalloc freshId pushNode takeSys
  simp only [MRes.bind]
  simp [MRes.bind, logEv, cleanup_commit_close_fd, cleanup_commit,
    armInFrames, armInNodes]

theorem xdup_success (fd : Nat) (m : Machine) (f : Frame) (fs : List Frame)
    (hm : m.mallocFails = []) (hs : m.sysErrs = []) (hf : m.frames = f :: fs)
    (hmem : fd ∈ m.openFds) :
    xdup fd m = MRes.ok m.nextFd { m with
      frames := ⟨f.sid, Node.cleanup m.nextId
        (some (CAct.closeFd m.nextFd)) :: f.contents⟩ :: fs,
      nextId := m.nextId + 1,
      nextFd := m.nextFd + 1,
      openFds := m.nextFd :: m.openFds,
      events := m.events ++ [Ev.openedFd m.nextFd] } := by
  obtain ⟨fr, hl, ei, pn, ni, nf, ofds, mf, se, ev, cl⟩ := m
  dsimp only at hm hs hf hmem
  subst hm hs hf
  unfold xdup cleanup_allocate takeMalloc freshId pushNode takeSys
  simp only [MRes.bind]
  unfold cleanup_commit_close_fd cleanup_commit armInFrames armInNodes
  simp [MRes.bind, logEv, hmem]

/-- C7: a descriptor acquired by `xopen`/`xpipe`/`xdup` is guarded by an
armed close record in the acquiring scope (the success equations below show
the committed record), an armed close record contributes exactly one close
to any destruction of a tree containing it — including a destruction entered
from an ancestor scope's unwind, since `closeCount` sums through nested
scopes — and `fd_cleanup` closes an open descriptor exactly once while a
descriptor already invalid at cleanup time makes it `abort()`. -/
theorem fd_closed_exactly_once :
    (∀ (fd : Nat) (m : Machine), fd ∈ m.openFds →
      fd_cleanup fd m =
        MRes.ok () (logEv (Ev.closedFd fd) { m with openFds := m.openFds.erase fd })) ∧
    (∀ (fd : Nat) (m : Machine), fd ∉ m.openFds →
      fd_cleanup fd m = MRes.abort closeBadFdAbort) ∧
    (∀ (path : String) (m : Machine) (f : Frame) (fs : List Frame),
      m.mallocFails = [] → m.sysErrs = [] → m.frames = f :: fs →
      xopen path m = MRes.ok m.nextFd { m with
        frames := ⟨f.sid, Node.cleanup m.nextId
          (some (CAct.closeFd m.nextFd)) :: f.contents⟩ :: fs,
        nextId := m.nextId + 1,
        nextFd := m.nextFd + 1,
        openFds := m.nextFd :: m.openFds,
        events := m.events ++ [Ev.openedFd m.nextFd] }) ∧
    (∀ (m : Machine) (f : Frame) (fs : List Frame),
      m.mallocFails = [] → m.sysErrs = [] → m.frames = f :: fs →
      xpipe m = MRes.ok (m.nextFd, m.nextFd + 1) { m with
        frames := ⟨f.sid,
          Node.cleanup (m.nextId + 1) (some (CAct.closeFd (m.nextFd + 1))) ::
          Node.cleanup m.nextId (some (CAct.closeFd m.nextFd)) :: f.contents⟩ :: fs,
        nextId := m.nextId + 2,
        nextFd := m.nextFd + 2,
        openFds := (m.nextFd + 1) :: m.nextFd :: m.openFds,
        events := m.events ++ [Ev.openedFd m.nextFd, Ev.openedFd (m.nextFd + 1)] }) ∧
    (∀ (fd : Nat) (m : Machine) (f : Frame) (fs : List Frame),
      m.mallocFails = [] → m.sysErrs = [] → m.frames = f :: fs → fd ∈ m.openFds →
      xdup fd m = MRes.ok m.nextFd { m with
        frames := ⟨f.sid, Node.cleanup m.nextId
          (some (CAct.closeFd m.nextFd)) :: f.contents⟩ :: fs,
        nextId := m.nextId + 1,
        nextFd := m.nextFd + 1,
        openFds := m.nextFd :: m.openFds,
        events := m.events ++ [Ev.openedFd m.nextFd] }) ∧
    (∀ (fd cid : Nat), closeCount fd (Node.cleanup cid (some (CAct.closeFd fd))) = 1) ∧
    (∀ (fd : Nat) (n : Node) (m m2 : Machine), destroyNode n m = MRes.ok () m2 →
      countClosedEv fd m2.events = countClosedEv fd m.events + closeCount fd n) := by
  refine ⟨?_, ?_, ?_, ?_, ?_, ?_, ?_⟩
  · intro fd m hmem
    unfold fd_cleanup
    rw [if_pos hmem]
  · intro fd m hmem
    unfold fd_cleanup
    rw [if_neg hmem]
  · intro path m f fs hm hs hf
    exact xopen_success path m f fs hm hs hf
  · intro m f fs hm hs hf
    exact xpipe_success m f fs hm hs hf
  · intro fd m f fs hm hs hf hmem
    exact xdup_success fd m f fs hm hs hf hmem
  · intro fd cid
    simp [closeCount]
  · intro fd n m m2 h
    exact destroyNode_closeCount fd n m m2 h

/-- Sequencing a computation that never returns normally. -/
theorem bind_noreturn {α β γ : Type} (r : MRes α) (f : β → Machine → MRes γ) :
    MRes.bind (MRes.noreturn r : MRes β) f = MRes.noreturn r := by
  cases r <;> rfl

/-- Resource-acquisition bookkeeping between an entry state and an exit
state: no descriptor-open event was added, the descriptor counter did not
move, no new descriptor is held, and the syscall oracle is untouched. -/
def NoAcqS (m m2 : Machine) : Prop :=
  countOpenedEv m2.events = countOpenedEv m.events ∧
  m2.nextFd = m.nextFd ∧ m2.openFds ⊆ m.openFds ∧ m2.sysErrs = m.sysErrs

theorem NoAcqS.self (m : Machine) : NoAcqS m m :=
  ⟨Eq.refl _, Eq.refl _, List.Subset.refl _, Eq.refl _⟩

theorem NoAcqS.chain {m m1 m2 : Machine} (h1 : NoAcqS m m1) (h2 : NoAcqS m1 m2) :
    NoAcqS m m2 :=
  ⟨h2.1.trans h1.1, h2.2.1.trans h1.2.1, h2.2.2.1.trans h1.2.2.1,
    h2.2.2.2.trans h1.2.2.2⟩

/-- A computation acquires no descriptor-valued resource: any state it
returns or unwinds to satisfies `NoAcqS` against the entry state. -/
def NoAcq {α : Type} (m : Machine) (r : MRes α) : Prop :=
  (∀ a m2, r = MRes.ok a m2 → NoAcqS m m2) ∧
  (∀ m2, r = MRes.raised m2 → NoAcqS m m2)

theorem NoAcq.stuckCaseN {α : Type} {m : Machine} :
    NoAcq m (MRes.stuck : MRes α) :=
  ⟨fun _ _ h => MRes.noConfusion h, fun _ h => MRes.noConfusion h⟩

theorem NoAcq.abortCase {α : Type} {m : Machine} {k : Bool} :
    NoAcq m (MRes.abort k : MRes α) :=
  ⟨fun _ _ h => MRes.noConfusion h, fun _ h => MRes.noConfusion h⟩

theorem NoAcq.okToN {α : Type} {m m2 : Machine} {a : α} (h : NoAcqS m m2) :
    NoAcq m (MRes.ok a m2) := by
  refine ⟨?_, fun _ hr => MRes.noConfusion hr⟩
  intro a2 mm hok
  injection hok with _ h2
  subst h2
  exact h

theorem NoAcq.raisedTo {α : Type} {m m2 : Machine} (h : NoAcqS m m2) :
    NoAcq m (MRes.raised m2 : MRes α) := by
  refine ⟨fun _ _ hr => MRes.noConfusion hr, ?_⟩
  intro mm hr
  injection hr with h2
  subst h2
  exact h

theorem NoAcq.preN {α : Type} {m m1 : Machine} {r : MRes α}
    (h0 : NoAcqS m m1) (h : NoAcq m1 r) : NoAcq m r :=
  ⟨fun a m2 hok => NoAcqS.chain h0 (h.1 a m2 hok),
   fun m2 hr => NoAcqS.chain h0 (h.2 m2 hr)⟩

theorem NoAcq.bindN {α β : Type} {m : Machine} {r : MRes α}
    {g : α → Machine → MRes β} (h : NoAcq m r)
    (hg : ∀ a m1, r = MRes.ok a m1 → NoAcq m1 (g a m1)) :
    NoAcq m (MRes.bind r g) := by
  cases r with
  | ok a m1 =>
    have h1 := h.1 a m1 (Eq.refl _)
    have h2 := hg a m1 (Eq.refl _)
    exact NoAcq.preN h1 h2
  | raised m1 =>
    refine ⟨fun _ _ hr => ?_, fun m2 hr => ?_⟩
    · exact absurd hr (by simp [MRes.bind])
    · simp only [MRes.bind] at hr
      injection hr with h2
      subst h2
      exact h.2 m1 (Eq.refl _)
  | abort k => exact NoAcq.abortCase
  | stuck => exact NoAcq.stuckCaseN

theorem NoAcq.noretN {α β : Type} {m : Machine} {r : MRes α}
    (h : NoAcq m r) : NoAcq m (MRes.noreturn r : MRes β) := by
  cases r with
  | ok a m1 => exact NoAcq.stuckCaseN
  | raised m1 =>
    refine ⟨fun _ _ hr => MRes.noConfusion hr, fun m2 hr => ?_⟩
    injection hr with h2
    subst h2
    exact h.2 m1 (Eq.refl _)
  | abort k => exact NoAcq.abortCase
  | stuck => exact NoAcq.stuckCaseN

theorem takeMalloc_noAcqS (m : Machine) : NoAcqS m (takeMalloc m).2 := by
  unfold takeMalloc
  cases m.mallocFails with
  | nil => exact NoAcqS.self m
  | cons b bs => exact ⟨rfl, rfl, List.Subset.refl _, rfl⟩

theorem destroyNode_noAcq (n : Node) (m : Machine) : NoAcq m (destroyNode n m) := by
  refine ⟨?_, ?_⟩
  · intro a m2 h
    cases a
    obtain ⟨_, _, _, _, _, hnf, _, hse, _, hsub, _, hco, _⟩ :=
      (destroyNode_facts n m).2.2.2 m2 h
    exact ⟨hco, hnf, hsub, hse⟩
  · intro m2 h
    exact absurd h ((destroyNode_facts n m).1 m2)

theorem reslist_destroy_noAcq (sid : Nat) (m : Machine) :
    NoAcq m (reslist_destroy sid m) := by
  unfold reslist_destroy
  split
  · exact NoAcq.stuckCaseN
  · exact NoAcq.preN ⟨rfl, rfl, List.Subset.refl _, rfl⟩ (destroyNode_noAcq _ _)

theorem dievTail_noAcq (hrl : Nat) (m : Machine) : NoAcq m (dievTail hrl m) := by
  unfold dievTail
  have H := reslist_destroy_noAcq hrl m
  cases hr : reslist_destroy hrl m with
  | ok a m1 =>
    cases a
    exact NoAcq.raisedTo (H.1 () m1 hr)
  | raised m1 => exact NoAcq.raisedTo (H.2 m1 hr)
  | abort k => exact NoAcq.abortCase
  | stuck => exact NoAcq.stuckCaseN

theorem die_oom_noAcq (m : Machine) : NoAcq m (die_oom m) := by
  refine ⟨?_, ?_⟩
  · intro a m2 h
    exact absurd h (die_oom_no_ok m)
  · intro m2 h
    obtain ⟨_, hco, _, hse, hnf, hsub, _⟩ := die_oom_raised_facts m m2 h
    exact ⟨hco, hnf, hsub, hse⟩

theorem pushNode_noAcq (n : Node) (m : Machine) : NoAcq m (pushNode n m) := by
  unfold pushNode
  split
  · exact NoAcq.stuckCaseN
  · exact NoAcq.okToN ⟨rfl, rfl, List.Subset.refl _, rfl⟩

theorem cleanup_allocate_noAcq (m : Machine) : NoAcq m (cleanup_allocate m) := by
  unfold cleanup_allocate
  split
  · rename_i m1 heq
    have hk : m1 = (takeMalloc m).2 := by rw [heq]
    have t := takeMalloc_noAcqS m
    rw [hk] at *
    exact NoAcq.preN t (NoAcq.noretN (die_oom_noAcq _))
  · rename_i m1 heq
    have hk : m1 = (takeMalloc m).2 := by rw [heq]
    have t := takeMalloc_noAcqS m
    split
    · rename_i cid m2 hfr
      have hm2 : m2 = (freshId m1).2 := by rw [hfr]
      subst hm2 hk
      refine NoAcq.bindN (NoAcq.preN t (pushNode_noAcq _ _)) ?_
      intro a m3 h3
      exact NoAcq.okToN (NoAcqS.self m3)

theorem cleanup_commit_noAcq (cid : Nat) (a : CAct) (m : Machine) :
    NoAcq m (cleanup_commit cid a m) := by
  unfold cleanup_commit
  split
  · exact NoAcq.okToN ⟨rfl, rfl, List.Subset.refl _, rfl⟩
  · exact NoAcq.stuckCaseN

theorem logAlloc_noAcqS (aid sz : Nat) (m : Machine) :
    NoAcqS m (logEv (Ev.alloc aid sz) m) := by
  refine ⟨?_, rfl, List.Subset.refl _, rfl⟩
  simp [logEv, countOpenedEv_append, countOpenedEv]

theorem xalloc_noAcq (sz : Nat) (m : Machine) : NoAcq m (xalloc sz m) := by
  unfold xalloc
  refine NoAcq.bindN (cleanup_allocate_noAcq m) ?_
  intro cl m1 h1
  split
  · rename_i m2 heq
    have hk : m2 = (takeMalloc m1).2 := by rw [heq]
    have t := takeMalloc_noAcqS m1
    rw [hk] at *
    exact NoAcq.preN t (NoAcq.noretN (die_oom_noAcq _))
  · rename_i m2 heq
    have hk : m2 = (takeMalloc m1).2 := by rw [heq]
    have t := takeMalloc_noAcqS m1
    split
    · rename_i aid m3 hfr
      have hm3 : m3 = (freshId m2).2 := by rw [hfr]
      subst hm3 hk
      refine NoAcq.bindN (NoAcq.preN t
        (NoAcq.preN (logAlloc_noAcqS aid sz _) (cleanup_commit_noAcq _ _ _))) ?_
      intro b m4 h4
      exact NoAcq.okToN (NoAcqS.self m4)

theorem xalloc_string_noAcq (s : String) (m : Machine) :
    NoAcq m (xalloc_string s m) := by
  unfold xalloc_string
  refine NoAcq.bindN (xalloc_noAcq _ m) ?_
  intro a m1 h1
  exact NoAcq.okToN (NoAcqS.self m1)

theorem dievMsg_noAcq (k hrl : Nat) (s : String) (m : Machine) :
    NoAcq m (dievMsg k hrl s m) := by
  unfold dievMsg
  refine NoAcq.bindN (xalloc_string_noAcq s m) ?_
  intro msg m1 h1
  refine NoAcq.bindN (NoAcq.preN ⟨rfl, rfl, List.Subset.refl _, rfl⟩
    (xalloc_string_noAcq _ (slotSetMsg k msg m1))) ?_
  intro prg m3 h3
  exact NoAcq.preN ⟨rfl, rfl, List.Subset.refl _, rfl⟩
    (dievTail_noAcq hrl (slotSetPrg k prg m3))

theorem diev_noAcq (code : Nat) (fmt : String) (args : List FmtArg) (m : Machine) :
    NoAcq m (diev code fmt args m) := by
  unfold diev
  split
  · exact NoAcq.abortCase
  · rename_i h0 t0
    split
    · exact NoAcq.stuckCaseN
    · rename_i m1 hset
      obtain ⟨_, _, ho, hev, _, hse, _, hnf, _, _⟩ := reslistSetCurrentToParent_keep hset
      have hs : NoAcqS m m1 := by
        refine ⟨by rw [hev], hnf, ?_, hse⟩
        intro x hx
        rw [ho] at hx
        exact hx
      split
      · exact NoAcq.preN hs (dievTail_noAcq _ _)
      · rename_i k
        split
        · split
          · exact NoAcq.preN hs (NoAcq.preN ⟨rfl, rfl, List.Subset.refl _, rfl⟩
              (dievMsg_noAcq _ _ _ _))
          · exact NoAcq.preN hs (NoAcq.preN ⟨rfl, rfl, List.Subset.refl _, rfl⟩
              (dievMsg_noAcq _ _ _ _))
        · exact NoAcq.preN hs (NoAcq.preN ⟨rfl, rfl, List.Subset.refl _, rfl⟩
            (dievTail_noAcq _ _))

theorem die_noAcq (code : Nat) (fmt : String) (args : List FmtArg) (m : Machine) :
    NoAcq m (die code fmt args m) := diev_noAcq code fmt args m

theorem xavprintf_noAcq (fmt : String) (args : List FmtArg) (m : Machine) :
    NoAcq m (xavprintf fmt args m) := by
  unfold xavprintf
  split
  · exact xalloc_string_noAcq _ _
  · exact NoAcq.noretN (die_noAcq _ _ _ _)

theorem die_errno_noAcq (e : Nat) (fmt : String) (args : List FmtArg) (m : Machine) :
    NoAcq m (die_errno e fmt args m) := by
  unfold die_errno
  refine NoAcq.bindN (xavprintf_noAcq fmt args m) ?_
  intro s m1 h1
  exact diev_noAcq _ _ _ _

theorem xopen_allocFail (path : String) (m : Machine) (bs : List Bool)
    (hm : m.mallocFails = true :: bs) :
    xopen path m = MRes.noreturn (die_oom { m with mallocFails := bs }) := by
  obtain ⟨fr, hl, ei, pn, ni, nf, ofds, mf, se, ev, cl⟩ := m
  dsimp only at hm
  subst hm
  unfold xopen cleanup_allocate takeMalloc
  simp only [Bool.not_true]
  rw [bind_noreturn]

theorem xopen_sysFail (path : String) (m : Machine) (e : Nat)
    (rest : List (Option Nat)) (f : Frame) (fs : List Frame)
    (hm : m.mallocFails = []) (hs : m.sysErrs = some e :: rest)
    (hf : m.frames = f :: fs) :
    xopen path m = MRes.noreturn (die_errno e "open %s" [FmtArg.str path]
      { m with
        frames := ⟨f.sid, Node.cleanup m.nextId none :: f.contents⟩ :: fs,
        nextId := m.nextId + 1,
        sysErrs := rest }) := by
  obtain ⟨fr, hl, ei, pn, ni, nf, ofds, mf, se, ev, cl⟩ := m
  dsimp only at hm hs hf
  subst hm hs hf
  unfold xopen cleanup_allocate takeMalloc freshId pushNode takeSys
  simp [MRes.bind, bind_noreturn]

theorem xpipe_allocFail (m : Machine) (bs : List Bool)
    (hm : m.mallocFails = true :: bs) :
    xpipe m = MRes.noreturn (die_oom { m with mallocFails := bs }) := by
  obtain ⟨fr, hl, ei, pn, ni, nf, ofds, mf, se, ev, cl⟩ := m
  dsimp only at hm
  subst hm
  unfold xpipe cleanup_allocate takeMalloc
  simp only [Bool.not_true]
  rw [bind_noreturn]

theorem xpipe_sysFail (m : Machine) (e : Nat)
    (rest : List (Option Nat)) (f : Frame) (fs : List Frame)
    (hm : m.mallocFails = []) (hs : m.sysErrs = some e :: rest)
    (hf : m.frames = f :: fs) :
    xpipe m = MRes.noreturn (die_errno e "pipe2" []
      { m with
        frames := ⟨f.sid, Node.cleanup (m.nextId + 1) none ::
          Node.cleanup m.nextId none :: f.contents⟩ :: fs,
        nextId := m.nextId + 2,
        sysErrs := rest }) := by
  obtain ⟨fr, hl, ei, pn, ni, nf, ofds, mf, se, ev, cl⟩ := m
  dsimp only at hm hs hf
  subst hm hs hf
  unfold xpipe cleanup_allocate takeMalloc freshId pushNode takeSys
  simp [MRes.bind, bind_noreturn]

theorem xdup_deadFd (fd : Nat) (m : Machine) (f : Frame) (fs : List Frame)
    (hm : m.mallocFails = []) (hs : m.sysErrs = [])
    (hf : m.frames = f :: fs) (hmem : fd ∉ m.openFds) :
    xdup fd m = MRes.noreturn (die_errno EBADF "F_DUPFD_CLOEXEC" []
      { m with
        frames := ⟨f.sid, Node.cleanup m.nextId none :: f.contents⟩ :: fs,
        nextId := m.nextId + 1 }) := by
  obtain ⟨fr, hl, ei, pn, ni, nf, ofds, mf, se, ev, cl⟩ := m
  dsimp only at hm hs hf hmem
  subst hm hs hf
  unfold xdup cleanup_allocate takeMalloc freshId pushNode takeSys
  simp [MRes.bind, bind_noreturn, hmem]

theorem xalloc_allocFail (sz : Nat) (m : Machine) (bs : List Bool)
    (hm : m.mallocFails = true :: bs) :
    xalloc sz m = MRes.noreturn (die_oom { m with mallocFails := bs }) := by
  obtain ⟨fr, hl, ei, pn, ni, nf, ofds, mf, se, ev, cl⟩ := m
  dsimp only at hm
  subst hm
  unfold xalloc cleanup_allocate takeMalloc
  simp only [Bool.not_true]
  rw [bind_noreturn]

theorem xalloc_payloadFail (sz : Nat) (m : Machine) (bs : List Bool)
    (f : Frame) (fs : List Frame)
    (hm : m.mallocFails = false :: true :: bs) (hf : m.frames = f :: fs) :
    xalloc sz m = MRes.noreturn (die_oom { m with
      frames := ⟨f.sid, Node.cleanup m.nextId none :: f.contents⟩ :: fs,
      nextId := m.nextId + 1,
      mallocFails := bs }) := by
  obtain ⟨fr, hl, ei, pn, ni, nf, ofds, mf, se, ev, cl⟩ := m
  dsimp only at hm hf
  subst hm hf
  unfold xalloc cleanup_allocate takeMalloc freshId pushNode
  simp only [Bool.not_false, Bool.not_true, MRes.bind]

theorem cleanup_allocate_allocFail (m : Machine) (bs : List Bool)
    (hm : m.mallocFails = true :: bs) :
    cleanup_allocate m = MRes.noreturn (die_oom { m with mallocFails := bs }) := by
  obtain ⟨fr, hl, ei, pn, ni, nf, ofds, mf, se, ev, cl⟩ := m
  dsimp only at hm
  subst hm
  unfold cleanup_allocate takeMalloc
  simp only [Bool.not_true]

theorem cleanup_allocate_step (m : Machine) (bs : List Bool)
    (f : Frame) (fs : List Frame)
    (hm : m.mallocFails = false :: bs) (hf : m.frames = f :: fs) :
    cleanup_allocate m = MRes.ok m.nextId { m with
      frames := ⟨f.sid, Node.cleanup m.nextId none :: f.contents⟩ :: fs,
      nextId := m.nextId + 1,
      mallocFails := bs } := by
  obtain ⟨fr, hl, ei, pn, ni, nf, ofds, mf, se, ev, cl⟩ := m
  dsimp only at hm hf
  subst hm hf
  unfold cleanup_allocate takeMalloc freshId pushNode
  simp only [Bool.not_false, MRes.bind]

theorem xpipe_allocFail2 (m : Machine) (bs : List Bool)
    (f : Frame) (fs : List Frame)
    (hm : m.mallocFails = false :: true :: bs) (hf : m.frames = f :: fs) :
    xpipe m = MRes.noreturn (die_oom { m with
      frames := ⟨f.sid, Node.cleanup m.nextId none :: f.contents⟩ :: fs,
      nextId := m.nextId + 1,
      mallocFails := bs }) := by
  unfold xpipe
  rw [cleanup_allocate_step m (true :: bs) f fs hm hf]
  show MRes.bind (cleanup_allocate { m with
      frames := ⟨f.sid, Node.cleanup m.nextId none :: f.contents⟩ :: fs,
      nextId := m.nextId + 1,
      mallocFails := true :: bs }) _ = _
  rw [cleanup_allocate_allocFail _ bs rfl]
  rw [bind_noreturn]

theorem xdup_allocFail (fd : Nat) (m : Machine) (bs : List Bool)
    (hm : m.mallocFails = true :: bs) :
    xdup fd m = MRes.noreturn (die_oom { m with mallocFails := bs }) := by
  obtain ⟨fr, hl, ei, pn, ni, nf, ofds, mf, se, ev, cl⟩ := m
  dsimp only at hm
  subst hm
  unfold xdup cleanup_allocate takeMalloc
  simp only [Bool.not_true]
  rw [bind_noreturn]

theorem noreturn_raised {α β : Type} {r : MRes α} {m2 : Machine}
    (h : (MRes.noreturn r : MRes β) = MRes.raised m2) : r = MRes.raised m2 := by
  cases r with
  | ok a m1 => exact absurd h (by simp [MRes.noreturn])
  | raised m1 =>
    injection h with h2
    rw [h2]
  | abort k => exact absurd h (by simp [MRes.noreturn])
  | stuck => exact absurd h (by simp [MRes.noreturn])

/-- C4: every acquisition primitive — `xalloc`, `xopen`, `xpipe`, `xdup` —
registers its cleanup record before the side-effecting operation, and
register-then-commit is failure-atomic.  An unarmed record is destroyed
without running any action or logging any event.  If a record's own
bookkeeping `malloc` fails (for any of the four primitives, including the
second record of `xpipe`) the raise happens with the syscall oracle
untouched and no allocation or open event logged — the operation never ran.
If `xalloc`'s payload `malloc` fails, the already-registered record is
visible, still unarmed, in the machine being unwound, and no allocation
event was logged.  If the syscall fails the raise leaves the descriptor
counter unmoved, adds no open event and holds no new descriptor.  On every
failure path nothing leaks and no cleanup runs for a resource that was
never acquired. -/
theorem acquisition_failure_atomic :
    (∀ (cid : Nat) (m : Machine),
      destroyNode (Node.cleanup cid none) m = MRes.ok () m) ∧
    (∀ (sz : Nat) (m : Machine) (bs : List Bool),
      m.mallocFails = true :: bs →
      xalloc sz m = MRes.noreturn (die_oom { m with mallocFails := bs }) ∧
      match xalloc sz m with
      | MRes.raised m2 =>
          countAllocEv m2.events = countAllocEv m.events ∧
          countOpenedEv m2.events = countOpenedEv m.events ∧
          m2.nextFd = m.nextFd ∧ m2.openFds ⊆ m.openFds ∧ m2.sysErrs = m.sysErrs
      | MRes.ok _ _ => False
      | _ => True) ∧
    (∀ (sz : Nat) (m : Machine) (bs : List Bool) (f : Frame) (fs : List Frame),
      m.mallocFails = false :: true :: bs → m.frames = f :: fs →
      xalloc sz m = MRes.noreturn (die_oom { m with
        frames := ⟨f.sid, Node.cleanup m.nextId none :: f.contents⟩ :: fs,
        nextId := m.nextId + 1,
        mallocFails := bs }) ∧
      match xalloc sz m with
      | MRes.raised m2 =>
          countAllocEv m2.events = countAllocEv m.events ∧
          countOpenedEv m2.events = countOpenedEv m.events ∧
          m2.nextFd = m.nextFd ∧ m2.openFds ⊆ m.openFds ∧ m2.sysErrs = m.sysErrs
      | MRes.ok _ _ => False
      | _ => True) ∧
    (∀ (path : String) (m : Machine) (bs : List Bool),
      m.mallocFails = true :: bs →
      xopen path m = MRes.noreturn (die_oom { m with mallocFails := bs }) ∧
      match xopen path m with
      | MRes.raised m2 =>
          countAllocEv m2.events = countAllocEv m.events ∧
          countOpenedEv m2.events = countOpenedEv m.events ∧
          m2.nextFd = m.nextFd ∧ m2.openFds ⊆ m.openFds ∧ m2.sysErrs = m.sysErrs
      | MRes.ok _ _ => False
      | _ => True) ∧
    (∀ (path : String) (m : Machine) (e : Nat) (rest : List (Option Nat))
        (f : Frame) (fs : List Frame),
      m.mallocFails = [] → m.sysErrs = some e :: rest → m.frames = f :: fs →
      match xopen path m with
      | MRes.raised m2 =>
          countOpenedEv m2.events = countOpenedEv m.events ∧
          m2.nextFd = m.nextFd ∧ m2.openFds ⊆ m.openFds ∧ m2.sysErrs = rest
      | MRes.ok _ _ => False
      | _ => True) ∧
    (∀ (m : Machine) (bs : List Bool),
      m.mallocFails = true :: bs →
      xpipe m = MRes.noreturn (die_oom { m with mallocFails := bs }) ∧
      match xpipe m with
      | MRes.raised m2 =>
          countAllocEv m2.events = countAllocEv m.events ∧
          countOpenedEv m2.events = countOpenedEv m.events ∧
          m2.nextFd = m.nextFd ∧ m2.openFds ⊆ m.openFds ∧ m2.sysErrs = m.sysErrs
      | MRes.ok _ _ => False
      | _ => True) ∧
    (∀ (m : Machine) (bs : List Bool) (f : Frame) (fs : List Frame),
      m.mallocFails = false :: true :: bs → m.frames = f :: fs →
      xpipe m = MRes.noreturn (die_oom { m with
        frames := ⟨f.sid, Node.cleanup m.nextId none :: f.contents⟩ :: fs,
        nextId := m.nextId + 1,
        mallocFails := bs }) ∧
      match xpipe m with
      | MRes.raised m2 =>
          countAllocEv m2.events = countAllocEv m.events ∧
          countOpenedEv m2.events = countOpenedEv m.events ∧
          m2.nextFd = m.nextFd ∧ m2.openFds ⊆ m.openFds ∧ m2.sysErrs = m.sysErrs
      | MRes.ok _ _ => False
      | _ => True) ∧
    (∀ (m : Machine) (e : Nat) (rest : List (Option Nat))
        (f : Frame) (fs : List Frame),
      m.mallocFails = [] → m.sysErrs = some e :: rest → m.frames = f :: fs →
      match xpipe m with
      | MRes.raised m2 =>
          countOpenedEv m2.events = countOpenedEv m.events ∧
          m2.nextFd = m.nextFd ∧ m2.openFds ⊆ m.openFds ∧ m2.sysErrs = rest
      | MRes.ok _ _ => False
      | _ => True) ∧
    (∀ (fd : Nat) (m : Machine) (bs : List Bool),
      m.mallocFails = true :: bs →
      xdup fd m = MRes.noreturn (die_oom { m with mallocFails := bs }) ∧
      match xdup fd m with
      | MRes.raised m2 =>
          countAllocEv m2.events = countAllocEv m.events ∧
          countOpenedEv m2.events = countOpenedEv m.events ∧
          m2.nextFd = m.nextFd ∧ m2.openFds ⊆ m.openFds ∧ m2.sysErrs = m.sysErrs
      | MRes.ok _ _ => False
      | _ => True) ∧
    (∀ (fd : Nat) (m : Machine) (f : Frame) (fs : List Frame),
      m.mallocFails = [] → m.sysErrs = [] → m.frames = f :: fs →
      fd ∉ m.openFds →
      match xdup fd m with
      | MRes.raised m2 =>
          countOpenedEv m2.events = countOpenedEv m.events ∧
          m2.nextFd = m.nextFd ∧ m2.openFds ⊆ m.openFds ∧ m2.sysErrs = []
      | MRes.ok _ _ => False
      | _ => True) := by
  refine ⟨?_, ?_, ?_, ?_, ?_, ?_, ?_, ?_, ?_, ?_⟩
  · intro cid m
    rfl
  · intro sz m bs hm
    have heq := xalloc_allocFail sz m bs hm
    refine ⟨heq, ?_⟩
    cases hres : xalloc sz m with
    | raised m2 =>
      rw [heq] at hres
      have hr2 := noreturn_raised hres
      obtain ⟨hca, hco, _, hse, hnf, hsub, _⟩ :=
        die_oom_raised_facts { m with mallocFails := bs } m2 hr2
      exact ⟨hca, hco, hnf, hsub, hse⟩
    | ok a m2 =>
      rw [heq] at hres
      exact absurd hres MRes.noreturn_ne_ok
    | abort k => exact trivial
    | stuck => exact trivial
  · intro sz m bs f fs hm hf
    have heq := xalloc_payloadFail sz m bs f fs hm hf
    refine ⟨heq, ?_⟩
    cases hres : xalloc sz m with
    | raised m2 =>
      rw [heq] at hres
      have hr2 := noreturn_raised hres
      obtain ⟨hca, hco, _, hse, hnf, hsub, _⟩ :=
        die_oom_raised_facts { m with
          frames := ⟨f.sid, Node.cleanup m.nextId none :: f.contents⟩ :: fs,
          nextId := m.nextId + 1,
          mallocFails := bs } m2 hr2
      exact ⟨hca, hco, hnf, hsub, hse⟩
    | ok a m2 =>
      rw [heq] at hres
      exact absurd hres MRes.noreturn_ne_ok
    | abort k => exact trivial
    | stuck => exact trivial
  · intro path m bs hm
    have heq := xopen_allocFail path m bs hm
    refine ⟨heq, ?_⟩
    cases hres : xopen path m with
    | raised m2 =>
      rw [heq] at hres
      have hr2 := noreturn_raised hres
      obtain ⟨hca, hco, _, hse, hnf, hsub, _⟩ :=
        die_oom_raised_facts { m with mallocFails := bs } m2 hr2
      exact ⟨hca, hco, hnf, hsub, hse⟩
    | ok a m2 =>
      rw [heq] at hres
      exact absurd hres MRes.noreturn_ne_ok
    | abort k => exact trivial
    | stuck => exact trivial
  · intro path m e rest f fs hm hs hf
    cases hres : xopen path m with
    | raised m2 =>
      rw [xopen_sysFail path m e rest f fs hm hs hf] at hres
      have hr2 := noreturn_raised hres
      obtain ⟨hco, hnf, hsub, hse⟩ :=
        (die_errno_noAcq e "open %s" [FmtArg.str path] _).2 m2 hr2
      exact ⟨hco, hnf, hsub, hse⟩
    | ok a m2 =>
      rw [xopen_sysFail path m e rest f fs hm hs hf] at hres
      exact absurd hres MRes.noreturn_ne_ok
    | abort k => exact trivial
    | stuck => exact trivial
  · intro m bs hm
    have heq := xpipe_allocFail m bs hm
    refine ⟨heq, ?_⟩
    cases hres : xpipe m with
    | raised m2 =>
      rw [heq] at hres
      have hr2 := noreturn_raised hres
      obtain ⟨hca, hco, _, hse, hnf, hsub, _⟩ :=
        die_oom_raised_facts { m with mallocFails := bs } m2 hr2
      exact ⟨hca, hco, hnf, hsub, hse⟩
    | ok a m2 =>
      rw [heq] at hres
      exact absurd hres MRes.noreturn_ne_ok
    | abort k => exact trivial
    | stuck => exact trivial
  · intro m bs f fs hm hf
    have heq := xpipe_allocFail2 m bs f fs hm hf
    refine ⟨heq, ?_⟩
    cases hres : xpipe m with
    | raised m2 =>
      rw [heq] at hres
      have hr2 := noreturn_raised hres
      obtain ⟨hca, hco, _, hse, hnf, hsub, _⟩ :=
        die_oom_raised_facts { m with
          frames := ⟨f.sid, Node.cleanup m.nextId none :: f.contents⟩ :: fs,
          nextId := m.nextId + 1,
          mallocFails := bs } m2 hr2
      exact ⟨hca, hco, hnf, hsub, hse⟩
    | ok a m2 =>
      rw [heq] at hres
      exact absurd hres MRes.noreturn_ne_ok
    | abort k => exact trivial
    | stuck => exact trivial
  · intro m e rest f fs hm hs hf
    cases hres : xpipe m with
    | raised m2 =>
      rw [xpipe_sysFail m e rest f fs hm hs hf] at hres
      have hr2 := noreturn_raised hres
      obtain ⟨hco, hnf, hsub, hse⟩ :=
        (die_errno_noAcq e "pipe2" [] _).2 m2 hr2
      exact ⟨hco, hnf, hsub, hse⟩
    | ok a m2 =>
      rw [xpipe_sysFail m e rest f fs hm hs hf] at hres
      exact absurd hres MRes.noreturn_ne_ok
    | abort k => exact trivial
    | stuck => exact trivial
  · intro fd m bs hm
    have heq := xdup_allocFail fd m bs hm
    refine ⟨heq, ?_⟩
    cases hres : xdup fd m with
    | raised m2 =>
      rw [heq] at hres
      have hr2 := noreturn_raised hres
      obtain ⟨hca, hco, _, hse, hnf, hsub, _⟩ :=
        die_oom_raised_facts { m with mallocFails := bs } m2 hr2
      exact ⟨hca, hco, hnf, hsub, hse⟩
    | ok a m2 =>
      rw [heq] at hres
      exact absurd hres MRes.noreturn_ne_ok
    | abort k => exact trivial
    | stuck => exact trivial
  · intro fd m f fs hm hs hf hmem
    cases hres : xdup fd m with
    | raised m2 =>
      rw [xdup_deadFd fd m f fs hm hs hf hmem] at hres
      have hr2 := noreturn_raised hres
      obtain ⟨hco, hnf, hsub, hse⟩ :=
        (die_errno_noAcq EBADF "F_DUPFD_CLOEXEC" [] _).2 m2 hr2
      exact ⟨hco, hnf, hsub, hse.trans hs⟩
    | ok a m2 =>
      rw [xdup_deadFd fd m f fs hm hs hf hmem] at hres
      exact absurd hres MRes.noreturn_ne_ok
    | abort k => exact trivial
    | stuck => exact trivial

theorem fdh_dup_success (fd : Nat) (m : Machine) (f : Frame) (fs : List Frame)
    (hm : m.mallocFails = []) (hs : m.sysErrs = []) (hf : m.frames = f :: fs)
    (hmem : fd ∈ m.openFds) :
    fdh_dup fd m = MRes.ok (Fdh.mk m.nextId m.nextFd) { m with
      frames := ⟨f.sid, Node.scope m.nextId
        [Node.cleanup (m.nextId + 3) (some (CAct.closeFd m.nextFd)),
         Node.cleanup (m.nextId + 1) (some (CAct.freeMem (m.nextId + 2)))] ::
        f.contents⟩ :: fs,
      nextId := m.nextId + 4,
      nextFd := m.nextFd + 1,
      openFds := m.nextFd :: m.openFds,
      events := m.events ++ [Ev.alloc (m.nextId + 2) fdhSize,
        Ev.openedFd m.nextFd] } := by
  obtain ⟨fr, hl, ei, pn, ni, nf, ofds, mf, se, ev, cl⟩ := m
  dsimp only at hm hs hf hmem
  subst hm hs hf
  unfold fdh_dup
  simp [MRes.bind, logEv, reslist_push_new, takeMalloc, freshId, xalloc,
    cleanup_allocate, pushNode, cleanup_commit, armInFrames, armInNodes, xdup,
    takeSys, cleanup_commit_close_fd, reslist_pop_nodestroy, hmem]

theorem fdh_destroy_success (rl nf2 : Nat) (m : Machine) (sid0 : Nat)
    (oldc : List Node) (rest : List Frame) (aid cid1 cid2 : Nat)
    (hf : m.frames = ⟨sid0, Node.scope rl
      [Node.cleanup cid2 (some (CAct.closeFd nf2)),
       Node.cleanup cid1 (some (CAct.freeMem aid))] :: oldc⟩ :: rest)
    (hmem : nf2 ∈ m.openFds) :
    fdh_destroy (Fdh.mk rl nf2) m = MRes.ok () { m with
      frames := ⟨sid0, oldc⟩ :: rest,
      openFds := m.openFds.erase nf2,
      events := m.events ++ [Ev.closedFd nf2, Ev.freeE aid] } := by
  obtain ⟨fr, hl, ei, pn, ni, nf, ofds, mf, se, ev, cl⟩ := m
  dsimp only at hf hmem
  subst hf
  unfold fdh_destroy reslist_destroy
  simp [extractFromFrames, extractScope, destroyNode, destroyContents,
    applyAct, fd_cleanup, logEv, MRes.bind, hmem]

/-- C9: `fdh_dup` pushes a fresh scope, allocates the handle and duplicates
the descriptor inside it, then pops the scope without destroying it, leaving
it as an individually destroyable head child of the creator's frame with
every pre-existing sibling entry untouched; `fdh_destroy` destroys exactly
that scope — closing the handle's descriptor and freeing the handle's
allocation — restoring the parent frame's other contents, and a
create-then-destroy round trip returns the frame tree and the set of open
descriptors to exactly their prior state. -/
theorem fdh_scope_isolation :
    (∀ (fd : Nat) (m : Machine) (f : Frame) (fs : List Frame),
      m.mallocFails = [] → m.sysErrs = [] → m.frames = f :: fs →
      fd ∈ m.openFds →
      fdh_dup fd m = MRes.ok (Fdh.mk m.nextId m.nextFd) { m with
        frames := ⟨f.sid, Node.scope m.nextId
          [Node.cleanup (m.nextId + 3) (some (CAct.closeFd m.nextFd)),
           Node.cleanup (m.nextId + 1) (some (CAct.freeMem (m.nextId + 2)))] ::
          f.contents⟩ :: fs,
        nextId := m.nextId + 4,
        nextFd := m.nextFd + 1,
        openFds := m.nextFd :: m.openFds,
        events := m.events ++ [Ev.alloc (m.nextId + 2) fdhSize,
          Ev.openedFd m.nextFd] }) ∧
    (∀ (rl nf2 : Nat) (m : Machine) (sid0 : Nat) (oldc : List Node)
        (rest : List Frame) (aid cid1 cid2 : Nat),
      m.frames = ⟨sid0, Node.scope rl
        [Node.cleanup cid2 (some (CAct.closeFd nf2)),
         Node.cleanup cid1 (some (CAct.freeMem aid))] :: oldc⟩ :: rest →
      nf2 ∈ m.openFds →
      fdh_destroy (Fdh.mk rl nf2) m = MRes.ok () { m with
        frames := ⟨sid0, oldc⟩ :: rest,
        openFds := m.openFds.erase nf2,
        events := m.events ++ [Ev.closedFd nf2, Ev.freeE aid] }) ∧
    (∀ (fd : Nat) (m : Machine) (f : Frame) (fs : List Frame),
      m.mallocFails = [] → m.sysErrs = [] → m.frames = f :: fs →
      fd ∈ m.openFds →
      match fdh_dup fd m with
      | MRes.ok h m4 =>
          h = Fdh.mk m.nextId m.nextFd ∧
          fdh_destroy h m4 = MRes.ok () { m with
            nextId := m.nextId + 4,
            nextFd := m.nextFd + 1,
            events := m.events ++ [Ev.alloc (m.nextId + 2) fdhSize,
              Ev.openedFd m.nextFd, Ev.closedFd m.nextFd,
              Ev.freeE (m.nextId + 2)] }
      | _ => False) := by
  refine ⟨?_, ?_, ?_⟩
  · intro fd m f fs hm hs hf hmem
    exact fdh_dup_success fd m f fs hm hs hf hmem
  · intro rl nf2 m sid0 oldc rest aid cid1 cid2 hf hmem
    exact fdh_destroy_success rl nf2 m sid0 oldc rest aid cid1 cid2 hf hmem
  · intro fd m f fs hm hs hf hmem
    rw [fdh_dup_success fd m f fs hm hs hf hmem]
    refine ⟨rfl, ?_⟩
    rw [fdh_destroy_success m.nextId m.nextFd _ f.sid f.contents fs
      (m.nextId + 2) (m.nextId + 1) (m.nextId + 3) rfl
      (List.mem_cons_self m.nextFd m.openFds)]
    simp [List.erase_cons_head, List.append_assoc]
    rw [hf]

theorem reslist_push_new_success (m : Machine) (f : Frame) (fs : List Frame)
    (hm : m.mallocFails = []) (hf : m.frames = f :: fs) :
    reslist_push_new m = MRes.ok m.nextId { m with
      frames := ⟨m.nextId, []⟩ :: m.frames,
      nextId := m.nextId + 1 } := by
  obtain ⟨fr, hl, ei, pn, ni, nf, ofds, mf, se, ev, cl⟩ := m
  dsimp only at hm hf
  subst hm hf
  unfold reslist_push_new takeMalloc freshId
  rfl

/-- C10: when the body passed to `catch_error` returns normally, the freshly
pushed handler scope is neither destroyed nor popped: the machine
`catch_error` returns keeps the body's final frame zipper verbatim — so with
a frame-balanced body the handler's scope is still the current scope, with
the caller's old current scope as its parent — while the previous handler
chain is restored and `false` (no unwind) is recorded. -/
theorem catch_error_success_keeps_scope :
    (∀ (m : Machine) (f : Frame) (fs : List Frame),
      m.mallocFails = [] → m.frames = f :: fs →
      reslist_push_new m = MRes.ok m.nextId { m with
        frames := ⟨m.nextId, []⟩ :: m.frames,
        nextId := m.nextId + 1 }) ∧
    (∀ (u w : Bool) (body : Prog) (m m1 mb : Machine) (rl : Nat) (a : Unit),
      reslist_push_new m = MRes.ok rl m1 →
      exec body (catchInstall u w rl m1) = MRes.ok a mb →
      catch_error u w body m = MRes.ok () { mb with
        handlers := m.handlers,
        caughtLog := false :: mb.caughtLog }) ∧
    (∀ (u w : Bool) (body : Prog) (m : Machine) (f : Frame) (fs : List Frame)
        (a : Unit) (mb : Machine),
      m.mallocFails = [] → m.frames = f :: fs →
      exec body (catchInstall u w m.nextId { m with
        frames := ⟨m.nextId, []⟩ :: m.frames,
        nextId := m.nextId + 1 }) = MRes.ok a mb →
      mb.frames = ⟨m.nextId, []⟩ :: m.frames →
      match catch_error u w body m with
      | MRes.ok _ mr =>
          mr.frames = ⟨m.nextId, []⟩ :: m.frames ∧
          mr.handlers = m.handlers ∧
          mr.caughtLog = false :: mb.caughtLog
      | _ => False) := by
  refine ⟨?_, ?_, ?_⟩
  · intro m f fs hm hf
    exact reslist_push_new_success m f fs hm hf
  · intro u w body m m1 mb rl a hp hb
    unfold catch_error
    rw [exec_catchE_eq]
    simp only [hp, hb]
  · intro u w body m f fs a mb hm hf hb hbal
    have hp := reslist_push_new_success m f fs hm hf
    unfold catch_error
    rw [exec_catchE_eq]
    simp only [hp, hb]
    simpa using hbal

theorem MRes.bind_assoc {α β γ : Type} (r : MRes α) (f : α → Machine → MRes β)
    (g : β → Machine → MRes γ) :
    MRes.bind (MRes.bind r f) g =
      MRes.bind r (fun a m => MRes.bind (f a m) g) := by
  cases r <;> rfl

theorem MRes.bind_ok_unit (r : MRes Unit) :
    MRes.bind r (fun _ m => MRes.ok () m) = r := by
  cases r with
  | ok a m =>
    cases a
    rfl
  | raised m => rfl
  | abort k => rfl
  | stuck => rfl

theorem destroyContents_cons (n : Node) (rest : List Node) (m : Machine) :
    destroyContents (n :: rest) m =
      MRes.bind (destroyNode n m) (fun _ m1 => destroyContents rest m1) := by
  show (match destroyNode n m with
    | MRes.ok _ m1 => destroyContents rest m1
    | r => r) = _
  cases destroyNode n m <;> rfl

theorem destroyContents_append : ∀ (xs ys : List Node) (m : Machine),
    destroyContents (xs ++ ys) m =
      MRes.bind (destroyContents xs m) (fun _ m1 => destroyContents ys m1)
  | [], ys, m => rfl
  | x :: xs, ys, m => by
    rw [List.cons_append, destroyContents_cons, destroyContents_cons, MRes.bind_assoc]
    congr 1
    funext a m1
    exact destroyContents_append xs ys m1

theorem joinC_cons (g : Frame) (gs : List Frame) :
    joinC (g :: gs) = g.contents ++ joinC gs := by
  simp [joinC]

theorem destroyNode_foldl : ∀ (fs : List Frame) (n : Node) (m : Machine),
    destroyNode (fs.foldl (fun child g => Node.scope g.sid (child :: g.contents)) n) m =
      MRes.bind (destroyNode n m) (fun _ m1 => destroyContents (joinC fs) m1)
  | [], n, m => (MRes.bind_ok_unit (destroyNode n m)).symm
  | g :: gs, n, m => by
    rw [List.foldl_cons]
    rw [destroyNode_foldl gs (Node.scope g.sid (n :: g.contents)) m]
    show MRes.bind (destroyContents (n :: g.contents) m) _ = _
    rw [destroyContents_cons, MRes.bind_assoc]
    congr 1
    funext a m1
    rw [← destroyContents_append]
    rw [joinC_cons]

theorem destroyContents_regs : ∀ (regs : List (Nat × Option Nat)) (m : Machine),
    destroyContents (regs.map cleanupOfReg) m =
      MRes.ok () { m with
        events := m.events ++ (regs.filterMap Prod.snd).map Ev.customE }
  | [], m => by simp [destroyContents]
  | (cid, none) :: rest, m => by
    rw [List.map_cons, destroyContents_cons]
    show destroyContents (rest.map cleanupOfReg) m = _
    rw [destroyContents_regs rest m]
    simp [List.filterMap_cons]
  | (cid, some tok) :: rest, m => by
    rw [List.map_cons, destroyContents_cons]
    show destroyContents (rest.map cleanupOfReg) (logEv (Ev.customE tok) m) = _
    rw [destroyContents_regs rest (logEv (Ev.customE tok) m)]
    simp [List.filterMap_cons, logEv, List.append_assoc]

theorem cleanup_allocate_success (m : Machine) (f : Frame) (fs : List Frame)
    (hm : m.mallocFails = []) (hf : m.frames = f :: fs) :
    cleanup_allocate m = MRes.ok m.nextId { m with
      frames := ⟨f.sid, Node.cleanup m.nextId none :: f.contents⟩ :: fs,
      nextId := m.nextId + 1 } := by
  obtain ⟨fr, hl, ei, pn, ni, nf, ofds, mf, se, ev, cl⟩ := m
  dsimp only at hm hf
  subst hm hf
  unfold cleanup_allocate takeMalloc freshId pushNode
  rfl

theorem armInNodes_map (cid tok : Nat) : ∀ (l : List (Nat × Option Nat)),
    armInNodes cid (CAct.custom tok) (l.map cleanupOfReg) =
      (armRegs cid tok l).map (fun l2 => l2.map cleanupOfReg)
  | [] => by simp [armInNodes, armRegs]
  | (id0, arm0) :: rest => by
    have ih := armInNodes_map cid tok rest
    by_cases h : id0 = cid
    · simp [cleanupOfReg, armInNodes, armRegs, h]
    · simp only [cleanupOfReg, List.map_cons, armInNodes, armRegs]
      rw [if_neg h, if_neg h, ih, Option.map_map, Option.map_map]
      congr 1

theorem armRegs_append (cid tok : Nat) : ∀ (xs ys : List (Nat × Option Nat)),
    armRegs cid tok (xs ++ ys) =
      match armRegs cid tok xs with
      | some xs2 => some (xs2 ++ ys)
      | none => (armRegs cid tok ys).map (fun l => xs ++ l)
  | [], ys => by simp [armRegs]
  | p :: xs, ys => by
    have ih := armRegs_append cid tok xs ys
    by_cases h : p.1 = cid
    · simp [armRegs, h]
    · cases hx : armRegs cid tok xs with
      | some xs2 => simp [armRegs, h, ih, hx]
      | none =>
        cases hy : armRegs cid tok ys with
        | some ys2 => simp [armRegs, h, ih, hx, hy]
        | none => simp [armRegs, h, ih, hx, hy]

theorem armInFrames_rep (cid tok : Nat) :
    ∀ (frames : List Frame) (parts : List (List (Nat × Option Nat))),
    frames.map Frame.contents = parts.map (fun l => l.map cleanupOfReg) →
    match armRegs cid tok parts.flatten with
    | some regs2 =>
        ∃ (frames3 : List Frame) (parts3 : List (List (Nat × Option Nat))),
          armInFrames cid (CAct.custom tok) frames = some frames3 ∧
          frames3.map Frame.contents = parts3.map (fun l => l.map cleanupOfReg) ∧
          parts3.flatten = regs2 ∧
          frames3.length = frames.length
    | none => armInFrames cid (CAct.custom tok) frames = none
  | [], parts => by
    intro hrep
    have hp : parts = [] := by
      cases parts with
      | nil => rfl
      | cons p ps => simp at hrep
    subst hp
    simp [armRegs, armInFrames]
  | fr :: frames2, parts => by
    intro hrep
    cases parts with
    | nil => simp at hrep
    | cons p0 parts2 =>
      simp only [List.map_cons, List.cons.injEq] at hrep
      obtain ⟨hhead, htail⟩ := hrep
      have ih := armInFrames_rep cid tok frames2 parts2 htail
      rw [List.flatten_cons, armRegs_append]
      cases hx : armRegs cid tok p0 with
      | some p02 =>
        refine ⟨⟨fr.sid, p02.map cleanupOfReg⟩ :: frames2, p02 :: parts2,
          ?_, ?_, ?_, ?_⟩
        · unfold armInFrames
          rw [hhead, armInNodes_map, hx]
          rfl
        · simp [htail]
        · simp
        · simp
      | none =>
        cases hy : armRegs cid tok parts2.flatten with
        | some regs2 =>
          simp only [hy] at ih
          obtain ⟨f2, p2, hif, hrep2, hflat2, hlen⟩ := ih
          refine ⟨fr :: f2, p0 :: p2, ?_, ?_, ?_, ?_⟩
          · unfold armInFrames
            rw [hhead, armInNodes_map, hx, hif]
            rfl
          · simp [hrep2, hhead]
          · simp [hflat2]
          · simp [hlen]
        | none =>
          simp only [hy] at ih
          unfold armInFrames
          rw [hhead, armInNodes_map, hx, ih]
          rfl

theorem runR_spec : ∀ (ops : List ROp) (m : Machine) (n : Nat)
    (regs : List (Nat × Option Nat)) (parts : List (List (Nat × Option Nat))),
    m.mallocFails = [] → m.nextId = n →
    m.frames.map Frame.contents = parts.map (fun l => l.map cleanupOfReg) →
    m.frames ≠ [] →
    parts.flatten = regs →
    match specRegs ops n regs with
    | some (n2, regs2) =>
        match runR ops m with
        | MRes.ok _ m1 =>
            m1.mallocFails = [] ∧ m1.nextId = n2 ∧ m1.frames ≠ [] ∧
            ∃ parts2 : List (List (Nat × Option Nat)),
              m1.frames.map Frame.contents =
                parts2.map (fun l => l.map cleanupOfReg) ∧
              parts2.flatten = regs2
        | _ => False
    | none => runR ops m = MRes.stuck
  | [], m, n, regs, parts => by
    intro hm hn hrep hne hflat
    exact ⟨hm, hn, hne, parts, hrep, hflat⟩
  | ROp.push :: rest, m, n, regs, parts => by
    intro hm hn hrep hne hflat
    cases hf : m.frames with
    | nil => exact absurd hf hne
    | cons f fs =>
      have hp := reslist_push_new_success m f fs hm hf
      have hrun : runR (ROp.push :: rest) m = runR rest { m with
          frames := ⟨m.nextId, []⟩ :: m.frames,
          nextId := m.nextId + 1 } := by
        show MRes.bind (MRes.bind (reslist_push_new m) (fun _ m1 => MRes.ok () m1))
          (fun _ m1 => runR rest m1) = _
        rw [hp]
        rfl
      rw [hrun]
      exact runR_spec rest { m with
          frames := ⟨m.nextId, []⟩ :: m.frames,
          nextId := m.nextId + 1 } (n + 1) regs ([] :: parts)
        hm (by show m.nextId + 1 = n + 1; rw [hn])
        (by show [] :: m.frames.map Frame.contents = _; rw [hrep]; rfl)
        (by simp)
        (by simpa using hflat)
  | ROp.register :: rest, m, n, regs, parts => by
    intro hm hn hrep hne hflat
    cases hf : m.frames with
    | nil => exact absurd hf hne
    | cons f fs =>
      cases parts with
      | nil =>
        rw [hf] at hrep
        simp at hrep
      | cons p0 ps =>
        rw [hf] at hrep
        simp only [List.map_cons, List.cons.injEq] at hrep
        obtain ⟨hhead, htail⟩ := hrep
        have hp := cleanup_allocate_success m f fs hm hf
        have hrun : runR (ROp.register :: rest) m = runR rest { m with
            frames := ⟨f.sid, Node.cleanup m.nextId none :: f.contents⟩ :: fs,
            nextId := m.nextId + 1 } := by
          show MRes.bind (MRes.bind (cleanup_allocate m) (fun _ m1 => MRes.ok () m1))
            (fun _ m1 => runR rest m1) = _
          rw [hp]
          rfl
        rw [hrun]
        exact runR_spec rest { m with
            frames := ⟨f.sid, Node.cleanup m.nextId none :: f.contents⟩ :: fs,
            nextId := m.nextId + 1 } (n + 1) ((n, none) :: regs)
          (((n, none) :: p0) :: ps)
          hm (by show m.nextId + 1 = n + 1; rw [hn])
          (by
            show (Node.cleanup m.nextId none :: f.contents) :: fs.map Frame.contents = _
            rw [htail, hhead, hn]
            rfl)
          (by simp)
          (by
            show ((n, none) :: p0) ++ ps.flatten = (n, none) :: regs
            rw [List.cons_append]
            rw [show p0 ++ ps.flatten = regs from hflat])
  | ROp.commit cid tok :: rest, m, n, regs, parts => by
    intro hm hn hrep hne hflat
    have harm := armInFrames_rep cid tok m.frames parts hrep
    rw [hflat] at harm
    cases hx : armRegs cid tok regs with
    | some regs2 =>
      simp only [hx] at harm
      obtain ⟨frames3, parts3, hif, hrep3, hflat3, hlen⟩ := harm
      have hrun : runR (ROp.commit cid tok :: rest) m =
          runR rest { m with frames := frames3 } := by
        show MRes.bind (cleanup_commit cid (CAct.custom tok) m)
          (fun _ m1 => runR rest m1) = _
        unfold cleanup_commit
        rw [hif]
        rfl
      simp only [specRegs, hx]
      rw [hrun]
      have hne3 : frames3 ≠ [] := by
        intro hc
        rw [hc] at hlen
        cases hmf : m.frames with
        | nil => exact hne hmf
        | cons a b =>
          rw [hmf] at hlen
          simp at hlen
      exact runR_spec rest { m with frames := frames3 } n regs2 parts3
        hm hn hrep3 hne3 hflat3
    | none =>
      simp only [hx] at harm
      simp only [specRegs, hx]
      show MRes.bind (cleanup_commit cid (CAct.custom tok) m)
        (fun _ m1 => runR rest m1) = _
      unfold cleanup_commit
      rw [harm]
      rfl

theorem destroyAllFrames_regs (m1 : Machine) (regs : List (Nat × Option Nat))
    (parts : List (List (Nat × Option Nat)))
    (hrep : m1.frames.map Frame.contents = parts.map (fun l => l.map cleanupOfReg))
    (hne : m1.frames ≠ [])
    (hflat : parts.flatten = regs) :
    destroyAllFrames m1 = MRes.ok () { m1 with
      frames := [],
      events := m1.events ++ (regs.filterMap Prod.snd).map Ev.customE } := by
  have hjoin : joinC m1.frames = regs.map cleanupOfReg := by
    unfold joinC
    rw [hrep, ← hflat, List.map_flatten]
  cases hf : m1.frames with
  | nil => exact absurd hf hne
  | cons f0 fsR =>
    unfold destroyAllFrames
    simp only [hf, framesToNode]
    rw [destroyNode_foldl]
    show MRes.bind (destroyContents f0.contents { m1 with frames := [] })
      (fun _ m2 => destroyContents (joinC fsR) m2) = _
    rw [← destroyContents_append]
    rw [show f0.contents ++ joinC fsR = regs.map cleanupOfReg from by
      rw [← joinC_cons, ← hf]
      exact hjoin]
    rw [destroyContents_regs]

/-- C1 (amended): running any sequence of scope pushes, cleanup-record
registrations and commits from the pristine machine and then destroying
everything invokes exactly the armed (committed) actions, each exactly once,
in most-recently-registered-first order — the order of the `specRegs`
journal, which `LIST_INSERT_HEAD` keeps newest-registration-first and which
a commit arms in place without moving the record — and runs nothing for a
registered-but-never-committed record; an unarmed record's destruction is a
no-op, a scope's destruction is the head-first destruction of its children
(depth-first: a child is fully destroyed before the next-older sibling), and
a commit that targets a dead id leaves the run stuck.  The originally
claimed "strict reverse order of commitment" is false; reverse order of
*registration* is what the code implements. -/
theorem reslist_destroy_registration_order :
    (∀ (ops : List ROp),
      match specRegs ops 1 [] with
      | some p =>
          match runR ops initMachine with
          | MRes.ok _ m1 =>
              m1.nextId = p.1 ∧
              joinC m1.frames = p.2.map cleanupOfReg ∧
              destroyAllFrames m1 = MRes.ok () { m1 with
                frames := [],
                events := m1.events ++ (p.2.filterMap Prod.snd).map Ev.customE }
          | _ => False
      | none => runR ops initMachine = MRes.stuck) ∧
    (∀ (cid : Nat) (m : Machine),
      destroyNode (Node.cleanup cid none) m = MRes.ok () m) ∧
    (∀ (sid : Nat) (cs : List Node) (m : Machine),
      destroyNode (Node.scope sid cs) m = destroyContents cs m) ∧
    (∀ (n : Node) (rest : List Node) (m : Machine),
      destroyContents (n :: rest) m =
        MRes.bind (destroyNode n m) (fun _ m1 => destroyContents rest m1)) := by
  refine ⟨?_, ?_, ?_, ?_⟩
  · intro ops
    have h := runR_spec ops initMachine 1 [] [[]] rfl rfl rfl
      (fun hc => List.noConfusion hc) rfl
    cases hs : specRegs ops 1 [] with
    | none =>
      simp only [hs] at h
      exact h
    | some p =>
      obtain ⟨n2, regs2⟩ := p
      simp only [hs] at h
      cases hr : runR ops initMachine with
      | ok a m1 =>
        simp only [hr] at h
        obtain ⟨hm1, hn1, hne1, parts2, hrep2, hflat2⟩ := h
        refine ⟨hn1, ?_, ?_⟩
        · unfold joinC
          rw [hrep2, ← hflat2, List.map_flatten]
        · exact destroyAllFrames_regs m1 regs2 parts2 hrep2 hne1 hflat2
      | raised m1 => simp only [hr] at h
      | abort k => simp only [hr] at h
      | stuck => simp only [hr] at h
  · intro cid m
    rfl
  · intro sid cs m
    rfl
  · intro n rest m
    exact destroyContents_cons n rest m

/-- The original "strict reverse order of commitment" is refuted: register
two records and commit them in reverse registration order (tokens 20 then 10
chronologically); destruction still runs most-recently-registered first,
producing `[20, 10]` — which is not the reverse of the commit order
`[10, 20]`. -/
theorem reslist_destroy_commit_order_counterexample :
    commitsChron ceOps = [20, 10] ∧
    specRegs ceOps 1 [] = some (3, [(2, some 20), (1, some 10)]) ∧
    (match runR ceOps initMachine with
     | MRes.ok _ m1 =>
         destroyAllFrames m1 = MRes.ok () { m1 with
           frames := [],
           events := m1.events ++ [Ev.customE 20, Ev.customE 10] }
     | _ => False) ∧
    [Ev.customE 20, Ev.customE 10] ≠
      ((commitsChron ceOps).reverse.map Ev.customE) := by
  refine ⟨by decide, by decide, ?_, by decide⟩
  have h := runR_spec ceOps initMachine 1 [] [[]] rfl rfl rfl
    (fun hc => List.noConfusion hc) rfl
  simp only [show specRegs ceOps 1 [] = some (3, [(2, some 20), (1, some 10)])
    from by decide] at h
  cases hr : runR ceOps initMachine with
  | ok a m1 =>
    simp only [hr] at h
    obtain ⟨hm1, hn1, hne1, parts2, hrep2, hflat2⟩ := h
    exact destroyAllFrames_regs m1 [(2, some 20), (1, some 10)] parts2
      hrep2 hne1 hflat2
  | raised m1 => simp only [hr] at h
  | abort k => simp only [hr] at h
  | stuck => simp only [hr] at h
